import Mathlib

/-!
K-means clustering with restarts: embedding and verified properties.

Shallow embedding of `k_means_seq_restarts.c` and `k_means_omp_restarts.c`.

Modelling conventions.

* `float` and `double` values are elements of an arbitrary linearly ordered
  field `F` (exact arithmetic: no rounding, no overflow to infinity, no NaN).
  Casts between `float`, `double` and `int` are the canonical maps.
* The update step and the distance kernel are given a second time, in the
  namespace `Rounded`, with the result of every `float` operation rounded by a
  function `rnd`; `round_f32` is the binary32 rounding to nearest, ties to
  even. The statements about the values these two functions compute are made
  there; with `rnd` the identity the two forms coincide.
* `sqrtf` comes from the C library; it is a parameter of every function that
  reaches `distance_pt`. Theorems state the properties of `sqrtf` they use.
* The global arrays are total functions of a natural index. An index taken
  from `labels[i]` (an `int`, possibly the reset value `-1`) is checked
  against the array size `MAX_K`; an access outside it is undefined in C and
  makes the embedded function return `none`.
* `rand()` is a stream `rand : Nat → Nat` of the values successive calls
  return, together with the number of calls made so far.
* A `#pragma omp parallel for schedule(static)` region is given by its
  schedule: the list of index chunks run by the workers, in the order in
  which their results are combined.
* `main` takes the values `atoi` returns for its arguments and, in place of
  the file system, what the loader call does (end the process, or return a
  row count and the loaded state).
* `load_csv` takes, in place of the file name, what `fopen` finds under it
  (nothing when the file cannot be opened, otherwise the lines `fgets`
  delivers) and the row of values `strtof` reads from a line; its result says
  whether the call returned a value or ended the process with `exit`.
* Loop counters and change counts are unbounded integers: `n_points` is at
  most `MAX_POINTS = 1000000`, far below the `int` range. The loop bounds
  `n_points`, `k` and `restarts` are natural numbers; a C value below `1`
  runs no loop iteration, as `0` does here.
-/

set_option linter.unusedSectionVars false

namespace KMeans

/-! ## Constants and state -/

/-- The constant `FEATURES` (8). -/
abbrev FEATURES : Nat := 8

/-- The constant `MAX_K` (10); the parallel file also names it `MAX_CLUSTERS`. -/
abbrev MAX_K : Nat := 10

/-- The constant `MAX_ITER` (2000). -/
abbrev MAX_ITER : Nat := 2000

/-- The constant `FLT_MAX` of `<float.h>`: `2^128 - 2^104`. -/
def FLT_MAX {F : Type} [LinearOrderedField F] : F := 340282346638528859811704183484516925440

/-- One row `float[FEATURES]`. -/
abbrev Point (F : Type) := Fin FEATURES → F

/-- The point whose features all equal `x`. -/
def broadcast {α : Type} (x : α) : Point α := fun _ => x

/-- The file-scope arrays of the programs and the position in the `rand()` stream. -/
structure State (F : Type) where
  /-- The array `static float data[MAX_POINTS][FEATURES]`. -/
  data : Nat → Point F
  /-- The array `static int labels[MAX_POINTS]`. -/
  labels : Nat → Int
  /-- The array `static float centroids[MAX_K][FEATURES]`. -/
  centroids : Nat → Point F
  /-- The array `static float new_centroids[MAX_K][FEATURES]`. -/
  new_centroids : Nat → Point F
  /-- The array `static int counts[MAX_K]`. -/
  counts : Nat → Int
  /-- Number of calls made to `rand()` so far. -/
  rand_calls : Nat

variable {F : Type} [LinearOrderedField F]

/-! ## Distance kernel -/

/-- The function `distance_pt`: accumulate the squared differences feature by feature from
`0.0f`, then take one square root. -/
def distance_pt (sqrtf : F → F) (a b : Point F) : F :=
  sqrtf ((List.finRange FEATURES).foldl
    (fun sum i => let diff := a i - b i; sum + diff * diff) 0)

/-! ## Assignment step -/

/-- Body of the inner loop `for (c = 0; c < k; c++)` of the assignment step,
on the pair `(best_dist, best_cluster)`. -/
def nearest_step (sqrtf : F → F) (centroids : Nat → Point F) (p : Point F)
    (best : F × Nat) (c : Nat) : F × Nat :=
  let d := distance_pt sqrtf p (centroids c)
  if d < best.1 then (d, c) else best

/-- Inner loop of the assignment step, started at `(FLT_MAX, 0)`. -/
def nearest (sqrtf : F → F) (centroids : Nat → Point F) (k : Nat) (p : Point F) : F × Nat :=
  (List.range k).foldl (nearest_step sqrtf centroids p) (FLT_MAX, 0)

/-- Body of the outer loop of the assignment step for point `i`, on the pair
(program state, `changes`). -/
def assign_point (sqrtf : F → F) (k : Nat) (acc : State F × Int) (i : Nat) : State F × Int :=
  let best_cluster : Int := ((nearest sqrtf acc.1.centroids k (acc.1.data i)).2 : Nat)
  if acc.1.labels i ≠ best_cluster then
    ({ acc.1 with labels := Function.update acc.1.labels i best_cluster }, acc.2 + 1)
  else acc

/-- The function `assign_points_seq(n_points, k)`: returns the new state and `changes`. -/
def assign_points_seq (sqrtf : F → F) (n_points k : Nat) (s : State F) : State F × Int :=
  (List.range n_points).foldl (assign_point sqrtf k) (s, 0)

/-- The function `assign_points_omp(n_points, k)` under the schedule `chunks`: every worker
runs the loop body over its chunk with a private `changes` starting at `0`;
the `reduction(+ : changes)` adds the private counters. -/
def assign_points_omp (sqrtf : F → F) (chunks : List (List Nat)) (k : Nat) (s : State F) :
    State F × Int :=
  chunks.foldl
    (fun acc chunk =>
      let r := chunk.foldl (assign_point sqrtf k) (acc.1, 0)
      (r.1, acc.2 + r.2))
    (s, 0)

/-- A schedule of the index range `0 .. n_points - 1`: every index is run by
exactly one worker, exactly once. -/
def IsSchedule (chunks : List (List Nat)) (n_points : Nat) : Prop :=
  List.Perm chunks.flatten (List.range n_points)

/-- The label the assignment step computes for point `i`: `best_cluster` as an `int`. -/
def nearest_label (sqrtf : F → F) (k : Nat) (s : State F) (i : Nat) : Int :=
  ((nearest sqrtf s.centroids k (s.data i)).2 : Nat)

/-- State produced by relabelling exactly the points of `is`. -/
def relabel (sqrtf : F → F) (k : Nat) (s : State F) (is : List Nat) : State F :=
  { s with labels := fun i => if i ∈ is then nearest_label sqrtf k s i else s.labels i }

/-- Number of entries of `is` whose label is not their nearest centroid. -/
def stale (sqrtf : F → F) (k : Nat) (s : State F) (is : List Nat) : Int :=
  ((is.filter (fun i => s.labels i ≠ nearest_label sqrtf k s i)).length : Nat)

/-! ## Update step -/

/-- First loop of the update step: `counts[c] = 0; new_centroids[c][f] = 0.0f` for `c < k`. -/
def reset_accumulators (k : Nat) (s : State F) : State F :=
  (List.range k).foldl
    (fun s c => { s with counts := Function.update s.counts c 0,
                         new_centroids := Function.update s.new_centroids c (fun _ => 0) })
    s

/-- Body of the accumulation loop for point `i`, on a pair of a count array
and a sum array (the global `counts`/`new_centroids` in the sequential
program, `local_counts`/`local_sums` in a worker of the parallel one):
`c = labels[i]; counts[c]++; sums[c][f] += data[i][f]`. The arrays have
`MAX_K` rows, so an index outside `0 .. MAX_K - 1` has no defined outcome. -/
def accumulate_point (data : Nat → Point F) (labels : Nat → Int)
    (acc : (Nat → Int) × (Nat → Point F)) (i : Nat) : Option ((Nat → Int) × (Nat → Point F)) :=
  let c := labels i
  if 0 ≤ c ∧ c < (MAX_K : Int) then
    some (Function.update acc.1 c.toNat (acc.1 c.toNat + 1),
          Function.update acc.2 c.toNat (fun f => acc.2 c.toNat f + data i f))
  else none

/-- Last loop of the update step: for `c < k`, skip an empty cluster, else
`centroids[c][f] = new_centroids[c][f] / counts[c]`. -/
def compute_means (k : Nat) (s : State F) : State F :=
  (List.range k).foldl
    (fun s c =>
      if s.counts c = 0 then s
      else { s with centroids :=
              Function.update s.centroids c (fun f => s.new_centroids c f / ((s.counts c : Int) : F)) })
    s

/-- The function `update_centroids_seq(n_points, k)`. -/
def update_centroids_seq (n_points k : Nat) (s : State F) : Option (State F) :=
  let s1 := reset_accumulators k s
  ((List.range n_points).foldlM (accumulate_point s1.data s1.labels) (s1.counts, s1.new_centroids)).map
    (fun acc => compute_means k { s1 with counts := acc.1, new_centroids := acc.2 })

/-- The critical section of the parallel update step: for `c < k`,
`counts[c] += local_counts[c]; new_centroids[c][f] += local_sums[c][f]`. -/
def merge_local (k : Nat) (loc : (Nat → Int) × (Nat → Point F)) (s : State F) : State F :=
  (List.range k).foldl
    (fun s c => { s with counts := Function.update s.counts c (s.counts c + loc.1 c),
                         new_centroids :=
                           Function.update s.new_centroids c (fun f => s.new_centroids c f + loc.2 c f) })
    s

/-- One worker of the parallel update step: private accumulators start at
zero (`local_counts = {0}`; `local_sums` is zeroed for `c < k`, its other rows
are never read back), take the points of the worker's chunk, and are merged
into the global accumulators. -/
def update_worker (k : Nat) (data : Nat → Point F) (labels : Nat → Int) (s : State F)
    (chunk : List Nat) : Option (State F) :=
  (chunk.foldlM (accumulate_point data labels) (fun _ => 0, fun _ _ => 0)).map
    (fun loc => merge_local k loc s)

/-- The function `update_centroids_omp(n_points, k)` under the schedule `chunks`, whose
order is the order in which the workers enter the critical section. -/
def update_centroids_omp (chunks : List (List Nat)) (k : Nat) (s : State F) : Option (State F) :=
  let s1 := reset_accumulators k s
  (chunks.foldlM (update_worker k s1.data s1.labels) s1).map (compute_means k)

/-- Sum of feature `f` over the points of `is` labelled `c`, in the order of `is`. -/
def cluster_sum (data : Nat → Point F) (labels : Nat → Int) (is : List Nat) (c : Nat)
    (f : Fin FEATURES) : F :=
  ((is.filter (fun i => labels i = (c : Int))).map (fun i => data i f)).sum

/-- Number of points of `is` labelled `c`. -/
def cluster_count (labels : Nat → Int) (is : List Nat) (c : Nat) : Nat :=
  (is.filter (fun i => labels i = (c : Int))).length

/-! ## Accuracy evaluator -/

/-- Body of the accuracy loop: `c = labels[i]; total += distance_pt(data[i], centroids[c])`. -/
def accuracy_point (sqrtf : F → F) (s : State F) (total : F) (i : Nat) : Option F :=
  let c := s.labels i
  if 0 ≤ c ∧ c < (MAX_K : Int) then
    some (total + distance_pt sqrtf (s.data i) (s.centroids c.toNat))
  else none

/-- The function `compute_accuracy_seq(n_points)`. For `n_points = 0` the C code returns
`0.0 / 0.0`, a NaN, which the field model renders as `0`. -/
def compute_accuracy_seq (sqrtf : F → F) (n_points : Nat) (s : State F) : Option F :=
  ((List.range n_points).foldlM (accuracy_point sqrtf s) 0).map (fun total => total / (n_points : F))

/-- The function `compute_accuracy_omp(n_points)` under the schedule `chunks`: private
totals start at `0` and are added by the `reduction(+ : total)`. -/
def compute_accuracy_omp (sqrtf : F → F) (chunks : List (List Nat)) (n_points : Nat)
    (s : State F) : Option F :=
  (chunks.foldlM
    (fun (total : F) (chunk : List Nat) =>
      (chunk.foldlM (accuracy_point sqrtf s) 0).map (fun t => total + t)) 0).map
    (fun total => total / (n_points : F))

/-! ## Centroid initialiser -/

/-- Body of the loop of `init_centroids`: `rand_idx = rand() % n_points;
centroids[c][f] = data[rand_idx][f]`. The remainder by `n_points = 0` has no
defined outcome. -/
def init_centroid (rand : Nat → Nat) (n_points : Nat) (s : State F) (c : Nat) : Option (State F) :=
  if n_points = 0 then none
  else
    let rand_idx := rand s.rand_calls % n_points
    some { s with centroids := Function.update s.centroids c (s.data rand_idx),
                  rand_calls := s.rand_calls + 1 }

/-- The function `init_centroids(k, n_points)`. -/
def init_centroids (rand : Nat → Nat) (k n_points : Nat) (s : State F) : Option (State F) :=
  (List.range k).foldlM (init_centroid rand n_points) s

/-! ## Refinement loop and restart orchestration (`main`) -/

/-- The programs differ only in which assignment step, update step and
accuracy evaluator their `main` calls. -/
structure Steps (F : Type) where
  /-- Either `assign_points_seq(n_points, k)` or `assign_points_omp(n_points, k)` -/
  assign : State F → State F × Int
  /-- Either `update_centroids_seq(n_points, k)` or `update_centroids_omp(n_points, k)` -/
  update : State F → Option (State F)
  /-- Either `compute_accuracy_seq(n_points)` or `compute_accuracy_omp(n_points)` -/
  accuracy : State F → Option F

/-- The steps called by `main` of `k_means_seq_restarts.c`. -/
def seq_steps (sqrtf : F → F) (n_points k : Nat) : Steps F :=
  { assign := assign_points_seq sqrtf n_points k,
    update := update_centroids_seq n_points k,
    accuracy := compute_accuracy_seq sqrtf n_points }

/-- The steps called by `main` of `k_means_omp_restarts.c`, under the static schedule `chunks`. -/
def omp_steps (sqrtf : F → F) (chunks : List (List Nat)) (n_points k : Nat) : Steps F :=
  { assign := assign_points_omp sqrtf chunks k,
    update := update_centroids_omp chunks k,
    accuracy := compute_accuracy_omp sqrtf chunks n_points }

/-- The programs `main` can run: the sequential one, or the parallel one under a schedule. -/
def IsProgram (sqrtf : F → F) (n k : Nat) (st : Steps F) : Prop :=
  st = seq_steps sqrtf n k ∨ ∃ chunks, IsSchedule chunks n ∧ st = omp_steps sqrtf chunks n k

/-- One pass of the body of `for (iter = 0; iter < MAX_ITER; iter++)`: the
assignment step, then the update step; yields the new state and `changes`. -/
def iteration (st : Steps F) (s : State F) : Option (State F × Int) :=
  (st.update (st.assign s).1).map (fun s2 => (s2, (st.assign s).2))

/-- The loop `for (iter = 0; iter < MAX_ITER; iter++) { ...; iters_done = iter + 1;
if (changes == 0) break; }` with `remaining = MAX_ITER - iter` passes left.
Returns the final state and `iters_done` (the sequential program keeps no
`iters_done` variable; there it is the number of `total_iters++` executed). -/
def refine_loop (st : Steps F) : Nat → Nat → State F → Option (State F × Nat)
  | 0, iters_done, s => some (s, iters_done)
  | remaining + 1, iters_done, s =>
    match iteration st s with
    | none => none
    | some (s2, changes) =>
      if changes = 0 then some (s2, iters_done + 1)
      else refine_loop st remaining (iters_done + 1) s2

/-- The loop `for (i = 0; i < n_points; i++) labels[i] = -1;`. -/
def reset_labels (n_points : Nat) (s : State F) : State F :=
  (List.range n_points).foldl (fun s i => { s with labels := Function.update s.labels i (-1) }) s

/-- The function `copy_centroids(dst, src, k)`. -/
def copy_centroids (dst src : Nat → Point F) (k : Nat) : Nat → Point F :=
  (List.range k).foldl (fun dst c => Function.update dst c (src c)) dst

/-- Outcome of one restart up to the accuracy evaluation. -/
structure Trial (F : Type) where
  /-- Program state after the restart. -/
  state : State F
  /-- The variable `iters_done`. -/
  iters_done : Nat
  /-- The variable `acc`. -/
  acc : F

/-- The body of the restart loop up to `acc = compute_accuracy(n_points)`:
reset the labels, draw the centroids, refine, evaluate. -/
def run_trial (st : Steps F) (rand : Nat → Nat) (n_points k : Nat) (s : State F) :
    Option (Trial F) :=
  (init_centroids rand k n_points (reset_labels n_points s)).bind fun s1 =>
  (refine_loop st MAX_ITER 0 s1).bind fun r =>
  (st.accuracy r.1).map fun acc => { state := r.1, iters_done := r.2, acc := acc }

/-- The best result kept across restarts. -/
structure Best (F : Type) where
  /-- The array `best_centroids`. -/
  best_centroids : Nat → Point F
  /-- The variable `best_accuracy` (`best_acc` in the parallel program). -/
  best_accuracy : F
  /-- The variable `best_restart`. -/
  best_restart : Int
  /-- The variable `best_iters` (parallel program only). -/
  best_iters : Int

/-- The values before the restart loop: `FLT_MAX`, `-1`, `-1`; `bc0` is the
content of `best_centroids` at that point. -/
def init_best (bc0 : Nat → Point F) : Best F :=
  { best_centroids := bc0, best_accuracy := FLT_MAX, best_restart := -1, best_iters := -1 }

/-- The end of the body of the restart loop: `if (acc < best_acc) { ... }`. -/
def select (k : Nat) (b : Best F) (r : Nat) (t : Trial F) : Best F :=
  if t.acc < b.best_accuracy then
    { best_accuracy := t.acc, best_restart := (r : Int), best_iters := (t.iters_done : Int),
      best_centroids := copy_centroids b.best_centroids t.state.centroids k }
  else b

/-- Body of `for (r = 0; r < restarts; r++)`. -/
def restart_body (st : Steps F) (rand : Nat → Nat) (n_points k : Nat)
    (sb : State F × Best F) (r : Nat) : Option (State F × Best F) :=
  (run_trial st rand n_points k sb.1).map fun t => (t.state, select k sb.2 r t)

/-- The restart loop of `main`, from the state `s` left by the loader. -/
def run_restarts (st : Steps F) (rand : Nat → Nat) (n_points k restarts : Nat)
    (s : State F) (bc0 : Nat → Point F) : Option (State F × Best F) :=
  (List.range restarts).foldlM (restart_body st rand n_points k) (s, init_best bc0)

/-! ## Observers used to state the properties -/

/-- The program state left by the trials `ts` run from `s`. -/
def last_state (s : State F) (ts : List (Trial F)) : State F :=
  (ts.getLast?.map Trial.state).getD s

/-- The trials of restarts `0 .. restarts - 1`, in order. -/
def trials (st : Steps F) (rand : Nat → Nat) (n_points k : Nat) (s : State F) :
    Nat → Option (List (Trial F))
  | 0 => some []
  | restarts + 1 =>
    (trials st rand n_points k s restarts).bind fun ts =>
    (run_trial st rand n_points k (last_state s ts)).map fun t => ts ++ [t]

/-- What the best result holds after the trials `ts`: either no trial had an
accuracy below `FLT_MAX` and it still holds the initial values, or it holds
the accuracy, index, iteration count and first `k` centroids of the first
trial (in restart order) whose accuracy is minimal. -/
def BestOf (k : Nat) (bc0 : Nat → Point F) (ts : List (Trial F)) (b : Best F) : Prop :=
  (b = init_best bc0 ∧ ∀ u, u ∈ ts → FLT_MAX ≤ u.acc) ∨
  (∃ (r : Nat) (t : Trial F), ts[r]? = some t ∧ t.acc < FLT_MAX ∧
    b.best_restart = (r : Int) ∧ b.best_accuracy = t.acc ∧ b.best_iters = (t.iters_done : Int) ∧
    (∀ c, c < k → b.best_centroids c = t.state.centroids c) ∧
    (∀ c, k ≤ c → b.best_centroids c = bc0 c) ∧
    (∀ u, u ∈ ts → t.acc ≤ u.acc) ∧
    (∀ (j : Nat) (u : Trial F), j < r → ts[j]? = some u → t.acc < u.acc))

/-- The state after `j` passes of the refinement loop body, with the list of
the `changes` values the `j` assignment steps returned, in order. -/
def passes (st : Steps F) : Nat → State F → Option (State F × List Int)
  | 0, s => some (s, [])
  | j + 1, s =>
    (iteration st s).bind fun r => (passes st j r.1).map fun q => (q.1, r.2 :: q.2)

/-- Sum of the distances of the points of `is` to their assigned centroids, in the order of `is`. -/
def distance_sum (sqrtf : F → F) (s : State F) (is : List Nat) : F :=
  (is.map (fun i => distance_pt sqrtf (s.data i) (s.centroids (s.labels i).toNat))).sum

/-- Every label of a point `i < n_points` is a row index of the per-cluster arrays. -/
def LabelsInBounds (n_points : Nat) (s : State F) : Prop :=
  ∀ i, i < n_points → 0 ≤ s.labels i ∧ s.labels i < (MAX_K : Int)

/-! ## Concrete inputs taken from the test programs -/

/-- The input of `test_update_centroids_basic`: points `1, 2, 10, 12`
(broadcast over the features) labelled `0, 0, 1, 1`, everything else zeroed. -/
def basic_state : State ℚ :=
  { data := fun i => broadcast (if i = 0 then 1 else if i = 1 then 2 else if i = 2 then 10
      else if i = 3 then 12 else 0),
    labels := fun i => if i = 2 ∨ i = 3 then 1 else 0,
    centroids := fun _ => broadcast 0,
    new_centroids := fun _ => broadcast 0,
    counts := fun _ => 0,
    rand_calls := 0 }

/-- The input of `test_update_centroids_empty_cluster`: points `5, 7` both
labelled `0`, centroid `1` preset to `999`. -/
def empty_cluster_state : State ℚ :=
  { data := fun i => broadcast (if i = 0 then 5 else if i = 1 then 7 else 0),
    labels := fun _ => 0,
    centroids := fun c => broadcast (if c = 1 then 999 else 0),
    new_centroids := fun _ => broadcast 0,
    counts := fun _ => 0,
    rand_calls := 0 }

/-- The input of `test_assign_points_seq`: points `0, 10`, centroids `1, 9`, labels `-1`. -/
def assign_test_state : State ℚ :=
  { data := fun i => broadcast (if i = 1 then 10 else 0),
    labels := fun i => if i < 2 then -1 else 0,
    centroids := fun c => broadcast (if c = 0 then 1 else if c = 1 then 9 else 0),
    new_centroids := fun _ => broadcast 0,
    counts := fun _ => 0,
    rand_calls := 0 }

/-- A dataset of two points whose features are representable `float` values:
`(-FLT_MAX, -FLT_MAX, -FLT_MAX, -FLT_MAX, 0, 0, 0, 0)` and its negation. -/
def far_state : State ℚ :=
  { data := fun i f =>
      if i = 0 then (if f.val < 4 then -FLT_MAX else 0)
      else if i = 1 then (if f.val < 4 then FLT_MAX else 0) else 0,
    labels := fun _ => 0,
    centroids := fun _ => broadcast 0,
    new_centroids := fun _ => broadcast 0,
    counts := fun _ => 0,
    rand_calls := 0 }

/-- The dataset of the two-point end-to-end scenario: point `0` is `(0, ..., 0)`
and point `1` is `(10, ..., 10)`. -/
def TwoPoints (s : State F) : Prop :=
  s.data 0 = broadcast 0 ∧ s.data 1 = broadcast 10

/-- The facts about `sqrtf` the two-point scenario uses: `sqrtf 0 = 0`,
`sqrtf` is increasing from `0` to `200` to `800`, and `sqrtf 800 < FLT_MAX`. -/
def SqrtfFacts (sqrtf : F → F) : Prop :=
  sqrtf 0 = 0 ∧ 0 < sqrtf 200 ∧ sqrtf 200 < sqrtf 800 ∧ sqrtf 800 < FLT_MAX

/-- The outcome of the two-point scenario: the two points carry different
labels and each centroid `0`, `1` is the point labelled with it. -/
def Separated (s : State F) : Prop :=
  TwoPoints s ∧
  ((s.labels 0 = 0 ∧ s.labels 1 = 1 ∧ s.centroids 0 = broadcast 0 ∧ s.centroids 1 = broadcast 10) ∨
   (s.labels 0 = 1 ∧ s.labels 1 = 0 ∧ s.centroids 0 = broadcast 10 ∧ s.centroids 1 = broadcast 0))

/-- The two-point dataset as the loader leaves it: points `(0, ..., 0)` and
`(10, ..., 10)`, everything else zero-initialised. -/
def two_points_state : State F :=
  { data := fun i => broadcast (if i = 1 then 10 else 0),
    labels := fun _ => 0,
    centroids := fun _ => broadcast 0,
    new_centroids := fun _ => broadcast 0,
    counts := fun _ => 0,
    rand_calls := 0 }

/-- The second point of the 3-4-5 case of `test_distance.c`: `(3, 4, 0, ..., 0)`. -/
def point_3_4 : Point F := fun i => if i = 0 then 3 else if i = 1 then 4 else 0

/-- The points of the zero-distance case of `test_distance.c`: feature `i` is `i`. -/
def point_ramp : Point F := fun i => (i.val : F)

/-! ## The function `main`: argument validation, loading, restart loop -/

/-- The constant `DEFAULT_RESTARTS` (100). -/
abbrev DEFAULT_RESTARTS : Nat := 100

/-- The constant `MAX_RESTARTS` (1000) of the parallel program. -/
abbrev MAX_RESTARTS : Nat := 1000

/-- What the call of the loader (`load_csv_flexible` or `load_csv`) does, as
`main` sees it: it ends the process with `exit(1)`, or it returns the number
of rows read and leaves the program state `s` with `data` filled. -/
inductive LoadOutcome (F : Type) where
  | exits : LoadOutcome F
  | returns (n_points : Nat) (s : State F) : LoadOutcome F

/-- How a run of `main` ends, by the program point reached. -/
inductive MainResult (F : Type) where
  /-- Returned `1` at `if (argc < 3)`. -/
  | usage : MainResult F
  /-- Returned `1` at the check of the cluster count, before the loader call. -/
  | bad_k : MainResult F
  /-- Returned `1` at the check of the restart count, before the loader call. -/
  | bad_restarts : MainResult F
  /-- The loader ended the process. -/
  | load_exit : MainResult F
  /-- The restart loop reached an operation without a defined outcome. -/
  | undefined : MainResult F
  /-- Returned `0` after `restarts` restarts over `n_points` points. -/
  | finished (n_points restarts : Nat) (s : State F) (b : Best F) : MainResult F

/-- The part of `main` after the argument checks, shared by both programs:
call the loader, run the restart loop with the steps `st n_points` of the
program, return `0`. -/
def main_run (st : Nat → Steps F) (rand : Nat → Nat) (k restarts : Nat)
    (load : LoadOutcome F) (bc0 : Nat → Point F) : MainResult F :=
  match load with
  | LoadOutcome.exits => MainResult.load_exit
  | LoadOutcome.returns n_points s =>
    match run_restarts (st n_points) rand n_points k restarts s bc0 with
    | none => MainResult.undefined
    | some sb => MainResult.finished n_points restarts sb.1 sb.2

/-- The function `main` of `k_means_seq_restarts.c`. `argv2` and `argv3` are
the values `atoi(argv[2])` and `atoi(argv[3])` (the latter read only when
`argc >= 4`); `load` is what the loader call does; `bc0` is the initial
content of the local array `best_centroids`. -/
def main_seq (sqrtf : F → F) (rand : Nat → Nat) (argc : Nat) (argv2 argv3 : Int)
    (load : LoadOutcome F) (bc0 : Nat → Point F) : MainResult F :=
  if argc < 3 then MainResult.usage
  else
    let k := argv2
    let restarts := if 4 ≤ argc then argv3 else (DEFAULT_RESTARTS : Int)
    if k ≤ 0 ∨ k > (MAX_K : Int) then MainResult.bad_k
    else if restarts ≤ 0 then MainResult.bad_restarts
    else main_run (fun n_points => seq_steps sqrtf n_points k.toNat) rand k.toNat
      restarts.toNat load bc0

/-- The function `main` of `k_means_omp_restarts.c`. The arguments are those
of `main_seq`; `sched n` is the static schedule of the thread team over `n`
points. The cluster count is checked twice (against `MAX_CLUSTERS`, then
against `MAX_K`, both 10); a restart count below `1` is replaced by
`DEFAULT_RESTARTS`, one above `MAX_RESTARTS` is rejected. -/
def main_omp (sqrtf : F → F) (sched : Nat → List (List Nat)) (rand : Nat → Nat) (argc : Nat)
    (argv2 argv3 : Int) (load : LoadOutcome F) (bc0 : Nat → Point F) : MainResult F :=
  if argc < 3 then MainResult.usage
  else
    let k := argv2
    if k ≤ 0 ∨ k > (MAX_K : Int) then MainResult.bad_k
    else
      let restarts := if 4 ≤ argc then argv3 else (DEFAULT_RESTARTS : Int)
      if k ≤ 0 ∨ k > (MAX_K : Int) then MainResult.bad_k
      else if restarts ≤ 0 then
        main_run (fun n_points => omp_steps sqrtf (sched n_points) n_points k.toNat) rand
          k.toNat DEFAULT_RESTARTS load bc0
      else if restarts > (MAX_RESTARTS : Int) then MainResult.bad_restarts
      else
        main_run (fun n_points => omp_steps sqrtf (sched n_points) n_points k.toNat) rand
          k.toNat restarts.toNat load bc0

/-- The program state after loading an empty file: every static array is zero-initialised. -/
def zero_state : State F :=
  { data := fun _ => broadcast 0,
    labels := fun _ => 0,
    centroids := fun _ => broadcast 0,
    new_centroids := fun _ => broadcast 0,
    counts := fun _ => 0,
    rand_calls := 0 }

/-- The input of `test_compute_accuracy_seq`: the point `(0, ..., 0)` labelled
`0`, centroid `0` at `(1, ..., 1)`. -/
def accuracy_test_state : State F :=
  { data := fun _ => broadcast 0,
    labels := fun _ => 0,
    centroids := fun c => broadcast (if c = 0 then 1 else 0),
    new_centroids := fun _ => broadcast 0,
    counts := fun _ => 0,
    rand_calls := 0 }

/-! ## The loader of the parallel program -/

/-- The constant `MAX_POINTS`, the capacity of `data` and `labels`. -/
abbrev MAX_POINTS : Nat := 1000000

/-- How a call of `load_csv` ends: the process is ended by `exit(status)`, or
the call returns `value` to its caller and leaves the program state `s`. -/
inductive LoadCall (F : Type) where
  | exited (status : Int) : LoadCall F
  | returned (value : Int) (s : State F) : LoadCall F

/-- One pass of the body of `while (fgets(line, sizeof(line), fp) && idx < max_points)`:
row `idx` of `data` receives the 8 values `strtof` reads from the line, then `idx++`. -/
def load_row {L : Type} (strtof_row : L → Point F) (acc : State F × Nat) (line : L) :
    State F × Nat :=
  ({ acc.1 with data := Function.update acc.1.data acc.2 (strtof_row line) }, acc.2 + 1)

/-- The function `load_csv(filename, max_points)`. `file` is what `fopen`
finds under the name: `none` when the file cannot be opened, otherwise the
lines `fgets` delivers in order; `strtof_row line` is the row of 8 results of
`strtof` on a line. When `fopen` fails the code runs `perror(...); exit(1);`. -/
def load_csv {L : Type} (strtof_row : L → Point F) (file : Option (List L)) (max_points : Nat)
    (s : State F) : LoadCall F :=
  match file with
  | none => LoadCall.exited 1
  | some lines =>
    let r := (lines.take max_points).foldl (load_row strtof_row) (s, 0)
    LoadCall.returned (r.2 : Nat) r.1

/-! ## Float arithmetic with rounding

The definitions above compute with exact field operations. The definitions of
this section follow the same source lines with every `float` operation
rounded: the result of `x + y`, `x - y`, `x * y`, `x / y` on `float` operands,
and of the conversion of an `int` to `float`, is `rnd` of the exact result,
where `rnd : F → F` sends a number to the nearest `float` (each operation
rounded on its own, as with `FLT_EVAL_METHOD` 0 and no fused multiply-add).
Overflow to an infinity and NaN are not represented. With `rnd` the identity
they are the definitions above. -/

/-- Round to the nearest integer, a tie going to the even integer. -/
def round_half_even [FloorRing F] (x : F) : Int :=
  if x - (⌊x⌋ : Int) < 1 / 2 then ⌊x⌋
  else if 1 / 2 < x - (⌊x⌋ : Int) then ⌊x⌋ + 1
  else if ⌊x⌋ % 2 = 0 then ⌊x⌋ else ⌊x⌋ + 1

/-- The exponent `e` of the binade `2^e <= |x| < 2^(e+1)` of `x`, not below
the least exponent `-126` of a normal `float` (and `0` for `x = 0`). -/
def float_exponent [FloorRing F] (x : F) : Int := max (Int.log 2 |x|) (-126)

/-- The IEEE 754 binary32 (`float`) rounding to nearest, ties to even, of the
number `x`: the nearest multiple of `2^(e - 23)`, where `e` is the exponent of
`x` (24 significant bits; multiples of `2^-149` below `2^-126`). The exponent
is not bounded above: a result beyond `FLT_MAX` stands for an overflow. -/
def round_f32 [FloorRing F] (x : F) : F :=
  (round_half_even (x / (2 : F) ^ (float_exponent x - 23)) : F) *
    (2 : F) ^ (float_exponent x - 23)

/-- The running sum `acc += x` over the values `xs` in order, started at
`init`, each addition rounded. -/
def float_sum (rnd : F → F) (init : F) (xs : List F) : F :=
  xs.foldl (fun acc x => rnd (acc + x)) init

/-- The values of feature `f` of the points of `is` labelled `c`, in the order of `is`. -/
def cluster_values (data : Nat → Point F) (labels : Nat → Int) (is : List Nat) (c : Nat)
    (f : Fin FEATURES) : List F :=
  (is.filter (fun i => labels i = (c : Int))).map (fun i => data i f)

namespace Rounded

/-- The function `distance_pt` with rounding: `diff = a[i] - b[i]` and
`sum += diff * diff` round the difference, the product and the sum. -/
def distance_pt (rnd sqrtf : F → F) (a b : Point F) : F :=
  sqrtf ((List.finRange FEATURES).foldl
    (fun sum i => let diff := rnd (a i - b i); rnd (sum + rnd (diff * diff))) 0)

/-- Body of the accumulation loop for point `i` with rounding:
`c = labels[i]; counts[c]++; sums[c][f] += data[i][f]`. -/
def accumulate_point (rnd : F → F) (data : Nat → Point F) (labels : Nat → Int)
    (acc : (Nat → Int) × (Nat → Point F)) (i : Nat) : Option ((Nat → Int) × (Nat → Point F)) :=
  let c := labels i
  if 0 ≤ c ∧ c < (MAX_K : Int) then
    some (Function.update acc.1 c.toNat (acc.1 c.toNat + 1),
          Function.update acc.2 c.toNat (fun f => rnd (acc.2 c.toNat f + data i f)))
  else none

/-- Last loop of the update step with rounding: for `c < k`, skip an empty
cluster, else `centroids[c][f] = new_centroids[c][f] / counts[c]`, where
`counts[c]` is converted to `float` and the quotient is rounded. -/
def compute_means (rnd : F → F) (k : Nat) (s : State F) : State F :=
  (List.range k).foldl
    (fun s c =>
      if s.counts c = 0 then s
      else
        let mean : Point F := fun f => rnd (s.new_centroids c f / rnd ((s.counts c : Int) : F))
        { s with centroids := Function.update s.centroids c mean })
    s

/-- The function `update_centroids_seq(n_points, k)` with rounding. -/
def update_centroids_seq (rnd : F → F) (n_points k : Nat) (s : State F) : Option (State F) :=
  let s1 := reset_accumulators k s
  ((List.range n_points).foldlM (accumulate_point rnd s1.data s1.labels)
      (s1.counts, s1.new_centroids)).map
    (fun acc => compute_means rnd k { s1 with counts := acc.1, new_centroids := acc.2 })

/-- The critical section of the parallel update step with rounding: for `c < k`,
`counts[c] += local_counts[c]; new_centroids[c][f] += local_sums[c][f]`. -/
def merge_local (rnd : F → F) (k : Nat) (loc : (Nat → Int) × (Nat → Point F)) (s : State F) :
    State F :=
  (List.range k).foldl
    (fun s c =>
      let sums : Point F := fun f => rnd (s.new_centroids c f + loc.2 c f)
      { s with counts := Function.update s.counts c (s.counts c + loc.1 c),
               new_centroids := Function.update s.new_centroids c sums })
    s

/-- One worker of the parallel update step with rounding: private
accumulators start at zero, take the points of the worker's chunk in order, and
are merged into the global accumulators. -/
def update_worker (rnd : F → F) (k : Nat) (data : Nat → Point F) (labels : Nat → Int)
    (s : State F) (chunk : List Nat) : Option (State F) :=
  (chunk.foldlM (accumulate_point rnd data labels) (fun _ => 0, fun _ _ => 0)).map
    (fun loc => merge_local rnd k loc s)

/-- The function `update_centroids_omp(n_points, k)` with rounding, under the
schedule `chunks`, whose order is the order in which the workers enter the
critical section. -/
def update_centroids_omp (rnd : F → F) (chunks : List (List Nat)) (k : Nat) (s : State F) :
    Option (State F) :=
  let s1 := reset_accumulators k s
  (chunks.foldlM (update_worker rnd k s1.data s1.labels) s1).map (compute_means rnd k)

end Rounded

/-- Four points `2^24, 1, 1, -2^24` (broadcast over the features), all
labelled `0`, everything else zeroed. -/
def absorption_state : State ℚ :=
  { data := fun i => broadcast (if i = 0 then 16777216 else if i = 1 then 1 else if i = 2 then 1
      else if i = 3 then -16777216 else 0),
    labels := fun _ => 0,
    centroids := fun _ => broadcast 0,
    new_centroids := fun _ => broadcast 0,
    counts := fun _ => 0,
    rand_calls := 0 }

/-- The vector `(2^-80, 0, ..., 0)`; `2^-80` is a `float`. -/
def point_tiny : Point F := fun i => if i = 0 then (2 : F) ^ (-80 : Int) else 0

/-! ## Assignment step: lemmas -/

theorem flt_max_pos : (0 : F) < FLT_MAX := by
  unfold FLT_MAX
  norm_num

theorem nearest_step_fst_le (sqrtf : F → F) (cents : Nat → Point F) (p : Point F)
    (best : F × Nat) (c : Nat) :
    (nearest_step sqrtf cents p best c).1 ≤ best.1 ∧
      (nearest_step sqrtf cents p best c).1 ≤ distance_pt sqrtf p (cents c) := by
  unfold nearest_step
  by_cases h : distance_pt sqrtf p (cents c) < best.1
  · simp [h, le_of_lt h]
  · simp [h, not_lt.mp h]

/-- Loop invariant of the inner loop of the assignment step after `j` centroids. -/
theorem nearest_fold_inv (sqrtf : F → F) (cents : Nat → Point F) (p : Point F) (j : Nat) :
    let b := (List.range j).foldl (nearest_step sqrtf cents p) (FLT_MAX, 0)
    (b.1 = FLT_MAX ∧ b.2 = 0 ∧ ∀ c, c < j → FLT_MAX ≤ distance_pt sqrtf p (cents c)) ∨
    (b.2 < j ∧ b.1 = distance_pt sqrtf p (cents b.2) ∧ b.1 < FLT_MAX ∧
      (∀ c, c < j → b.1 ≤ distance_pt sqrtf p (cents c)) ∧
      (∀ c, c < b.2 → b.1 < distance_pt sqrtf p (cents c))) := by
  induction j with
  | zero => left; simp
  | succ j ih =>
    simp only [List.range_succ, List.foldl_append, List.foldl_cons, List.foldl_nil]
    simp only at ih
    generalize (List.range j).foldl (nearest_step sqrtf cents p) (FLT_MAX, 0) = b at ih
    unfold nearest_step
    by_cases h : distance_pt sqrtf p (cents j) < b.1
    · right
      simp only [h, if_true]
      rcases ih with ⟨h1, _, h3⟩ | ⟨_, _, h3, h4, _⟩
      · refine ⟨Nat.lt_succ_self j, trivial, h1 ▸ h, ?_, ?_⟩
        · intro c hc
          rcases Nat.lt_succ_iff_lt_or_eq.mp hc with hc | hc
          · exact le_trans (le_of_lt (h1 ▸ h)) (h3 c hc)
          · rw [hc]
        · intro c hc
          exact lt_of_lt_of_le (h1 ▸ h) (h3 c hc)
      · refine ⟨Nat.lt_succ_self j, trivial, lt_trans h h3, ?_, ?_⟩
        · intro c hc
          rcases Nat.lt_succ_iff_lt_or_eq.mp hc with hc | hc
          · exact le_trans (le_of_lt h) (h4 c hc)
          · rw [hc]
        · intro c hc
          exact lt_of_lt_of_le h (h4 c hc)
    · simp only [h, if_false]
      have h := not_lt.mp h
      rcases ih with ⟨h1, h2, h3⟩ | ⟨h1, h2, h3, h4, h5⟩
      · left
        refine ⟨h1, h2, ?_⟩
        intro c hc
        rcases Nat.lt_succ_iff_lt_or_eq.mp hc with hc | hc
        · exact h3 c hc
        · rw [hc, ← h1]; exact h
      · right
        refine ⟨Nat.lt_succ_of_lt h1, h2, h3, ?_, h5⟩
        intro c hc
        rcases Nat.lt_succ_iff_lt_or_eq.mp hc with hc | hc
        · exact h4 c hc
        · rw [hc]; exact h

/-- The index chosen by the inner loop is `0` or a valid centroid index. -/
theorem nearest_snd_lt (sqrtf : F → F) (cents : Nat → Point F) (p : Point F) (k : Nat) :
    (nearest sqrtf cents k p).2 < max k 1 := by
  have h := nearest_fold_inv sqrtf cents p k
  simp only at h
  unfold nearest
  rcases h with ⟨_, h2, _⟩ | ⟨h1, _⟩
  · rw [h2]; exact lt_of_lt_of_le Nat.one_pos (le_max_right k 1)
  · exact lt_of_lt_of_le h1 (le_max_left k 1)

/-- With one cluster every point is labelled `0`. -/
theorem nearest_label_one (sqrtf : F → F) (s : State F) (i : Nat) :
    nearest_label sqrtf 1 s i = 0 := by
  have h := nearest_snd_lt sqrtf s.centroids (s.data i) 1
  unfold nearest_label
  have : (nearest sqrtf s.centroids 1 (s.data i)).2 = 0 := by
    simpa using h
  rw [this]
  rfl

/-- The loop body leaves everything but `labels` untouched. -/
theorem assign_point_frame (sqrtf : F → F) (k : Nat) (acc : State F × Int) (i : Nat) :
    (assign_point sqrtf k acc i).1.data = acc.1.data ∧
    (assign_point sqrtf k acc i).1.centroids = acc.1.centroids ∧
    (assign_point sqrtf k acc i).1.new_centroids = acc.1.new_centroids ∧
    (assign_point sqrtf k acc i).1.counts = acc.1.counts ∧
    (assign_point sqrtf k acc i).1.rand_calls = acc.1.rand_calls := by
  unfold assign_point
  by_cases h : acc.1.labels i = ((nearest sqrtf acc.1.centroids k (acc.1.data i)).2 : Nat) <;>
    simp [h]

theorem nearest_label_relabel (sqrtf : F → F) (k : Nat) (s : State F) (is : List Nat) (i : Nat) :
    nearest_label sqrtf k (relabel sqrtf k s is) i = nearest_label sqrtf k s i := rfl

theorem State.ext_fields {s t : State F} (h1 : s.data = t.data) (h2 : s.labels = t.labels)
    (h3 : s.centroids = t.centroids) (h4 : s.new_centroids = t.new_centroids)
    (h5 : s.counts = t.counts) (h6 : s.rand_calls = t.rand_calls) : s = t := by
  cases s; cases t; simp_all

/-- One step of the outer loop, in closed form. -/
theorem assign_point_eq (sqrtf : F → F) (k : Nat) (s : State F) (ch : Int) (i : Nat) :
    assign_point sqrtf k (s, ch) i =
      (relabel sqrtf k s [i], ch + if s.labels i ≠ nearest_label sqrtf k s i then 1 else 0) := by
  unfold assign_point relabel nearest_label
  by_cases h : s.labels i = ((nearest sqrtf s.centroids k (s.data i)).2 : Nat)
  · simp only [ne_eq, h, not_true_eq_false, if_false, add_zero, List.mem_singleton]
    congr 1
    apply State.ext_fields <;> try rfl
    funext j
    by_cases hj : j = i
    · simp [hj, h]
    · simp [hj]
  · simp only [ne_eq, h, not_false_eq_true, if_true, List.mem_singleton]
    congr 1
    apply State.ext_fields <;> try rfl
    funext j
    by_cases hj : j = i
    · subst hj; simp
    · simp [hj, Function.update_noteq hj]

theorem relabel_relabel (sqrtf : F → F) (k : Nat) (s : State F) (is js : List Nat) :
    relabel sqrtf k (relabel sqrtf k s is) js = relabel sqrtf k s (is ++ js) := by
  unfold relabel
  apply State.ext_fields <;> try rfl
  funext j
  simp only [nearest_label, List.mem_append]
  by_cases h1 : j ∈ js <;> by_cases h2 : j ∈ is <;> simp [h1, h2]

theorem stale_relabel_of_disjoint (sqrtf : F → F) (k : Nat) (s : State F) (is js : List Nat)
    (h : ∀ j, j ∈ js → j ∉ is) :
    stale sqrtf k (relabel sqrtf k s is) js = stale sqrtf k s js := by
  unfold stale
  congr 2
  apply List.filter_congr
  intro j hj
  simp [relabel, nearest_label, h j hj]

theorem stale_append (sqrtf : F → F) (k : Nat) (s : State F) (is js : List Nat) :
    stale sqrtf k s (is ++ js) = stale sqrtf k s is + stale sqrtf k s js := by
  simp [stale, List.filter_append]

/-- The outer loop of the assignment step over any list of distinct indices, in closed form. -/
theorem assign_fold_eq (sqrtf : F → F) (k : Nat) (is : List Nat) (hnd : is.Nodup)
    (s : State F) (ch : Int) :
    is.foldl (assign_point sqrtf k) (s, ch) = (relabel sqrtf k s is, ch + stale sqrtf k s is) := by
  induction is generalizing s ch with
  | nil =>
    simp only [List.foldl_nil, stale, List.filter_nil, List.length_nil, Nat.cast_zero, add_zero]
    congr 1
  | cons i is ih =>
    rw [List.foldl_cons, assign_point_eq, ih (List.nodup_cons.mp hnd).2, relabel_relabel]
    have h1 : stale sqrtf k (relabel sqrtf k s [i]) is = stale sqrtf k s is := by
      apply stale_relabel_of_disjoint
      intro j hj hji
      rw [List.mem_singleton] at hji
      exact (List.nodup_cons.mp hnd).1 (hji ▸ hj)
    have h2 : stale sqrtf k s (i :: is) =
        (if s.labels i ≠ nearest_label sqrtf k s i then 1 else 0) + stale sqrtf k s is := by
      have := stale_append sqrtf k s [i] is
      rw [List.singleton_append] at this
      rw [this]
      congr 1
      unfold stale
      by_cases h : s.labels i = nearest_label sqrtf k s i <;> simp [h]
    rw [h1, h2, List.singleton_append, add_assoc]

/-- The sequential assignment step in closed form. -/
theorem assign_points_seq_eq (sqrtf : F → F) (n k : Nat) (s : State F) :
    assign_points_seq sqrtf n k s =
      (relabel sqrtf k s (List.range n), stale sqrtf k s (List.range n)) := by
  unfold assign_points_seq
  rw [assign_fold_eq sqrtf k _ (List.nodup_range n), zero_add]

theorem assign_chunks_eq (sqrtf : F → F) (k : Nat) (chunks : List (List Nat))
    (hnd : chunks.flatten.Nodup) (s : State F) (ch : Int) :
    chunks.foldl
      (fun acc chunk =>
        let r := chunk.foldl (assign_point sqrtf k) (acc.1, 0)
        (r.1, acc.2 + r.2))
      (s, ch) = (relabel sqrtf k s chunks.flatten, ch + stale sqrtf k s chunks.flatten) := by
  induction chunks generalizing s ch with
  | nil =>
    simp only [List.foldl_nil, List.flatten_nil, stale, List.filter_nil, List.length_nil,
      Nat.cast_zero, add_zero]
    congr 1
  | cons c cs ih =>
    rw [List.flatten_cons] at hnd
    have hc := (List.nodup_append.mp hnd).1
    have hcs := (List.nodup_append.mp hnd).2.1
    have hdis := (List.nodup_append.mp hnd).2.2
    simp only [List.foldl_cons]
    rw [assign_fold_eq sqrtf k c hc, ih hcs, relabel_relabel, List.flatten_cons, stale_append,
      stale_relabel_of_disjoint sqrtf k s c cs.flatten (fun j hj hjc => hdis hjc hj), zero_add,
      add_assoc]

theorem relabel_perm (sqrtf : F → F) (k : Nat) (s : State F) {is js : List Nat}
    (h : List.Perm is js) : relabel sqrtf k s is = relabel sqrtf k s js := by
  unfold relabel
  apply State.ext_fields <;> try rfl
  funext j
  simp only [h.mem_iff]

theorem stale_perm (sqrtf : F → F) (k : Nat) (s : State F) {is js : List Nat}
    (h : List.Perm is js) : stale sqrtf k s is = stale sqrtf k s js := by
  unfold stale
  rw [(h.filter _).length_eq]

/-- Under any schedule the parallel assignment step computes what the sequential one does. -/
theorem assign_points_omp_eq (sqrtf : F → F) (n k : Nat) (chunks : List (List Nat))
    (hs : IsSchedule chunks n) (s : State F) :
    assign_points_omp sqrtf chunks k s = assign_points_seq sqrtf n k s := by
  unfold assign_points_omp
  rw [assign_chunks_eq sqrtf k chunks (hs.nodup_iff.mpr (List.nodup_range n)),
    assign_points_seq_eq, relabel_perm sqrtf k s hs, stale_perm sqrtf k s hs, zero_add]

theorem nearest_label_spec (sqrtf : F → F) (k : Nat) (s : State F) (i : Nat)
    (hd : ∃ c, c < k ∧ distance_pt sqrtf (s.data i) (s.centroids c) < FLT_MAX) :
    ∃ b : Nat, nearest_label sqrtf k s i = (b : Int) ∧ b < k ∧
      (∀ c, c < k → distance_pt sqrtf (s.data i) (s.centroids b) ≤
        distance_pt sqrtf (s.data i) (s.centroids c)) ∧
      (∀ c, c < b → distance_pt sqrtf (s.data i) (s.centroids b) <
        distance_pt sqrtf (s.data i) (s.centroids c)) := by
  have h := nearest_fold_inv sqrtf s.centroids (s.data i) k
  simp only at h
  refine ⟨(nearest sqrtf s.centroids k (s.data i)).2, rfl, ?_⟩
  unfold nearest
  rcases h with ⟨_, _, h3⟩ | ⟨h1, h2, _, h4, h5⟩
  · obtain ⟨c, hc, hlt⟩ := hd
    exact absurd hlt (not_lt.mpr (h3 c hc))
  · exact ⟨h1, fun c hc => h2 ▸ h4 c hc, fun c hc => h2 ▸ h5 c hc⟩

/-! ## Assignment step: the claims -/

/-- C1. Assignment step, nearest centroid with lowest-index tie-break: when
`k >= 1` and all point-to-centroid distances are below `FLT_MAX`, after
`assign_points_seq`, and after `assign_points_omp` under any schedule of the
index range, every point `i < n` carries the label `b < k` such that the
distance to centroid `b` is minimal over the centroids `0 .. k-1` and strictly
smaller than the distance to every centroid of lower index. -/
theorem assign_points_nearest_lowest_index (sqrtf : F → F) (n k : Nat) (s : State F)
    (chunks : List (List Nat)) (hs : IsSchedule chunks n) (hk : 1 ≤ k)
    (hd : ∀ i, i < n → ∀ c, c < k → distance_pt sqrtf (s.data i) (s.centroids c) < FLT_MAX)
    (s2 : State F)
    (hs2 : s2 = (assign_points_seq sqrtf n k s).1 ∨ s2 = (assign_points_omp sqrtf chunks k s).1)
    (i : Nat) (hi : i < n) :
    s2.centroids = s.centroids ∧ s2.data = s.data ∧
    ∃ b : Nat, s2.labels i = (b : Int) ∧ b < k ∧
      (∀ c, c < k → distance_pt sqrtf (s.data i) (s.centroids b) ≤
        distance_pt sqrtf (s.data i) (s.centroids c)) ∧
      (∀ c, c < b → distance_pt sqrtf (s.data i) (s.centroids b) <
        distance_pt sqrtf (s.data i) (s.centroids c)) := by
  have hs2 : s2 = relabel sqrtf k s (List.range n) := by
    rcases hs2 with h | h
    · rw [h, assign_points_seq_eq]
    · rw [h, assign_points_omp_eq sqrtf n k chunks hs, assign_points_seq_eq]
  subst hs2
  refine ⟨rfl, rfl, ?_⟩
  have hl : (relabel sqrtf k s (List.range n)).labels i = nearest_label sqrtf k s i := by
    simp [relabel, hi]
  rw [hl]
  exact nearest_label_spec sqrtf k s i ⟨0, hk, hd i hi 0 hk⟩

/-- C2. Assignment step change count: the value returned by
`assign_points_seq`, and by `assign_points_omp` under any schedule, is the
number of indices `i < n` whose label after the call differs from its label
before the call, and a point whose label already equals its nearest centroid
keeps that label. -/
theorem assign_points_change_count (sqrtf : F → F) (n k : Nat) (s : State F)
    (chunks : List (List Nat)) (hs : IsSchedule chunks n) (r : State F × Int)
    (hr : r = assign_points_seq sqrtf n k s ∨ r = assign_points_omp sqrtf chunks k s) :
    r.2 = (((List.range n).filter (fun i => s.labels i ≠ r.1.labels i)).length : Nat) ∧
    ∀ i, i < n → s.labels i = nearest_label sqrtf k s i → r.1.labels i = s.labels i := by
  have hr : r = (relabel sqrtf k s (List.range n), stale sqrtf k s (List.range n)) := by
    rcases hr with h | h
    · rw [h, assign_points_seq_eq]
    · rw [h, assign_points_omp_eq sqrtf n k chunks hs, assign_points_seq_eq]
  subst hr
  constructor
  · simp only [stale]
    congr 2
    apply List.filter_congr
    intro i hi
    simp [relabel, List.mem_range.mp hi]
  · intro i hi h
    simp [relabel, hi, h]

/-- C3. Assignment step is idempotent: a second call of the assignment step
(sequential, or parallel under any schedule) with the centroids unchanged
returns zero changes and leaves the whole state, in particular every label, as
the first call set it. -/
theorem assign_points_idempotent (sqrtf : F → F) (n k : Nat) (s : State F)
    (chunks : List (List Nat)) (hs : IsSchedule chunks n) :
    assign_points_seq sqrtf n k (assign_points_seq sqrtf n k s).1 =
      ((assign_points_seq sqrtf n k s).1, 0) ∧
    assign_points_omp sqrtf chunks k (assign_points_omp sqrtf chunks k s).1 =
      ((assign_points_omp sqrtf chunks k s).1, 0) := by
  have h : assign_points_seq sqrtf n k (assign_points_seq sqrtf n k s).1 =
      ((assign_points_seq sqrtf n k s).1, 0) := by
    rw [assign_points_seq_eq sqrtf n k s]
    rw [assign_points_seq_eq, relabel_relabel]
    congr 1
    · apply State.ext_fields <;> try rfl
      funext j
      simp [relabel]
    · unfold stale
      rw [Nat.cast_eq_zero, List.length_eq_zero, List.filter_eq_nil_iff]
      intro i hi
      simp [relabel, nearest_label, List.mem_range.mp hi]
  refine ⟨h, ?_⟩
  rw [assign_points_omp_eq sqrtf n k chunks hs, assign_points_omp_eq sqrtf n k chunks hs]
  exact h

/-! ### The assignment test case, evaluated -/

theorem isSchedule_two_chunks : IsSchedule [[0], [1]] 2 := by
  unfold IsSchedule
  decide

theorem assign_test_distances_lt (i : Nat) (hi : i < 2) (c : Nat) (hc : c < 2) :
    distance_pt Rat.sqrt (assign_test_state.data i) (assign_test_state.centroids c) < FLT_MAX := by
  interval_cases i <;> interval_cases c <;>
    norm_num [distance_pt, assign_test_state, broadcast, List.finRange, FLT_MAX, Rat.sqrt]

theorem assign_test_nearest_0 : nearest_label Rat.sqrt 2 assign_test_state 0 = 0 := by
  norm_num [nearest_label, nearest, nearest_step, List.range_succ, distance_pt, assign_test_state,
    broadcast, List.finRange, FLT_MAX, Rat.sqrt]

theorem assign_test_nearest_1 : nearest_label Rat.sqrt 2 assign_test_state 1 = 1 := by
  norm_num [nearest_label, nearest, nearest_step, List.range_succ, distance_pt, assign_test_state,
    broadcast, List.finRange, FLT_MAX, Rat.sqrt]

/-- The assertions of `test_assign_points_seq` hold in the embedding: labels
`0` and `1`, two changes. -/
theorem assign_test_expected :
    (assign_points_seq Rat.sqrt 2 2 assign_test_state).1.labels 0 = 0 ∧
    (assign_points_seq Rat.sqrt 2 2 assign_test_state).1.labels 1 = 1 ∧
    (assign_points_seq Rat.sqrt 2 2 assign_test_state).2 = 2 := by
  rw [assign_points_seq_eq]
  simp only [relabel, stale, List.range_succ, List.range_zero, List.nil_append, List.cons_append,
    List.mem_cons, List.filter_cons, assign_test_nearest_0, assign_test_nearest_1]
  simp [assign_test_state]

/-- Witness of C1 on the input of `test_assign_points_seq`, for point `1`. -/
theorem assign_points_nearest_lowest_index_witness :
    IsSchedule [[0], [1]] 2 ∧
    (∀ i, i < 2 → ∀ c, c < 2 →
      distance_pt Rat.sqrt (assign_test_state.data i) (assign_test_state.centroids c) < FLT_MAX) ∧
    ∃ b : Nat, (assign_points_omp Rat.sqrt [[0], [1]] 2 assign_test_state).1.labels 1 = (b : Int) ∧
      b < 2 ∧
      (∀ c, c < 2 →
        distance_pt Rat.sqrt (assign_test_state.data 1) (assign_test_state.centroids b) ≤
          distance_pt Rat.sqrt (assign_test_state.data 1) (assign_test_state.centroids c)) ∧
      (∀ c, c < b →
        distance_pt Rat.sqrt (assign_test_state.data 1) (assign_test_state.centroids b) <
          distance_pt Rat.sqrt (assign_test_state.data 1) (assign_test_state.centroids c)) :=
  ⟨isSchedule_two_chunks, assign_test_distances_lt,
    (assign_points_nearest_lowest_index Rat.sqrt 2 2 assign_test_state [[0], [1]]
      isSchedule_two_chunks (by decide) assign_test_distances_lt _ (Or.inr rfl) 1
      (by decide)).2.2⟩

/-- Witness of C2 on the input of `test_assign_points_seq`. -/
theorem assign_points_change_count_witness :
    IsSchedule [[0], [1]] 2 ∧
    (assign_points_seq Rat.sqrt 2 2 assign_test_state).2 =
      (((List.range 2).filter (fun i => assign_test_state.labels i ≠
        (assign_points_seq Rat.sqrt 2 2 assign_test_state).1.labels i)).length : Nat) :=
  ⟨isSchedule_two_chunks,
    (assign_points_change_count Rat.sqrt 2 2 assign_test_state [[0], [1]] isSchedule_two_chunks
      _ (Or.inl rfl)).1⟩

/-- Witness of C3 on the input of `test_assign_points_seq`. -/
theorem assign_points_idempotent_witness :
    IsSchedule [[0], [1]] 2 ∧
    assign_points_seq Rat.sqrt 2 2 (assign_points_seq Rat.sqrt 2 2 assign_test_state).1 =
      ((assign_points_seq Rat.sqrt 2 2 assign_test_state).1, 0) :=
  ⟨isSchedule_two_chunks,
    (assign_points_idempotent Rat.sqrt 2 2 assign_test_state [[0], [1]] isSchedule_two_chunks).1⟩

/-! ## Update step: lemmas -/

/-- The reset loop in closed form. -/
theorem reset_accumulators_eq (k : Nat) (s : State F) :
    reset_accumulators k s =
      { s with counts := fun c => if c < k then 0 else s.counts c,
               new_centroids := fun c => if c < k then (fun _ => 0) else s.new_centroids c } := by
  unfold reset_accumulators
  induction k with
  | zero => simp
  | succ k ih =>
    rw [List.range_succ, List.foldl_append, ih]
    simp only [List.foldl_cons, List.foldl_nil]
    apply State.ext_fields <;> try rfl
    · funext c
      by_cases h : c = k
      · subst h; simp
      · have : c < k + 1 ↔ c < k := by omega
        simp [Function.update_noteq h, this]
    · funext c
      by_cases h : c = k
      · subst h; simp
      · have : c < k + 1 ↔ c < k := by omega
        simp [Function.update_noteq h, this]

/-- The division loop in closed form. -/
theorem compute_means_eq (k : Nat) (s : State F) :
    compute_means k s =
      { s with centroids := fun c =>
          if c < k ∧ s.counts c ≠ 0 then (fun f => s.new_centroids c f / ((s.counts c : Int) : F))
          else s.centroids c } := by
  unfold compute_means
  induction k with
  | zero => simp
  | succ k ih =>
    rw [List.range_succ, List.foldl_append, ih]
    simp only [List.foldl_cons, List.foldl_nil]
    by_cases h0 : s.counts k = 0
    · simp only [h0, if_true]
      apply State.ext_fields <;> try rfl
      funext c
      by_cases h : c = k
      · subst h; simp [h0]
      · have : c < k + 1 ↔ c < k := by omega
        simp [this]
    · simp only [h0, if_false]
      apply State.ext_fields <;> try rfl
      funext c
      by_cases h : c = k
      · subst h; simp [h0]
      · have : c < k + 1 ↔ c < k := by omega
        simp [Function.update_noteq h, this]

/-- The merge loop of the critical section in closed form. -/
theorem merge_local_eq (k : Nat) (loc : (Nat → Int) × (Nat → Point F)) (s : State F) :
    merge_local k loc s =
      { s with counts := fun c => if c < k then s.counts c + loc.1 c else s.counts c,
               new_centroids := fun c =>
                 if c < k then (fun f => s.new_centroids c f + loc.2 c f) else s.new_centroids c } := by
  unfold merge_local
  induction k with
  | zero => simp
  | succ k ih =>
    rw [List.range_succ, List.foldl_append, ih]
    simp only [List.foldl_cons, List.foldl_nil]
    apply State.ext_fields <;> try rfl
    · funext c
      by_cases h : c = k
      · subst h; simp
      · have : c < k + 1 ↔ c < k := by omega
        simp [Function.update_noteq h, this]
    · funext c
      by_cases h : c = k
      · subst h; simp
      · have : c < k + 1 ↔ c < k := by omega
        simp [Function.update_noteq h, this]

theorem cluster_count_cons (labels : Nat → Int) (i : Nat) (is : List Nat) (c : Nat) :
    cluster_count labels (i :: is) c =
      (if labels i = (c : Int) then 1 else 0) + cluster_count labels is c := by
  unfold cluster_count
  by_cases h : labels i = (c : Int) <;> simp [List.filter_cons, h, Nat.add_comm]

theorem cluster_sum_cons (data : Nat → Point F) (labels : Nat → Int) (i : Nat) (is : List Nat)
    (c : Nat) (f : Fin FEATURES) :
    cluster_sum data labels (i :: is) c f =
      (if labels i = (c : Int) then data i f else 0) + cluster_sum data labels is c f := by
  unfold cluster_sum
  by_cases h : labels i = (c : Int) <;> simp [List.filter_cons, h]

/-- The accumulation loop over any index list whose labels are valid row
indices, in closed form. -/
theorem accumulate_fold_eq (data : Nat → Point F) (labels : Nat → Int) (is : List Nat)
    (hl : ∀ i, i ∈ is → 0 ≤ labels i ∧ labels i < (MAX_K : Int))
    (acc : (Nat → Int) × (Nat → Point F)) :
    is.foldlM (accumulate_point data labels) acc =
      some (fun c => acc.1 c + (cluster_count labels is c : Int),
            fun c f => acc.2 c f + cluster_sum data labels is c f) := by
  induction is generalizing acc with
  | nil => simp [cluster_count, cluster_sum]
  | cons i is ih =>
    have hi := hl i (List.mem_cons_self i is)
    rw [List.foldlM_cons]
    have hstep : accumulate_point data labels acc i =
        some (Function.update acc.1 (labels i).toNat (acc.1 (labels i).toNat + 1),
          Function.update acc.2 (labels i).toNat
            (fun f => acc.2 (labels i).toNat f + data i f)) := by
      unfold accumulate_point
      simp only [hi, and_self, if_true]
    rw [hstep]
    simp only [Option.some_bind, Option.bind_eq_bind]
    rw [ih (fun j hj => hl j (List.mem_cons_of_mem i hj))]
    have hc : ∀ c : Nat, labels i = (c : Int) ↔ c = (labels i).toNat := by
      intro c
      constructor
      · intro h; rw [h]; simp
      · intro h; rw [h]; exact (Int.toNat_of_nonneg hi.1).symm
    congr 2
    · funext c
      rw [cluster_count_cons]
      simp only
      by_cases h : c = (labels i).toNat
      · rw [if_pos ((hc c).mpr h), h, Function.update_same]
        push_cast
        ring
      · rw [if_neg (fun h2 => h ((hc c).mp h2)), Function.update_noteq h]
        push_cast
        ring
    · funext c f
      rw [cluster_sum_cons]
      simp only
      by_cases h : c = (labels i).toNat
      · rw [if_pos ((hc c).mpr h), h, Function.update_same]
        ring
      · rw [if_neg (fun h2 => h ((hc c).mp h2)), Function.update_noteq h]
        ring

theorem cluster_count_append (labels : Nat → Int) (is js : List Nat) (c : Nat) :
    cluster_count labels (is ++ js) c = cluster_count labels is c + cluster_count labels js c := by
  simp [cluster_count, List.filter_append]

theorem cluster_sum_append (data : Nat → Point F) (labels : Nat → Int) (is js : List Nat)
    (c : Nat) (f : Fin FEATURES) :
    cluster_sum data labels (is ++ js) c f =
      cluster_sum data labels is c f + cluster_sum data labels js c f := by
  simp [cluster_sum, List.filter_append]

theorem cluster_count_perm (labels : Nat → Int) {is js : List Nat} (h : List.Perm is js)
    (c : Nat) : cluster_count labels is c = cluster_count labels js c := by
  unfold cluster_count
  exact (h.filter _).length_eq

theorem cluster_sum_perm (data : Nat → Point F) (labels : Nat → Int) {is js : List Nat}
    (h : List.Perm is js) (c : Nat) (f : Fin FEATURES) :
    cluster_sum data labels is c f = cluster_sum data labels js c f := by
  unfold cluster_sum
  exact ((h.filter _).map _).sum_eq

theorem cluster_count_eq_zero (labels : Nat → Int) (is : List Nat) (c : Nat)
    (h : ∀ i, i ∈ is → labels i ≠ (c : Int)) : cluster_count labels is c = 0 := by
  unfold cluster_count
  rw [List.length_eq_zero, List.filter_eq_nil_iff]
  intro i hi
  simp [h i hi]

theorem cluster_sum_eq_zero (data : Nat → Point F) (labels : Nat → Int) (is : List Nat) (c : Nat)
    (f : Fin FEATURES) (h : ∀ i, i ∈ is → labels i ≠ (c : Int)) :
    cluster_sum data labels is c f = 0 := by
  unfold cluster_sum
  have : is.filter (fun i => labels i = (c : Int)) = [] := by
    rw [List.filter_eq_nil_iff]
    intro i hi
    simp [h i hi]
  rw [this]
  simp

theorem reset_accumulators_data (k : Nat) (s : State F) :
    (reset_accumulators k s).data = s.data ∧ (reset_accumulators k s).labels = s.labels := by
  rw [reset_accumulators_eq]
  exact ⟨rfl, rfl⟩

/-- The sequential update step in closed form, when every label read is a valid row index. -/
theorem update_centroids_seq_eq (n k : Nat) (s : State F)
    (hl : ∀ i, i < n → 0 ≤ s.labels i ∧ s.labels i < (MAX_K : Int)) :
    update_centroids_seq n k s =
      some (compute_means k
        { s with
          counts := fun c =>
            (if c < k then 0 else s.counts c) + (cluster_count s.labels (List.range n) c : Int),
          new_centroids := fun c f =>
            (if c < k then 0 else s.new_centroids c f) +
              cluster_sum s.data s.labels (List.range n) c f }) := by
  unfold update_centroids_seq
  simp only
  rw [(reset_accumulators_data k s).1, (reset_accumulators_data k s).2,
    accumulate_fold_eq s.data s.labels (List.range n) (fun i hi => hl i (List.mem_range.mp hi)),
    Option.map_some', reset_accumulators_eq]
  congr 2
  apply State.ext_fields <;> try rfl
  funext c f
  simp only
  by_cases h : c < k <;> simp [h]

/-- The workers of the parallel update step, one after the other, in closed form. -/
theorem update_workers_eq (k : Nat) (data : Nat → Point F) (labels : Nat → Int)
    (chunks : List (List Nat))
    (hl : ∀ i, i ∈ chunks.flatten → 0 ≤ labels i ∧ labels i < (MAX_K : Int)) (st : State F) :
    chunks.foldlM (update_worker k data labels) st =
      some { st with
        counts := fun c =>
          if c < k then st.counts c + (cluster_count labels chunks.flatten c : Int)
          else st.counts c,
        new_centroids := fun c =>
          if c < k then (fun f => st.new_centroids c f + cluster_sum data labels chunks.flatten c f)
          else st.new_centroids c } := by
  induction chunks generalizing st with
  | nil =>
    simp only [List.foldlM_nil, List.flatten_nil, cluster_count, cluster_sum, List.filter_nil,
      List.length_nil, List.map_nil, List.sum_nil, Nat.cast_zero, add_zero, ite_self]
    rfl
  | cons ch chunks ih =>
    rw [List.foldlM_cons]
    have hch : ∀ i, i ∈ ch → 0 ≤ labels i ∧ labels i < (MAX_K : Int) := by
      intro i hi
      apply hl
      rw [List.flatten_cons]
      exact List.mem_append_left _ hi
    have hrest : ∀ i, i ∈ chunks.flatten → 0 ≤ labels i ∧ labels i < (MAX_K : Int) := by
      intro i hi
      apply hl
      rw [List.flatten_cons]
      exact List.mem_append_right _ hi
    have hw : update_worker k data labels st ch =
        some (merge_local k (fun c => 0 + (cluster_count labels ch c : Int),
          fun c f => 0 + cluster_sum data labels ch c f) st) := by
      unfold update_worker
      rw [accumulate_fold_eq data labels ch hch]
      rfl
    rw [hw]
    simp only [Option.some_bind, Option.bind_eq_bind]
    rw [ih hrest, merge_local_eq]
    congr 1
    apply State.ext_fields <;> try rfl
    · funext c
      by_cases h : c < k
      · simp only [h, if_true, List.flatten_cons, cluster_sum_append]
        funext f
        ring
      · simp only [h, if_false]
    · funext c
      simp only [List.flatten_cons, cluster_count_append]
      by_cases h : c < k
      · simp only [h, if_true]
        push_cast
        ring
      · simp only [h, if_false]

/-- The parallel update step in closed form, when every label read is a valid row index. -/
theorem update_centroids_omp_eq (n k : Nat) (chunks : List (List Nat)) (hs : IsSchedule chunks n)
    (s : State F) (hl : ∀ i, i < n → 0 ≤ s.labels i ∧ s.labels i < (MAX_K : Int)) :
    update_centroids_omp chunks k s =
      some (compute_means k
        { s with
          counts := fun c =>
            if c < k then (cluster_count s.labels (List.range n) c : Int) else s.counts c,
          new_centroids := fun c =>
            if c < k then (fun f => cluster_sum s.data s.labels (List.range n) c f)
            else s.new_centroids c }) := by
  unfold update_centroids_omp
  simp only
  rw [(reset_accumulators_data k s).1, (reset_accumulators_data k s).2,
    update_workers_eq k s.data s.labels chunks
      (fun i hi => hl i (List.mem_range.mp (hs.mem_iff.mp hi))),
    Option.map_some', reset_accumulators_eq]
  congr 2
  apply State.ext_fields <;> try rfl
  · funext c
    by_cases h : c < k
    · simp only [h, if_true]
      funext f
      simp [cluster_sum_perm s.data s.labels hs c f]
    · simp [h]
  · funext c
    by_cases h : c < k
    · simp [h, cluster_count_perm s.labels hs c]
    · simp [h]

/-- Centroids after the sequential update step. -/
theorem update_centroids_seq_centroids (n k : Nat) (s : State F)
    (hl : ∀ i, i < n → 0 ≤ s.labels i ∧ s.labels i < (MAX_K : Int)) :
    ∃ s2, update_centroids_seq n k s = some s2 ∧ s2.data = s.data ∧ s2.labels = s.labels ∧
      s2.rand_calls = s.rand_calls ∧
      ∀ c, s2.centroids c =
        if c < k ∧ cluster_count s.labels (List.range n) c ≠ 0 then
          (fun f => cluster_sum s.data s.labels (List.range n) c f /
            (cluster_count s.labels (List.range n) c : F))
        else s.centroids c := by
  refine ⟨_, update_centroids_seq_eq n k s hl, ?_⟩
  rw [compute_means_eq]
  refine ⟨rfl, rfl, rfl, ?_⟩
  intro c
  by_cases h : c < k
  · by_cases h0 : cluster_count s.labels (List.range n) c = 0
    · simp [h, h0]
    · simp [h, h0]
  · simp [h]

/-- Centroids after the parallel update step. -/
theorem update_centroids_omp_centroids (n k : Nat) (chunks : List (List Nat))
    (hs : IsSchedule chunks n) (s : State F)
    (hl : ∀ i, i < n → 0 ≤ s.labels i ∧ s.labels i < (MAX_K : Int)) :
    ∃ s2, update_centroids_omp chunks k s = some s2 ∧ s2.data = s.data ∧ s2.labels = s.labels ∧
      s2.rand_calls = s.rand_calls ∧
      ∀ c, s2.centroids c =
        if c < k ∧ cluster_count s.labels (List.range n) c ≠ 0 then
          (fun f => cluster_sum s.data s.labels (List.range n) c f /
            (cluster_count s.labels (List.range n) c : F))
        else s.centroids c := by
  refine ⟨_, update_centroids_omp_eq n k chunks hs s hl, ?_⟩
  rw [compute_means_eq]
  refine ⟨rfl, rfl, rfl, ?_⟩
  intro c
  by_cases h : c < k
  · by_cases h0 : cluster_count s.labels (List.range n) c = 0
    · simp [h, h0]
    · simp [h, h0]
  · simp [h]

theorem cluster_count_pos (labels : Nat → Int) (is : List Nat) (c i : Nat) (hi : i ∈ is)
    (h : labels i = (c : Int)) : cluster_count labels is c ≠ 0 := by
  unfold cluster_count
  rw [Ne, List.length_eq_zero, List.filter_eq_nil_iff]
  intro h0
  exact h0 i hi (by simp [h])

/-- Under any schedule the parallel update step computes the state the
sequential one computes, when the labels are cluster indices below `k`. -/
theorem update_centroids_omp_eq_seq (n k : Nat) (chunks : List (List Nat))
    (hs : IsSchedule chunks n) (s : State F) (hk : k ≤ MAX_K)
    (hl : ∀ i, i < n → 0 ≤ s.labels i ∧ s.labels i < (k : Int)) :
    update_centroids_omp chunks k s = update_centroids_seq n k s := by
  have hl2 : ∀ i, i < n → 0 ≤ s.labels i ∧ s.labels i < (MAX_K : Int) := by
    intro i hi
    exact ⟨(hl i hi).1, lt_of_lt_of_le (hl i hi).2 (by exact_mod_cast hk)⟩
  have hne : ∀ c, ¬ c < k → ∀ i, i ∈ List.range n → s.labels i ≠ (c : Int) := by
    intro c hc i hi h
    have := (hl i (List.mem_range.mp hi)).2
    rw [h] at this
    exact hc (by exact_mod_cast this)
  rw [update_centroids_omp_eq n k chunks hs s hl2, update_centroids_seq_eq n k s hl2]
  congr 2
  apply State.ext_fields <;> try rfl
  · funext c
    by_cases h : c < k
    · simp [h]
    · funext f
      simp [h, cluster_sum_eq_zero s.data s.labels _ c f (hne c h)]
  · funext c
    by_cases h : c < k
    · simp [h]
    · simp [h, cluster_count_eq_zero s.labels _ c (hne c h)]

/-! ## Update step in exact arithmetic -/

/-- Exact arithmetic. The update step computes means: when `k <= MAX_K` and all labels of the
points `i < n` lie in `[0, k)`, `update_centroids_seq`, and
`update_centroids_omp` under any schedule, return a state in which every
cluster `c < k` with at least one member has, in every feature `f`, centroid
value (sum of `data[i][f]` over the points labelled `c`) divided by the number
of such points. -/
theorem exact_update_centroids_means (n k : Nat) (s : State F) (chunks : List (List Nat))
    (hs : IsSchedule chunks n) (hk : k ≤ MAX_K)
    (hl : ∀ i, i < n → 0 ≤ s.labels i ∧ s.labels i < (k : Int))
    (r : Option (State F))
    (hr : r = update_centroids_seq n k s ∨ r = update_centroids_omp chunks k s) :
    ∃ s2, r = some s2 ∧
      ∀ c, c < k → (∃ i, i < n ∧ s.labels i = (c : Int)) → ∀ f,
        s2.centroids c f =
          cluster_sum s.data s.labels (List.range n) c f /
            (cluster_count s.labels (List.range n) c : F) := by
  have hl2 : ∀ i, i < n → 0 ≤ s.labels i ∧ s.labels i < (MAX_K : Int) := by
    intro i hi
    exact ⟨(hl i hi).1, lt_of_lt_of_le (hl i hi).2 (by exact_mod_cast hk)⟩
  have hr : r = update_centroids_seq n k s := by
    rcases hr with h | h
    · exact h
    · rw [h, update_centroids_omp_eq_seq n k chunks hs s hk hl]
  obtain ⟨s2, h1, _, _, _, h5⟩ := update_centroids_seq_centroids n k s hl2
  refine ⟨s2, hr.trans h1, ?_⟩
  intro c hc hex f
  obtain ⟨i, hi, hic⟩ := hex
  rw [h5 c, if_pos ⟨hc, cluster_count_pos s.labels _ c i (List.mem_range.mpr hi) hic⟩]

/-- C5. Update step, empty-cluster policy: whenever the labels of the points
`i < n` are valid row indices of the per-cluster arrays, `update_centroids_seq`,
and `update_centroids_omp` under any schedule, return a state in which every
cluster `c < k` to which no point `i < n` is labelled has its centroid equal
to its value before the update step. -/
theorem update_centroids_empty_cluster (n k : Nat) (s : State F) (chunks : List (List Nat))
    (hs : IsSchedule chunks n)
    (hl : ∀ i, i < n → 0 ≤ s.labels i ∧ s.labels i < (MAX_K : Int))
    (r : Option (State F))
    (hr : r = update_centroids_seq n k s ∨ r = update_centroids_omp chunks k s) :
    ∃ s2, r = some s2 ∧
      ∀ c, c < k → (∀ i, i < n → s.labels i ≠ (c : Int)) → s2.centroids c = s.centroids c := by
  have key : ∀ s2 : State F,
      (∀ c, s2.centroids c =
        if c < k ∧ cluster_count s.labels (List.range n) c ≠ 0 then
          (fun f => cluster_sum s.data s.labels (List.range n) c f /
            (cluster_count s.labels (List.range n) c : F))
        else s.centroids c) →
      ∀ c, c < k → (∀ i, i < n → s.labels i ≠ (c : Int)) → s2.centroids c = s.centroids c := by
    intro s2 h5 c _ hempty
    rw [h5 c, if_neg]
    intro h
    exact h.2 (cluster_count_eq_zero s.labels _ c (fun i hi => hempty i (List.mem_range.mp hi)))
  rcases hr with h | h
  · obtain ⟨s2, h1, _, _, _, h5⟩ := update_centroids_seq_centroids n k s hl
    exact ⟨s2, h.trans h1, key s2 h5⟩
  · obtain ⟨s2, h1, _, _, _, h5⟩ := update_centroids_omp_centroids n k chunks hs s hl
    exact ⟨s2, h.trans h1, key s2 h5⟩

/-- Exact arithmetic. Parallel and sequential update steps agree: for identical data,
labels in `[0, k)`, `k <= MAX_K` and identical input centroids, for every
partition of the point range into worker chunks and every merge order,
`update_centroids_omp` returns a state, and it is the state (in particular
the centroid set) that `update_centroids_seq` returns. -/
theorem exact_update_centroids_agree (n k : Nat) (s : State F)
    (chunks : List (List Nat)) (hs : IsSchedule chunks n) (hk : k ≤ MAX_K)
    (hl : ∀ i, i < n → 0 ≤ s.labels i ∧ s.labels i < (k : Int)) :
    ∃ s2, update_centroids_omp chunks k s = some s2 ∧ update_centroids_seq n k s = some s2 := by
  have hl2 : ∀ i, i < n → 0 ≤ s.labels i ∧ s.labels i < (MAX_K : Int) := by
    intro i hi
    exact ⟨(hl i hi).1, lt_of_lt_of_le (hl i hi).2 (by exact_mod_cast hk)⟩
  obtain ⟨s2, h1, _⟩ := update_centroids_seq_centroids n k s hl2
  exact ⟨s2, (update_centroids_omp_eq_seq n k chunks hs s hk hl).trans h1, h1⟩

/-! ### The update test cases, evaluated -/

theorem isSchedule_four : IsSchedule [[2, 3], [1, 0]] 4 := by
  unfold IsSchedule
  decide

theorem basic_state_labels (i : Nat) (hi : i < 4) :
    0 ≤ basic_state.labels i ∧ basic_state.labels i < ((2 : Nat) : Int) := by
  interval_cases i <;> simp [basic_state]

theorem basic_state_mean_0 (f : Fin FEATURES) :
    cluster_sum basic_state.data basic_state.labels (List.range 4) 0 f /
      (cluster_count basic_state.labels (List.range 4) 0 : ℚ) = 3 / 2 := by
  norm_num [cluster_sum, cluster_count, basic_state, broadcast, List.range_succ, List.filter_cons]

theorem basic_state_mean_1 (f : Fin FEATURES) :
    cluster_sum basic_state.data basic_state.labels (List.range 4) 1 f /
      (cluster_count basic_state.labels (List.range 4) 1 : ℚ) = 11 := by
  norm_num [cluster_sum, cluster_count, basic_state, broadcast, List.range_succ, List.filter_cons]

/-- Exact arithmetic, the input of `test_update_centroids_basic`: the points
`1, 2, 10, 12` labelled `0, 0, 1, 1` give centroid `0` equal to `1.5` and
centroid `1` equal to `11` in all features. -/
theorem exact_update_centroids_means_case :
    IsSchedule [[2, 3], [1, 0]] 4 ∧ 2 ≤ MAX_K ∧
    (∀ i, i < 4 → 0 ≤ basic_state.labels i ∧ basic_state.labels i < ((2 : Nat) : Int)) ∧
    ∃ s2, update_centroids_omp [[2, 3], [1, 0]] 2 basic_state = some s2 ∧
      ∀ f, s2.centroids 0 f = 3 / 2 ∧ s2.centroids 1 f = 11 := by
  refine ⟨isSchedule_four, by decide, basic_state_labels, ?_⟩
  obtain ⟨s2, h1, h2⟩ := exact_update_centroids_means 4 2 basic_state [[2, 3], [1, 0]] isSchedule_four
    (by decide) basic_state_labels _ (Or.inr rfl)
  refine ⟨s2, h1, fun f => ⟨?_, ?_⟩⟩
  · rw [h2 0 (by decide) ⟨0, by decide, by simp [basic_state]⟩ f]
    exact basic_state_mean_0 f
  · rw [h2 1 (by decide) ⟨2, by decide, by simp [basic_state]⟩ f]
    exact basic_state_mean_1 f

theorem empty_cluster_state_labels (i : Nat) (_ : i < 2) :
    0 ≤ empty_cluster_state.labels i ∧ empty_cluster_state.labels i < (MAX_K : Int) := by
  simp [empty_cluster_state]

/-- Witness of C5 on the input of `test_update_centroids_empty_cluster`:
centroid `1` keeps the value `999`. -/
theorem update_centroids_empty_cluster_witness :
    IsSchedule [[0], [1]] 2 ∧
    (∀ i, i < 2 → 0 ≤ empty_cluster_state.labels i ∧
      empty_cluster_state.labels i < (MAX_K : Int)) ∧
    ∃ s2, update_centroids_seq 2 2 empty_cluster_state = some s2 ∧
      s2.centroids 1 = broadcast 999 := by
  refine ⟨isSchedule_two_chunks, empty_cluster_state_labels, ?_⟩
  obtain ⟨s2, h1, h2⟩ := update_centroids_empty_cluster 2 2 empty_cluster_state [[0], [1]]
    isSchedule_two_chunks empty_cluster_state_labels _ (Or.inl rfl)
  refine ⟨s2, h1, ?_⟩
  rw [h2 1 (by decide) (fun i _ => by simp [empty_cluster_state])]
  simp [empty_cluster_state]

/-- Exact arithmetic, the input of `test_update_centroids_basic`: the two steps agree. -/
theorem exact_update_centroids_agree_case :
    IsSchedule [[2, 3], [1, 0]] 4 ∧ 2 ≤ MAX_K ∧
    (∀ i, i < 4 → 0 ≤ basic_state.labels i ∧ basic_state.labels i < ((2 : Nat) : Int)) ∧
    ∃ s2, update_centroids_omp [[2, 3], [1, 0]] 2 basic_state = some s2 ∧
      update_centroids_seq 4 2 basic_state = some s2 :=
  ⟨isSchedule_four, by decide, basic_state_labels,
    exact_update_centroids_agree 4 2 basic_state [[2, 3], [1, 0]] isSchedule_four
      (by decide) basic_state_labels⟩

/-! ## Restart orchestration: lemmas -/

theorem copy_centroids_eq (dst src : Nat → Point F) (k : Nat) :
    copy_centroids dst src k = fun c => if c < k then src c else dst c := by
  unfold copy_centroids
  induction k with
  | zero => simp
  | succ k ih =>
    rw [List.range_succ, List.foldl_append, ih]
    simp only [List.foldl_cons, List.foldl_nil]
    funext c
    by_cases h : c = k
    · subst h; simp
    · have : c < k + 1 ↔ c < k := by omega
      simp [Function.update_noteq h, this]

/-- The best accuracy never increases when a trial is processed. -/
theorem select_best_accuracy_le (k : Nat) (b : Best F) (r : Nat) (t : Trial F) :
    (select k b r t).best_accuracy ≤ b.best_accuracy ∧ (select k b r t).best_accuracy ≤ t.acc := by
  unfold select
  by_cases h : t.acc < b.best_accuracy
  · simp [h, le_of_lt h]
  · simp [h, not_lt.mp h]

/-- A trial whose accuracy is not strictly lower leaves the best result as it was. -/
theorem select_of_not_lt (k : Nat) (b : Best F) (r : Nat) (t : Trial F)
    (h : ¬ t.acc < b.best_accuracy) : select k b r t = b := by
  unfold select
  simp [h]

theorem mem_of_getElem?_eq_some {α : Type} {l : List α} {j : Nat} {u : α}
    (h : l[j]? = some u) : u ∈ l := by
  rw [List.getElem?_eq_some] at h
  obtain ⟨hj, hu⟩ := h
  exact hu ▸ List.getElem_mem hj

theorem lt_length_of_getElem?_eq_some {α : Type} {l : List α} {j : Nat} {u : α}
    (h : l[j]? = some u) : j < l.length := by
  rw [List.getElem?_eq_some] at h
  exact h.1

/-- Processing one more trial keeps the description of the best result. -/
theorem bestOf_select (k : Nat) (bc0 : Nat → Point F) (ts : List (Trial F)) (b : Best F)
    (t : Trial F) (h : BestOf k bc0 ts b) :
    BestOf k bc0 (ts ++ [t]) (select k b ts.length t) := by
  unfold BestOf at h ⊢
  by_cases hlt : t.acc < b.best_accuracy
  · right
    have hsel : select k b ts.length t =
        { best_accuracy := t.acc, best_restart := (ts.length : Int),
          best_iters := (t.iters_done : Int),
          best_centroids := copy_centroids b.best_centroids t.state.centroids k } := by
      unfold select
      simp [hlt]
    have hall : ∀ u, u ∈ ts → t.acc < u.acc ∧ t.acc < FLT_MAX ∧
        ∀ c, k ≤ c → b.best_centroids c = bc0 c := by
      intro u hu
      rcases h with ⟨hb, hge⟩ | ⟨r, t0, _, h2, _, h4, _, _, h7, h8, _⟩
      · rw [hb] at hlt ⊢
        exact ⟨lt_of_lt_of_le hlt (hge u hu), hlt, fun _ _ => rfl⟩
      · rw [h4] at hlt
        exact ⟨lt_of_lt_of_le hlt (h8 u hu), lt_trans hlt h2, h7⟩
    have hmax : t.acc < FLT_MAX ∧ ∀ c, k ≤ c → b.best_centroids c = bc0 c := by
      rcases h with ⟨hb, _⟩ | ⟨r, t0, _, h2, _, h4, _, _, h7, _, _⟩
      · rw [hb] at hlt ⊢
        exact ⟨hlt, fun _ _ => rfl⟩
      · rw [h4] at hlt
        exact ⟨lt_trans hlt h2, h7⟩
    refine ⟨ts.length, t, List.getElem?_concat_length ts t, hmax.1, ?_, ?_, ?_, ?_, ?_, ?_, ?_⟩
    · rw [hsel]
    · rw [hsel]
    · rw [hsel]
    · intro c hc
      rw [hsel]
      simp [copy_centroids_eq, hc]
    · intro c hc
      rw [hsel]
      simp only [copy_centroids_eq, not_lt.mpr hc, if_false]
      exact hmax.2 c hc
    · intro u hu
      rcases List.mem_append.mp hu with hu | hu
      · exact le_of_lt (hall u hu).1
      · rw [List.mem_singleton.mp hu]
    · intro j u hj hju
      rw [List.getElem?_append_left hj] at hju
      exact (hall u (mem_of_getElem?_eq_some hju)).1
  · rw [select_of_not_lt k b ts.length t hlt]
    have hge := not_lt.mp hlt
    rcases h with ⟨hb, hall⟩ | ⟨r, t0, h1, h2, h3, h4, h5, h6, h7, h8, h9⟩
    · left
      refine ⟨hb, ?_⟩
      intro u hu
      rcases List.mem_append.mp hu with hu | hu
      · exact hall u hu
      · rw [List.mem_singleton.mp hu]
        rw [hb] at hge
        exact hge
    · right
      have hr := lt_length_of_getElem?_eq_some h1
      refine ⟨r, t0, ?_, h2, h3, h4, h5, h6, h7, ?_, ?_⟩
      · rw [List.getElem?_append_left hr]
        exact h1
      · intro u hu
        rcases List.mem_append.mp hu with hu | hu
        · exact h8 u hu
        · rw [List.mem_singleton.mp hu, ← h4]
          exact hge
      · intro j u hj hju
        rw [List.getElem?_append_left (lt_trans hj hr)] at hju
        exact h9 j u hj hju

theorem run_restarts_succ (st : Steps F) (rand : Nat → Nat) (n k R : Nat) (s : State F)
    (bc0 : Nat → Point F) :
    run_restarts st rand n k (R + 1) s bc0 =
      (run_restarts st rand n k R s bc0).bind (fun sb => restart_body st rand n k sb R) := by
  unfold run_restarts
  rw [List.range_succ, List.foldlM_append]
  cases List.foldlM (restart_body st rand n k) (s, init_best bc0) (List.range R) with
  | none => rfl
  | some sb => simp

theorem last_state_concat (s : State F) (ts : List (Trial F)) (t : Trial F) :
    last_state s (ts ++ [t]) = t.state := by
  unfold last_state
  rw [List.getLast?_concat]
  rfl

theorem trials_succ_eq_some (st : Steps F) (rand : Nat → Nat) (n k R : Nat) (s : State F)
    (ts2 : List (Trial F)) (h : trials st rand n k s (R + 1) = some ts2) :
    ∃ ts t, trials st rand n k s R = some ts ∧
      run_trial st rand n k (last_state s ts) = some t ∧ ts2 = ts ++ [t] := by
  rw [trials] at h
  cases hts : trials st rand n k s R with
  | none => rw [hts] at h; simp at h
  | some ts =>
    rw [hts] at h
    simp only [Option.some_bind] at h
    cases ht : run_trial st rand n k (last_state s ts) with
    | none => rw [ht] at h; simp at h
    | some t =>
      rw [ht] at h
      simp only [Option.map_some', Option.some.injEq] at h
      exact ⟨ts, t, rfl, ht, h.symm⟩

/-- The restart loop, in terms of the trials it runs. -/
theorem run_restarts_of_trials (st : Steps F) (rand : Nat → Nat) (n k : Nat) (s : State F)
    (bc0 : Nat → Point F) (R : Nat) (ts : List (Trial F))
    (h : trials st rand n k s R = some ts) :
    ts.length = R ∧ ∃ b, run_restarts st rand n k R s bc0 = some (last_state s ts, b) ∧
      BestOf k bc0 ts b := by
  induction R generalizing ts with
  | zero =>
    rw [trials] at h
    rw [← Option.some.inj h]
    refine ⟨rfl, init_best bc0, rfl, ?_⟩
    unfold BestOf
    left
    refine ⟨rfl, ?_⟩
    intro u hu
    simp at hu
  | succ R ih =>
    obtain ⟨ts0, t, h0, ht, heq⟩ := trials_succ_eq_some st rand n k R s ts h
    obtain ⟨hlen, b, hrun, hb⟩ := ih ts0 h0
    subst heq
    refine ⟨by simp [hlen], select k b R t, ?_, ?_⟩
    · rw [run_restarts_succ, hrun]
      simp only [Option.some_bind, restart_body, ht, Option.map_some', last_state_concat]
    · rw [← hlen]
      exact bestOf_select k bc0 ts0 b t hb

/-- If every trial returns, so does every prefix of the restart loop. -/
theorem trials_total (st : Steps F) (rand : Nat → Nat) (n k : Nat)
    (htot : ∀ s, ∃ t, run_trial st rand n k s = some t) (s : State F) (R : Nat) :
    ∃ ts, trials st rand n k s R = some ts := by
  induction R with
  | zero => exact ⟨[], rfl⟩
  | succ R ih =>
    obtain ⟨ts, hts⟩ := ih
    obtain ⟨t, ht⟩ := htot (last_state s ts)
    exact ⟨ts ++ [t], by rw [trials, hts]; simp [ht]⟩

theorem trials_prefix (st : Steps F) (rand : Nat → Nat) (n k : Nat) (s : State F) (R : Nat)
    (ts2 : List (Trial F)) (h : trials st rand n k s (R + 1) = some ts2) :
    ∃ ts t, trials st rand n k s R = some ts ∧ ts2 = ts ++ [t] := by
  obtain ⟨ts, t, h1, _, h3⟩ := trials_succ_eq_some st rand n k R s ts2 h
  exact ⟨ts, t, h1, h3⟩

/-- A property every restart establishes, and an invariant every restart
keeps, hold along the whole restart loop, which then returns. -/
theorem trials_invariant (st : Steps F) (rand : Nat → Nat) (n k : Nat)
    (I : State F → Prop) (P : Trial F → Prop)
    (hstep : ∀ s, I s → ∃ t, run_trial st rand n k s = some t ∧ I t.state ∧ P t)
    (s : State F) (hs : I s) (R : Nat) :
    ∃ ts, trials st rand n k s R = some ts ∧ I (last_state s ts) ∧ ∀ t, t ∈ ts → P t := by
  induction R with
  | zero =>
    refine ⟨[], rfl, hs, ?_⟩
    intro t ht
    simp at ht
  | succ R ih =>
    obtain ⟨ts, hts, hI, hP⟩ := ih
    obtain ⟨t, ht, hIt, hPt⟩ := hstep (last_state s ts) hI
    refine ⟨ts ++ [t], by rw [trials, hts]; simp [ht], by rw [last_state_concat]; exact hIt, ?_⟩
    intro u hu
    rcases List.mem_append.mp hu with hu | hu
    · exact hP u hu
    · rw [List.mem_singleton.mp hu]; exact hPt

/-! ## Refinement loop: lemmas -/

/-- The labels written by the assignment step are `0` or below `k`. -/
theorem assign_points_seq_labels (sqrtf : F → F) (n k : Nat) (s : State F) (i : Nat) (hi : i < n) :
    0 ≤ (assign_points_seq sqrtf n k s).1.labels i ∧
      (assign_points_seq sqrtf n k s).1.labels i < ((max k 1 : Nat) : Int) := by
  rw [assign_points_seq_eq]
  simp only [relabel, List.mem_range, hi, if_true, nearest_label]
  exact ⟨Int.natCast_nonneg _, by exact_mod_cast nearest_snd_lt sqrtf s.centroids (s.data i) k⟩

theorem assign_points_seq_inBounds (sqrtf : F → F) (n k : Nat) (hk : k ≤ MAX_K) (s : State F) :
    LabelsInBounds n (assign_points_seq sqrtf n k s).1 := by
  intro i hi
  have h := assign_points_seq_labels sqrtf n k s i hi
  refine ⟨h.1, lt_of_lt_of_le h.2 ?_⟩
  have : max k 1 ≤ MAX_K := max_le hk (by decide)
  exact_mod_cast this

/-- The accuracy loop over any index list whose labels are valid row indices, in closed form. -/
theorem accuracy_fold_eq (sqrtf : F → F) (s : State F) (is : List Nat)
    (hl : ∀ i, i ∈ is → 0 ≤ s.labels i ∧ s.labels i < (MAX_K : Int)) (total : F) :
    is.foldlM (accuracy_point sqrtf s) total = some (total + distance_sum sqrtf s is) := by
  induction is generalizing total with
  | nil => simp [distance_sum]
  | cons i is ih =>
    rw [List.foldlM_cons]
    have hstep : accuracy_point sqrtf s total i =
        some (total + distance_pt sqrtf (s.data i) (s.centroids (s.labels i).toNat)) := by
      unfold accuracy_point
      simp only [hl i (List.mem_cons_self i is), and_self, if_true]
    rw [hstep]
    simp only [Option.some_bind, Option.bind_eq_bind]
    rw [ih (fun j hj => hl j (List.mem_cons_of_mem i hj))]
    simp [distance_sum, add_assoc]

/-- The sequential accuracy evaluator in closed form. -/
theorem compute_accuracy_seq_eq (sqrtf : F → F) (n : Nat) (s : State F) (hl : LabelsInBounds n s) :
    compute_accuracy_seq sqrtf n s = some (distance_sum sqrtf s (List.range n) / (n : F)) := by
  unfold compute_accuracy_seq
  rw [accuracy_fold_eq sqrtf s _ (fun i hi => hl i (List.mem_range.mp hi)), zero_add]
  rfl

theorem distance_sum_append (sqrtf : F → F) (s : State F) (is js : List Nat) :
    distance_sum sqrtf s (is ++ js) = distance_sum sqrtf s is + distance_sum sqrtf s js := by
  simp [distance_sum]

theorem accuracy_chunks_eq (sqrtf : F → F) (s : State F) (chunks : List (List Nat))
    (hl : ∀ i, i ∈ chunks.flatten → 0 ≤ s.labels i ∧ s.labels i < (MAX_K : Int)) (total : F) :
    chunks.foldlM
      (fun (total : F) (chunk : List Nat) =>
        (chunk.foldlM (accuracy_point sqrtf s) 0).map (fun t => total + t)) total =
      some (total + distance_sum sqrtf s chunks.flatten) := by
  induction chunks generalizing total with
  | nil => simp [distance_sum]
  | cons ch chunks ih =>
    rw [List.foldlM_cons, accuracy_fold_eq sqrtf s ch
      (fun i hi => hl i (by rw [List.flatten_cons]; exact List.mem_append_left _ hi))]
    simp only [Option.map_some', Option.some_bind, Option.bind_eq_bind]
    rw [ih (fun i hi => hl i (by rw [List.flatten_cons]; exact List.mem_append_right _ hi)),
      List.flatten_cons, distance_sum_append, zero_add, add_assoc]

/-- Under any schedule the parallel accuracy evaluator returns what the sequential one does. -/
theorem compute_accuracy_omp_eq_seq (sqrtf : F → F) (n : Nat) (chunks : List (List Nat))
    (hs : IsSchedule chunks n) (s : State F) (hl : LabelsInBounds n s) :
    compute_accuracy_omp sqrtf chunks n s = compute_accuracy_seq sqrtf n s := by
  rw [compute_accuracy_seq_eq sqrtf n s hl]
  unfold compute_accuracy_omp
  rw [accuracy_chunks_eq sqrtf s chunks
    (fun i hi => hl i (List.mem_range.mp (hs.mem_iff.mp hi))), zero_add]
  simp only [Option.map_some', distance_sum]
  rw [(hs.map _).sum_eq]

/-- One pass of the loop body of either program always completes when
`1 <= k <= MAX_K`: it leaves the data as they were and the labels as the
sequential assignment step sets them, and yields its change count. -/
theorem iteration_program (sqrtf : F → F) (n k : Nat) (hk1 : 1 ≤ k) (hk : k ≤ MAX_K) (st : Steps F)
    (hst : IsProgram sqrtf n k st) (s : State F) :
    ∃ s2, iteration st s = some (s2, (assign_points_seq sqrtf n k s).2) ∧
      update_centroids_seq n k (assign_points_seq sqrtf n k s).1 = some s2 ∧
      s2.data = s.data ∧ s2.labels = (assign_points_seq sqrtf n k s).1.labels ∧
      s2.rand_calls = s.rand_calls ∧ LabelsInBounds n s2 := by
  have hb := assign_points_seq_inBounds sqrtf n k hk s
  obtain ⟨s2, h1, h2, h3, h4, _⟩ :=
    update_centroids_seq_centroids n k (assign_points_seq sqrtf n k s).1 hb
  have hdata : (assign_points_seq sqrtf n k s).1.data = s.data := by
    rw [assign_points_seq_eq]; rfl
  have hrc : (assign_points_seq sqrtf n k s).1.rand_calls = s.rand_calls := by
    rw [assign_points_seq_eq]; rfl
  refine ⟨s2, ?_, h1, h2.trans hdata, h3, h4.trans hrc, fun i hi => h3 ▸ hb i hi⟩
  rcases hst with hst | ⟨chunks, hs, hst⟩
  · subst hst
    simp only [iteration, seq_steps, h1, Option.map_some']
  · subst hst
    simp only [iteration, omp_steps]
    rw [assign_points_omp_eq sqrtf n k chunks hs,
      update_centroids_omp_eq_seq n k chunks hs (assign_points_seq sqrtf n k s).1 hk, h1]
    · rfl
    · intro i hi
      have h := assign_points_seq_labels sqrtf n k s i hi
      rw [max_eq_left hk1] at h
      exact h

/-- One pass of the loop body of either program, in closed form: the change
count, the new labels and the new centroids. -/
theorem iteration_program_spec (sqrtf : F → F) (n k : Nat) (hk1 : 1 ≤ k) (hk : k ≤ MAX_K)
    (st : Steps F) (hst : IsProgram sqrtf n k st) (s : State F) :
    ∃ s2, iteration st s = some (s2, stale sqrtf k s (List.range n)) ∧
      s2.data = s.data ∧ s2.rand_calls = s.rand_calls ∧
      (∀ i, s2.labels i = if i < n then nearest_label sqrtf k s i else s.labels i) ∧
      (∀ c, s2.centroids c =
        if c < k ∧ cluster_count s2.labels (List.range n) c ≠ 0 then
          (fun f => cluster_sum s2.data s2.labels (List.range n) c f /
            (cluster_count s2.labels (List.range n) c : F))
        else s.centroids c) := by
  obtain ⟨s2, h1, h2, h3, h4, h5, _⟩ := iteration_program sqrtf n k hk1 hk st hst s
  have hb := assign_points_seq_inBounds sqrtf n k hk s
  obtain ⟨s3, g1, g2, g3, _, g5⟩ :=
    update_centroids_seq_centroids n k (assign_points_seq sqrtf n k s).1 hb
  have h23 : s3 = s2 := Option.some.inj (g1.symm.trans h2)
  subst h23
  refine ⟨s3, ?_, h3, h5, ?_, ?_⟩
  · rw [h1, assign_points_seq_eq]
  · intro i
    rw [h4, assign_points_seq_eq]
    simp [relabel]
  · intro c
    rw [g5 c, g2, g3]
    rw [assign_points_seq_eq]
    rfl

theorem refine_loop_succ (st : Steps F) (rem it : Nat) (s s2 : State F) (ch : Int)
    (h : iteration st s = some (s2, ch)) :
    refine_loop st (rem + 1) it s =
      if ch = 0 then some (s2, it + 1) else refine_loop st rem (it + 1) s2 := by
  rw [refine_loop, h]

/-- Loop rule for the refinement loop: a property established by every pass
holds of the state the loop returns, and the loop returns. -/
theorem refine_loop_post (st : Steps F) (I Q : State F → Prop)
    (hstep : ∀ s, I s → ∃ s2 ch, iteration st s = some (s2, ch) ∧ I s2 ∧ Q s2)
    (rem : Nat) (hrem : 1 ≤ rem) (it : Nat) (s : State F) (hs : I s) :
    ∃ s2 m, refine_loop st rem it s = some (s2, m) ∧ I s2 ∧ Q s2 := by
  induction rem generalizing it s with
  | zero => omega
  | succ rem ih =>
    obtain ⟨s2, ch, h1, h2, h3⟩ := hstep s hs
    rw [refine_loop_succ st rem it s s2 ch h1]
    by_cases hch : ch = 0
    · exact ⟨s2, it + 1, by simp [hch], h2, h3⟩
    · rw [if_neg hch]
      by_cases hr : rem = 0
      · subst hr
        exact ⟨s2, it + 1, by rw [refine_loop], h2, h3⟩
      · exact ih (by omega) (it + 1) s2 h2

/-- The refinement loop in terms of the passes it makes: it returns after `m`
passes, `1 <= m <= rem`; no pass before the last had zero changes; the last
pass had zero changes or was pass number `rem`. -/
theorem refine_loop_passes (st : Steps F)
    (htot : ∀ s, ∃ r, iteration st s = some r)
    (rem : Nat) (hrem : 1 ≤ rem) (it : Nat) (s : State F) :
    ∃ s2 m chs, refine_loop st rem it s = some (s2, it + m) ∧ 1 ≤ m ∧ m ≤ rem ∧
      passes st m s = some (s2, chs) ∧ chs.length = m ∧
      (∀ j, j + 1 < m → chs[j]? ≠ some 0) ∧ (chs.getLast? = some 0 ∨ m = rem) := by
  induction rem generalizing it s with
  | zero => omega
  | succ rem ih =>
    obtain ⟨⟨s2, ch⟩, h1⟩ := htot s
    rw [refine_loop_succ st rem it s s2 ch h1]
    have hone : passes st 1 s = some (s2, [ch]) := by
      simp [passes, h1]
    by_cases hch : ch = 0
    · refine ⟨s2, 1, [ch], by simp [hch], le_refl 1, by omega, hone, rfl, ?_, ?_⟩
      · intro j hj; omega
      · left; simp [hch]
    · rw [if_neg hch]
      by_cases hr : rem = 0
      · subst hr
        refine ⟨s2, 1, [ch], by rw [refine_loop], le_refl 1, le_refl 1, hone, rfl, ?_, ?_⟩
        · intro j hj; omega
        · right; rfl
      · obtain ⟨s3, m, chs, h2, h3, h4, h5, h6, h7, h8⟩ := ih (by omega) (it + 1) s2
        refine ⟨s3, m + 1, ch :: chs, ?_, by omega, by omega, ?_, by simp [h6], ?_, ?_⟩
        · rw [h2]; congr 2; omega
        · rw [passes, h1]
          simp [h5]
        · intro j hj
          cases j with
          | zero => simpa using hch
          | succ j =>
            rw [List.getElem?_cons_succ]
            exact h7 j (by omega)
        · rcases h8 with h8 | h8
          · left
            cases chs with
            | nil => simp at h8
            | cons c cs => rw [List.getLast?_cons_cons]; exact h8
          · right; omega

/-! ## Restart body: lemmas -/

/-- The label reset loop in closed form. -/
theorem reset_labels_eq (n : Nat) (s : State F) :
    reset_labels n s = { s with labels := fun i => if i < n then -1 else s.labels i } := by
  unfold reset_labels
  induction n with
  | zero => simp
  | succ n ih =>
    rw [List.range_succ, List.foldl_append, ih]
    simp only [List.foldl_cons, List.foldl_nil]
    apply State.ext_fields <;> try rfl
    funext i
    by_cases h : i = n
    · subst h; simp
    · have : i < n + 1 ↔ i < n := by omega
      simp [Function.update_noteq h, this]

/-- The centroid initialiser in closed form, for a non-empty dataset:
centroid `c < k` is the data point at index `rand() % n` of the `c`-th draw. -/
theorem init_centroids_eq (rand : Nat → Nat) (k n : Nat) (hn : n ≠ 0) (s : State F) :
    init_centroids rand k n s =
      some { s with
        centroids := fun c =>
          if c < k then s.data (rand (s.rand_calls + c) % n) else s.centroids c,
        rand_calls := s.rand_calls + k } := by
  unfold init_centroids
  induction k with
  | zero => simp
  | succ k ih =>
    rw [List.range_succ, List.foldlM_append, ih]
    simp only [Option.some_bind, Option.bind_eq_bind, List.foldlM_cons, List.foldlM_nil,
      init_centroid, hn, if_false, Option.pure_def, Option.some.injEq]
    apply State.ext_fields <;> try rfl
    funext c
    by_cases h : c = k
    · subst h; simp
    · have : c < k + 1 ↔ c < k := by omega
      simp [Function.update_noteq h, this]

/-- The start of a restart on a non-empty dataset: labels reset to `-1`, the
first `k` centroids copied from the data points at the drawn indices. -/
theorem restart_init (rand : Nat → Nat) (n k : Nat) (hn : n ≠ 0) (s : State F) :
    ∃ s1, init_centroids rand k n (reset_labels n s) = some s1 ∧ s1.data = s.data ∧
      (∀ i, s1.labels i = if i < n then -1 else s.labels i) ∧
      (∀ c, s1.centroids c =
        if c < k then s.data (rand (s.rand_calls + c) % n) else s.centroids c) ∧
      s1.rand_calls = s.rand_calls + k := by
  rw [init_centroids_eq rand k n hn, reset_labels_eq]
  exact ⟨_, rfl, rfl, fun _ => rfl, fun _ => rfl, rfl⟩

/-- The accuracy evaluator of either program on a state with valid labels. -/
theorem accuracy_program (sqrtf : F → F) (n k : Nat) (st : Steps F)
    (hst : IsProgram sqrtf n k st) (s : State F) (hl : LabelsInBounds n s) :
    st.accuracy s = some (distance_sum sqrtf s (List.range n) / (n : F)) := by
  rcases hst with hst | ⟨chunks, hs, hst⟩
  · subst hst
    exact compute_accuracy_seq_eq sqrtf n s hl
  · subst hst
    exact (compute_accuracy_omp_eq_seq sqrtf n chunks hs s hl).trans
      (compute_accuracy_seq_eq sqrtf n s hl)

/-- Every restart of either program runs to its accuracy evaluation when
`1 <= k <= MAX_K` and the dataset is not empty. -/
theorem run_trial_program (sqrtf : F → F) (rand : Nat → Nat) (n k : Nat) (hn : 1 ≤ n)
    (hk1 : 1 ≤ k) (hk : k ≤ MAX_K) (st : Steps F) (hst : IsProgram sqrtf n k st) (s : State F) :
    ∃ t, run_trial st rand n k s = some t := by
  unfold run_trial
  rw [init_centroids_eq rand k n (by omega)]
  simp only [Option.some_bind]
  obtain ⟨s2, m, h1, _, h2⟩ := refine_loop_post st (fun _ => True) (LabelsInBounds n)
    (fun s _ => by
      obtain ⟨s2, h1, _, _, _, _, h6⟩ := iteration_program sqrtf n k hk1 hk st hst s
      exact ⟨s2, _, h1, trivial, h6⟩)
    MAX_ITER (by decide) 0 _ trivial
  rw [h1]
  simp only [Option.some_bind, accuracy_program sqrtf n k st hst s2 h2, Option.map_some']
  exact ⟨_, rfl⟩

/-! ## Refinement loop and best-of-N selection: the claims -/

/-- Statement C7, amended. Best-of-N selection: in either program with
`1 <= k <= MAX_K` and a non-empty dataset, the restart loop over restarts
`0 .. R-1` returns, and the best accuracy it holds is the minimum of `FLT_MAX`
(its initial value) and the accuracies computed for those restarts: it is at
most `FLT_MAX`, at most every computed accuracy, and equal to `FLT_MAX` or to
one of them. After each successive restart the best accuracy is less than or
equal to its value after the previous restart. -/
theorem best_accuracy_min_with_initial (sqrtf : F → F) (rand : Nat → Nat) (n k : Nat)
    (hn : 1 ≤ n) (hk1 : 1 ≤ k) (hk : k ≤ MAX_K) (st : Steps F) (hst : IsProgram sqrtf n k st)
    (s : State F) (bc0 : Nat → Point F) (R : Nat) :
    ∃ ts sfin b, trials st rand n k s R = some ts ∧ ts.length = R ∧
      run_restarts st rand n k R s bc0 = some (sfin, b) ∧
      b.best_accuracy ≤ FLT_MAX ∧ (∀ t, t ∈ ts → b.best_accuracy ≤ t.acc) ∧
      (b.best_accuracy = FLT_MAX ∨ ∃ t, t ∈ ts ∧ b.best_accuracy = t.acc) ∧
      ∀ r, r < R → ∃ s1 b1 s2 b2, run_restarts st rand n k r s bc0 = some (s1, b1) ∧
        run_restarts st rand n k (r + 1) s bc0 = some (s2, b2) ∧
        b2.best_accuracy ≤ b1.best_accuracy := by
  have htot := run_trial_program sqrtf rand n k hn hk1 hk st hst
  obtain ⟨ts, hts⟩ := trials_total st rand n k htot s R
  obtain ⟨hlen, b, hrun, hb⟩ := run_restarts_of_trials st rand n k s bc0 R ts hts
  refine ⟨ts, last_state s ts, b, hts, hlen, hrun, ?_, ?_, ?_, ?_⟩
  · rcases hb with ⟨hb, _⟩ | ⟨r, t, _, h2, _, h4, _⟩
    · rw [hb]; exact le_refl _
    · rw [h4]; exact le_of_lt h2
  · intro u hu
    rcases hb with ⟨hb, hall⟩ | ⟨r, t, _, _, _, h4, _, _, _, h8, _⟩
    · rw [hb]; exact hall u hu
    · rw [h4]; exact h8 u hu
  · rcases hb with ⟨hb, _⟩ | ⟨r, t, h1, _, _, h4, _⟩
    · left; rw [hb]; rfl
    · right; exact ⟨t, mem_of_getElem?_eq_some h1, h4⟩
  · intro r _
    obtain ⟨ts1, hts1⟩ := trials_total st rand n k htot s r
    obtain ⟨_, b1, hrun1, _⟩ := run_restarts_of_trials st rand n k s bc0 r ts1 hts1
    obtain ⟨t, ht⟩ := htot (last_state s ts1)
    refine ⟨last_state s ts1, b1, t.state, select k b1 r t, hrun1, ?_,
      (select_best_accuracy_le k b1 r t).1⟩
    rw [run_restarts_succ, hrun1]
    simp [restart_body, ht]

/-- Statement C8, amended. Best-of-N provenance and ties: in either program
with `1 <= k <= MAX_K` and a non-empty dataset, after `R` restarts either no
restart had an accuracy below `FLT_MAX` and the best result still holds its
initial values (index `-1`), or the reported best restart index is the
smallest index `r` whose accuracy is the minimum over all restarts
(every earlier restart has a strictly larger accuracy, so a later restart
with an equal accuracy does not displace it), and the best accuracy, the best
iteration count and the best centroids `0 .. k-1` are those of restart `r`. -/
theorem best_result_provenance (sqrtf : F → F) (rand : Nat → Nat) (n k : Nat)
    (hn : 1 ≤ n) (hk1 : 1 ≤ k) (hk : k ≤ MAX_K) (st : Steps F) (hst : IsProgram sqrtf n k st)
    (s : State F) (bc0 : Nat → Point F) (R : Nat) :
    ∃ ts sfin b, trials st rand n k s R = some ts ∧ ts.length = R ∧
      run_restarts st rand n k R s bc0 = some (sfin, b) ∧
      ((b = init_best bc0 ∧ ∀ u, u ∈ ts → FLT_MAX ≤ u.acc) ∨
       (∃ (r : Nat) (t : Trial F), ts[r]? = some t ∧ t.acc < FLT_MAX ∧
          b.best_restart = (r : Int) ∧ b.best_accuracy = t.acc ∧
          b.best_iters = (t.iters_done : Int) ∧
          (∀ c, c < k → b.best_centroids c = t.state.centroids c) ∧
          (∀ u, u ∈ ts → t.acc ≤ u.acc) ∧
          (∀ (j : Nat) (u : Trial F), j < r → ts[j]? = some u → t.acc < u.acc))) := by
  have htot := run_trial_program sqrtf rand n k hn hk1 hk st hst
  obtain ⟨ts, hts⟩ := trials_total st rand n k htot s R
  obtain ⟨hlen, b, hrun, hb⟩ := run_restarts_of_trials st rand n k s bc0 R ts hts
  refine ⟨ts, last_state s ts, b, hts, hlen, hrun, ?_⟩
  rcases hb with hb | ⟨r, t, h1, h2, h3, h4, h5, h6, _, h8, h9⟩
  · exact Or.inl hb
  · exact Or.inr ⟨r, t, h1, h2, h3, h4, h5, h6, h8, h9⟩

/-! ### The restart loop on the dataset `far_state`, evaluated -/

theorem far_distance_0 :
    distance_pt Rat.sqrt (far_state.data 0) (fun _ => 0) = 2 * FLT_MAX := by
  norm_num [distance_pt, List.finRange, FLT_MAX, far_state, Rat.sqrt]

theorem far_distance_1 :
    distance_pt Rat.sqrt (far_state.data 1) (fun _ => 0) = 2 * FLT_MAX := by
  norm_num [distance_pt, List.finRange, FLT_MAX, far_state, Rat.sqrt]

theorem far_mean (f : Fin FEATURES) : (far_state.data 0 f + far_state.data 1 f) / 2 = 0 := by
  by_cases h : f.val < 4 <;> simp [far_state, h]

/-- On the dataset `far_state` with `k = 1`, every restart of the sequential
program ends with the single centroid at the origin and an accuracy of
`2 * FLT_MAX`. -/
theorem far_trial (rand : Nat → Nat) (s : State ℚ) (hs : s.data = far_state.data) :
    ∃ t, run_trial (seq_steps Rat.sqrt 2 1) rand 2 1 s = some t ∧ t.state.data = far_state.data ∧
      t.acc = 2 * FLT_MAX := by
  unfold run_trial
  obtain ⟨s1, hs1, hd1, _⟩ := restart_init rand 2 1 (by decide) s
  rw [hs1]
  simp only [Option.some_bind]
  obtain ⟨s2, m, h1, h2, h3, h4, h5⟩ := refine_loop_post (seq_steps Rat.sqrt 2 1)
    (fun s => s.data = far_state.data)
    (fun s => s.labels 0 = 0 ∧ s.labels 1 = 0 ∧ s.centroids 0 = fun _ => 0)
    (fun s hs => by
      obtain ⟨s2, g1, g2, _, g4, g5⟩ := iteration_program_spec Rat.sqrt 2 1 (le_refl 1)
        (by decide) (seq_steps Rat.sqrt 2 1) (Or.inl rfl) s
      have l0 : s2.labels 0 = 0 := by rw [g4 0, if_pos (by decide), nearest_label_one]
      have l1 : s2.labels 1 = 0 := by rw [g4 1, if_pos (by decide), nearest_label_one]
      refine ⟨s2, _, g1, g2.trans hs, l0, l1, ?_⟩
      rw [g5 0]
      have hc : cluster_count s2.labels (List.range 2) 0 = 2 := by
        simp [cluster_count, List.range_succ, List.filter_cons, l0, l1]
      rw [if_pos ⟨by decide, by rw [hc]; decide⟩, hc]
      funext f
      have hsum : cluster_sum s2.data s2.labels (List.range 2) 0 f =
          far_state.data 0 f + far_state.data 1 f := by
        simp [cluster_sum, List.range_succ, List.filter_cons, l0, l1, g2, hs]
      rw [hsum]
      exact_mod_cast far_mean f)
    MAX_ITER (by decide) 0 s1 (hd1.trans hs)
  rw [h1]
  have hb : LabelsInBounds 2 s2 := by
    intro i hi
    interval_cases i
    · rw [h3]; decide
    · rw [h4]; decide
  simp only [Option.some_bind]
  rw [show (seq_steps Rat.sqrt 2 1).accuracy = compute_accuracy_seq Rat.sqrt 2 from rfl,
    compute_accuracy_seq_eq Rat.sqrt 2 s2 hb]
  refine ⟨_, rfl, h2, ?_⟩
  simp only [distance_sum, List.range_succ, List.range_zero, List.nil_append, List.cons_append,
    List.map_cons, List.map_nil, List.sum_cons, List.sum_nil, h2, h3, h4, Int.toNat_zero, h5,
    far_distance_0, far_distance_1]
  norm_num

/-- On the dataset `far_state` with `k = 1` and one restart, the sequential
program ends with the best result at its initial values, while the accuracy
it computed is `2 * FLT_MAX`. -/
theorem far_run (rand : Nat → Nat) (bc0 : Nat → Point ℚ) :
    ∃ t sfin, trials (seq_steps Rat.sqrt 2 1) rand 2 1 far_state 1 = some [t] ∧
      run_restarts (seq_steps Rat.sqrt 2 1) rand 2 1 1 far_state bc0 =
        some (sfin, init_best bc0) ∧
      t.acc = 2 * FLT_MAX := by
  obtain ⟨t, ht, _, hacc⟩ := far_trial rand far_state rfl
  have hts : trials (seq_steps Rat.sqrt 2 1) rand 2 1 far_state 1 = some [t] := by
    simp [trials, last_state, ht]
  obtain ⟨_, b, hrun, hb⟩ :=
    run_restarts_of_trials (seq_steps Rat.sqrt 2 1) rand 2 1 far_state bc0 1 [t] hts
  have hbi : b = init_best bc0 := by
    rcases hb with ⟨hb, _⟩ | ⟨r, u, h1, h2, _⟩
    · exact hb
    · have hu : u = t := List.mem_singleton.mp (mem_of_getElem?_eq_some h1)
      rw [hu, hacc] at h2
      have hpos : (0 : ℚ) < FLT_MAX := flt_max_pos
      linarith
  exact ⟨t, _, hts, hbi ▸ hrun, hacc⟩

/-- Counterexample to C7 as stated: on the dataset `far_state` with `k = 1`
and one restart, the only accuracy computed is `2 * FLT_MAX`, yet the best
accuracy held after the loop is `FLT_MAX`, which is not the accuracy of any
restart. -/
theorem best_accuracy_min_counterexample :
    ∃ ts sfin b, trials (seq_steps Rat.sqrt 2 1) (fun _ => 0) 2 1 far_state 1 = some ts ∧
      ts.length = 1 ∧
      run_restarts (seq_steps Rat.sqrt 2 1) (fun _ => 0) 2 1 1 far_state (fun _ => broadcast 0) =
        some (sfin, b) ∧
      b.best_accuracy = FLT_MAX ∧ (∀ t, t ∈ ts → t.acc = 2 * FLT_MAX) ∧
      ¬ ∃ t, t ∈ ts ∧ b.best_accuracy = t.acc := by
  obtain ⟨t, sfin, hts, hrun, hacc⟩ := far_run (fun _ => 0) (fun _ => broadcast 0)
  have hpos : (0 : ℚ) < FLT_MAX := flt_max_pos
  refine ⟨[t], sfin, _, hts, rfl, hrun, rfl, ?_, ?_⟩
  · intro u hu
    rw [List.mem_singleton.mp hu]
    exact hacc
  · rintro ⟨u, hu, h⟩
    rw [List.mem_singleton.mp hu, hacc] at h
    have : (init_best (fun _ => broadcast 0) : Best ℚ).best_accuracy = FLT_MAX := rfl
    rw [this] at h
    linarith

/-- Witness of the amended C7 on the input of `test_assign_points_seq`, three restarts. -/
theorem best_accuracy_min_with_initial_witness :
    IsProgram Rat.sqrt 2 2 (seq_steps Rat.sqrt 2 2) ∧
    ∃ ts sfin b,
      trials (seq_steps Rat.sqrt 2 2) (fun _ => 0) 2 2 assign_test_state 3 = some ts ∧
      ts.length = 3 ∧
      run_restarts (seq_steps Rat.sqrt 2 2) (fun _ => 0) 2 2 3 assign_test_state
        (fun _ => broadcast 0) = some (sfin, b) ∧
      b.best_accuracy ≤ FLT_MAX ∧ ∀ t, t ∈ ts → b.best_accuracy ≤ t.acc := by
  refine ⟨Or.inl rfl, ?_⟩
  obtain ⟨ts, sfin, b, h1, h2, h3, h4, h5, _⟩ :=
    best_accuracy_min_with_initial Rat.sqrt (fun _ => 0) 2 2 (by decide) (by decide) (by decide)
      (seq_steps Rat.sqrt 2 2) (Or.inl rfl) assign_test_state (fun _ => broadcast 0) 3
  exact ⟨ts, sfin, b, h1, h2, h3, h4, h5⟩

/-- Counterexample to C8 as stated: on the dataset `far_state` with `k = 1`
and one restart, the reported best restart index after the loop is `-1`, not
the index `0` of the only restart, and the best centroids are those held
before the loop. -/
theorem best_restart_index_counterexample :
    ∃ ts sfin b, trials (seq_steps Rat.sqrt 2 1) (fun _ => 1) 2 1 far_state 1 = some ts ∧
      ts.length = 1 ∧
      run_restarts (seq_steps Rat.sqrt 2 1) (fun _ => 1) 2 1 1 far_state (fun _ => broadcast 7) =
        some (sfin, b) ∧
      b.best_restart = -1 ∧ b.best_centroids = (fun _ => broadcast 7) := by
  obtain ⟨t, sfin, hts, hrun, _⟩ := far_run (fun _ => 1) (fun _ => broadcast 7)
  exact ⟨[t], sfin, _, hts, rfl, hrun, rfl, rfl⟩

/-- C9. Refinement loop stopping rule: in either program with
`1 <= k <= MAX_K`, from any state the loop returns after `m` passes of the
body (one assignment step followed by one update step each) with
`1 <= m <= MAX_ITER`; `m` is the iteration count recorded; no pass before the
last returned zero changes, and the last pass returned zero changes or was
pass number `MAX_ITER = 2000`. -/
theorem refine_loop_stopping_rule (sqrtf : F → F) (n k : Nat) (hk1 : 1 ≤ k) (hk : k ≤ MAX_K)
    (st : Steps F) (hst : IsProgram sqrtf n k st) (s : State F) :
    ∃ s2 m chs, refine_loop st MAX_ITER 0 s = some (s2, m) ∧ 1 ≤ m ∧ m ≤ MAX_ITER ∧
      passes st m s = some (s2, chs) ∧ chs.length = m ∧
      (∀ j, j + 1 < m → chs[j]? ≠ some 0) ∧ (chs.getLast? = some 0 ∨ m = MAX_ITER) ∧
      MAX_ITER = 2000 := by
  obtain ⟨s2, m, chs, h1, h2, h3, h4, h5, h6, h7⟩ := refine_loop_passes st
    (fun s => by
      obtain ⟨s2, h1, _⟩ := iteration_program sqrtf n k hk1 hk st hst s
      exact ⟨_, h1⟩)
    MAX_ITER (by decide) 0 s
  rw [zero_add] at h1
  exact ⟨s2, m, chs, h1, h2, h3, h4, h5, h6, h7, rfl⟩

/-- Witness of C9 on the input of `test_assign_points_seq`. -/
theorem refine_loop_stopping_rule_witness :
    IsProgram Rat.sqrt 2 2 (seq_steps Rat.sqrt 2 2) ∧
    ∃ s2 m, refine_loop (seq_steps Rat.sqrt 2 2) MAX_ITER 0 assign_test_state = some (s2, m) ∧
      1 ≤ m ∧ m ≤ MAX_ITER := by
  refine ⟨Or.inl rfl, ?_⟩
  obtain ⟨s2, m, _, h1, h2, h3, _⟩ :=
    refine_loop_stopping_rule Rat.sqrt 2 2 (by decide) (by decide) (seq_steps Rat.sqrt 2 2)
      (Or.inl rfl) assign_test_state
  exact ⟨s2, m, h1, h2, h3⟩

/-! ## The two-point end-to-end scenario -/

theorem distance_broadcast (sqrtf : F → F) (x y : F) :
    distance_pt sqrtf (broadcast x) (broadcast y) = sqrtf (8 * ((x - y) * (x - y))) := by
  unfold distance_pt
  congr 1
  simp [List.finRange, broadcast]
  ring

/-- The inner loop of the assignment step for two centroids. -/
theorem nearest_two (sqrtf : F → F) (cents : Nat → Point F) (p : Point F)
    (h0 : distance_pt sqrtf p (cents 0) < FLT_MAX) :
    (nearest sqrtf cents 2 p).2 =
      if distance_pt sqrtf p (cents 1) < distance_pt sqrtf p (cents 0) then 1 else 0 := by
  simp only [nearest, List.range_succ, List.range_zero, List.nil_append, List.cons_append,
    List.foldl_cons, List.foldl_nil, nearest_step, h0, if_true]
  by_cases h : distance_pt sqrtf p (cents 1) < distance_pt sqrtf p (cents 0) <;> simp [h]

/-- The labels the assignment step gives the two points when the two
centroids are `(x0, ..., x0)` and `(x1, ..., x1)`. -/
theorem two_labels (sqrtf : F → F) (s : State F) (hd : TwoPoints s) (x0 x1 : F)
    (hc0 : s.centroids 0 = broadcast x0) (hc1 : s.centroids 1 = broadcast x1)
    (h0 : sqrtf (8 * ((0 - x0) * (0 - x0))) < FLT_MAX)
    (h1 : sqrtf (8 * ((10 - x0) * (10 - x0))) < FLT_MAX) :
    nearest_label sqrtf 2 s 0 =
      (if sqrtf (8 * ((0 - x1) * (0 - x1))) < sqrtf (8 * ((0 - x0) * (0 - x0))) then 1 else 0) ∧
    nearest_label sqrtf 2 s 1 =
      (if sqrtf (8 * ((10 - x1) * (10 - x1))) < sqrtf (8 * ((10 - x0) * (10 - x0)))
        then 1 else 0) := by
  unfold nearest_label
  constructor
  · rw [nearest_two sqrtf s.centroids (s.data 0)
      (by rw [hd.1, hc0, distance_broadcast]; exact h0), hd.1, hc0, hc1, distance_broadcast,
      distance_broadcast]
    split <;> rfl
  · rw [nearest_two sqrtf s.centroids (s.data 1)
      (by rw [hd.2, hc0, distance_broadcast]; exact h1), hd.2, hc0, hc1, distance_broadcast,
      distance_broadcast]
    split <;> rfl

/-- One pass of the loop body on the two-point dataset with `k = 2`, given
the labels `l0`, `l1` the assignment step computes. -/
theorem two_step (sqrtf : F → F) (st : Steps F) (hst : IsProgram sqrtf 2 2 st) (s : State F)
    (hd : TwoPoints s) (l0 l1 : Int) (hl0 : nearest_label sqrtf 2 s 0 = l0)
    (hl1 : nearest_label sqrtf 2 s 1 = l1) (hl : (l0 = 0 ∨ l0 = 1) ∧ (l1 = 0 ∨ l1 = 1)) :
    ∃ s2, iteration st s =
        some (s2, (if s.labels 0 ≠ l0 then 1 else 0) + (if s.labels 1 ≠ l1 then 1 else 0)) ∧
      TwoPoints s2 ∧ s2.labels 0 = l0 ∧ s2.labels 1 = l1 ∧
      s2.centroids 0 =
        (if l0 = 0 ∧ l1 = 0 then broadcast 5 else if l0 = 0 then broadcast 0
          else if l1 = 0 then broadcast 10 else s.centroids 0) ∧
      s2.centroids 1 =
        (if l0 = 1 ∧ l1 = 1 then broadcast 5 else if l0 = 1 then broadcast 0
          else if l1 = 1 then broadcast 10 else s.centroids 1) := by
  obtain ⟨s2, g1, g2, _, g4, g5⟩ :=
    iteration_program_spec sqrtf 2 2 (by decide) (by decide) st hst s
  have e0 : s2.labels 0 = l0 := by rw [g4 0, if_pos (by decide), hl0]
  have e1 : s2.labels 1 = l1 := by rw [g4 1, if_pos (by decide), hl1]
  have hd2 : TwoPoints s2 := by
    unfold TwoPoints
    rw [g2]
    exact hd
  have hch : stale sqrtf 2 s (List.range 2) =
      (if s.labels 0 ≠ l0 then 1 else 0) + (if s.labels 1 ≠ l1 then 1 else 0) := by
    unfold stale
    rw [show List.range 2 = [0, 1] from rfl]
    simp only [List.filter_cons, List.filter_nil, hl0, hl1]
    by_cases a : s.labels 0 = l0 <;> by_cases b : s.labels 1 = l1 <;> simp [a, b]
  refine ⟨s2, by rw [g1, hch], hd2, e0, e1, ?_, ?_⟩
  · rw [g5 0]
    rcases hl with ⟨a | a, b | b⟩ <;> subst a <;> subst b <;>
      simp [cluster_count, cluster_sum, List.range_succ, List.filter_cons, e0, e1, hd2.1, hd2.2,
        broadcast] <;> (try funext f) <;> (try norm_num) <;> (try rfl)
  · rw [g5 1]
    rcases hl with ⟨a | a, b | b⟩ <;> subst a <;> subst b <;>
      simp [cluster_count, cluster_sum, List.range_succ, List.filter_cons, e0, e1, hd2.1, hd2.2,
        broadcast] <;> (try funext f) <;> (try norm_num) <;> (try rfl)

/-- The labels of the two points for each pair of centroids the scenario meets. -/
theorem two_labels_cases (sqrtf : F → F) (hsq : SqrtfFacts sqrtf) (s : State F)
    (hd : TwoPoints s) (x0 x1 : F) (hc0 : s.centroids 0 = broadcast x0)
    (hc1 : s.centroids 1 = broadcast x1) :
    (x0 = 0 ∧ x1 = 10 → nearest_label sqrtf 2 s 0 = 0 ∧ nearest_label sqrtf 2 s 1 = 1) ∧
    (x0 = 10 ∧ x1 = 0 → nearest_label sqrtf 2 s 0 = 1 ∧ nearest_label sqrtf 2 s 1 = 0) ∧
    (x0 = 0 ∧ x1 = 0 → nearest_label sqrtf 2 s 0 = 0 ∧ nearest_label sqrtf 2 s 1 = 0) ∧
    (x0 = 10 ∧ x1 = 10 → nearest_label sqrtf 2 s 0 = 0 ∧ nearest_label sqrtf 2 s 1 = 0) ∧
    (x0 = 5 ∧ x1 = 0 → nearest_label sqrtf 2 s 0 = 1 ∧ nearest_label sqrtf 2 s 1 = 0) ∧
    (x0 = 5 ∧ x1 = 10 → nearest_label sqrtf 2 s 0 = 0 ∧ nearest_label sqrtf 2 s 1 = 1) := by
  obtain ⟨a0, a1, a2, a3⟩ := hsq
  have p800 : (0 : F) < sqrtf 800 := lt_trans a1 a2
  have m200 : sqrtf 200 < FLT_MAX := lt_trans a2 a3
  have m0 : sqrtf 0 < (FLT_MAX : F) := by rw [a0]; exact flt_max_pos
  have e1 : (8 : F) * ((0 - 0) * (0 - 0)) = 0 := by norm_num
  have e2 : (8 : F) * ((10 - 10) * (10 - 10)) = 0 := by norm_num
  have e3 : (8 : F) * ((0 - 10) * (0 - 10)) = 800 := by norm_num
  have e4 : (8 : F) * ((10 - 0) * (10 - 0)) = 800 := by norm_num
  have e5 : (8 : F) * ((0 - 5) * (0 - 5)) = 200 := by norm_num
  have e6 : (8 : F) * ((10 - 5) * (10 - 5)) = 200 := by norm_num
  have n1 : ¬ sqrtf 800 < (0 : F) := not_lt.mpr (le_of_lt p800)
  have n2 : ¬ sqrtf 800 < sqrtf 200 := not_lt.mpr (le_of_lt a2)
  have n3 : ¬ (0 : F) < 0 := lt_irrefl 0
  have n4 : ¬ sqrtf 800 < sqrtf 800 := lt_irrefl _
  refine ⟨?_, ?_, ?_, ?_, ?_, ?_⟩ <;> rintro ⟨rfl, rfl⟩
  · have h := two_labels sqrtf s hd 0 10 hc0 hc1 (by rw [e1]; exact m0) (by rw [e4]; exact a3)
    rw [e1, e2, e3, e4, a0] at h
    simpa [n1, p800] using h
  · have h := two_labels sqrtf s hd 10 0 hc0 hc1 (by rw [e3]; exact a3) (by rw [e2]; exact m0)
    rw [e1, e2, e3, e4, a0] at h
    simpa [n1, p800] using h
  · have h := two_labels sqrtf s hd 0 0 hc0 hc1 (by rw [e1]; exact m0) (by rw [e4]; exact a3)
    rw [e1, e4, a0] at h
    simpa [n3, n4] using h
  · have h := two_labels sqrtf s hd 10 10 hc0 hc1 (by rw [e3]; exact a3) (by rw [e2]; exact m0)
    rw [e2, e3, a0] at h
    simpa [n3, n4] using h
  · have h := two_labels sqrtf s hd 5 0 hc0 hc1 (by rw [e5]; exact m200) (by rw [e6]; exact m200)
    rw [e1, e4, e5, e6, a0] at h
    simpa [a1, n2] using h
  · have h := two_labels sqrtf s hd 5 10 hc0 hc1 (by rw [e5]; exact m200) (by rw [e6]; exact m200)
    rw [e2, e3, e5, e6, a0] at h
    simpa [a1, n2] using h

/-- One pass on the two-point dataset from centroids `(x0, ..)`, `(x1, ..)`
whose assignment labels are `l0`, `l1`: a packaged form of `two_step`. -/
theorem two_step_from (sqrtf : F → F) (st : Steps F) (hst : IsProgram sqrtf 2 2 st) (s : State F)
    (hd : TwoPoints s) (l0 l1 : Int)
    (hlab : nearest_label sqrtf 2 s 0 = l0 ∧ nearest_label sqrtf 2 s 1 = l1)
    (hl : (l0 = 0 ∨ l0 = 1) ∧ (l1 = 0 ∨ l1 = 1)) (m0 m1 : Int) (hm0 : s.labels 0 = m0)
    (hm1 : s.labels 1 = m1) :
    ∃ s2, iteration st s =
        some (s2, (if m0 ≠ l0 then 1 else 0) + (if m1 ≠ l1 then 1 else 0)) ∧
      TwoPoints s2 ∧ s2.labels 0 = l0 ∧ s2.labels 1 = l1 ∧
      s2.centroids 0 =
        (if l0 = 0 ∧ l1 = 0 then broadcast 5 else if l0 = 0 then broadcast 0
          else if l1 = 0 then broadcast 10 else s.centroids 0) ∧
      s2.centroids 1 =
        (if l0 = 1 ∧ l1 = 1 then broadcast 5 else if l0 = 1 then broadcast 0
          else if l1 = 1 then broadcast 10 else s.centroids 1) := by
  subst hm0 hm1
  exact two_step sqrtf st hst s hd l0 l1 hlab.1 hlab.2 hl

theorem refine_loop_two_passes (st : Steps F) (s s2 s3 : State F) (c1 : Int)
    (h1 : iteration st s = some (s2, c1)) (hc1 : c1 ≠ 0) (h2 : iteration st s2 = some (s3, 0)) :
    refine_loop st MAX_ITER 0 s = some (s3, 2) := by
  rw [show MAX_ITER = 1998 + 1 + 1 from rfl, refine_loop_succ st (1998 + 1) 0 s s2 c1 h1,
    if_neg hc1, refine_loop_succ st 1998 (0 + 1) s2 s3 0 h2, if_pos rfl]

theorem refine_loop_three_passes (st : Steps F) (s s2 s3 s4 : State F) (c1 c2 : Int)
    (h1 : iteration st s = some (s2, c1)) (hc1 : c1 ≠ 0)
    (h2 : iteration st s2 = some (s3, c2)) (hc2 : c2 ≠ 0)
    (h3 : iteration st s3 = some (s4, 0)) :
    refine_loop st MAX_ITER 0 s = some (s4, 3) := by
  rw [show MAX_ITER = 1997 + 1 + 1 + 1 from rfl,
    refine_loop_succ st (1997 + 1 + 1) 0 s s2 c1 h1, if_neg hc1,
    refine_loop_succ st (1997 + 1) (0 + 1) s2 s3 c2 h2, if_neg hc2,
    refine_loop_succ st 1997 (0 + 1 + 1) s3 s4 0 h3, if_pos rfl]

/-- In a separated state every point sits on its centroid: the accuracy is `0`. -/
theorem separated_accuracy (sqrtf : F → F) (h0 : sqrtf 0 = 0) (st : Steps F)
    (hst : IsProgram sqrtf 2 2 st) (s : State F) (hsep : Separated s) :
    st.accuracy s = some 0 := by
  obtain ⟨⟨d0, d1⟩, hcase⟩ := hsep
  have hb : LabelsInBounds 2 s := by
    intro i hi
    interval_cases i <;> rcases hcase with ⟨a, b, _, _⟩ | ⟨a, b, _, _⟩ <;> simp [a, b]
  rw [accuracy_program sqrtf 2 2 st hst s hb]
  have e1 : (8 : F) * ((0 - 0) * (0 - 0)) = 0 := by norm_num
  have e2 : (8 : F) * ((10 - 10) * (10 - 10)) = 0 := by norm_num
  rcases hcase with ⟨a, b, c0, c1⟩ | ⟨a, b, c0, c1⟩ <;>
    simp [distance_sum, List.range_succ, a, b, c0, c1, d0, d1, distance_broadcast, h0]

/-- Every restart on the two-point dataset with `k = 2` ends separated with
accuracy `0`, after two passes when the two draws pick different points and
three passes when they pick the same point. -/
theorem two_points_trial (sqrtf : F → F) (hsq : SqrtfFacts sqrtf) (rand : Nat → Nat)
    (st : Steps F) (hst : IsProgram sqrtf 2 2 st) (s : State F) (hd : TwoPoints s) :
    ∃ t, run_trial st rand 2 2 s = some t ∧ Separated t.state ∧ t.acc = 0 ∧
      t.iters_done = (if rand s.rand_calls % 2 = rand (s.rand_calls + 1) % 2 then 3 else 2) := by
  obtain ⟨s1, hs1, hd1, hl1, hc1, _⟩ := restart_init rand 2 2 (by decide) s
  have hd1 : TwoPoints s1 := by
    unfold TwoPoints
    rw [hd1]
    exact hd
  have m0 : s1.labels 0 = -1 := by rw [hl1 0]; rfl
  have m1 : s1.labels 1 = -1 := by rw [hl1 1]; rfl
  have c0 : s1.centroids 0 = s.data (rand s.rand_calls % 2) := by rw [hc1 0]; simp
  have c1 : s1.centroids 1 = s.data (rand (s.rand_calls + 1) % 2) := by rw [hc1 1]; simp
  have key : ∀ s4 m, refine_loop st MAX_ITER 0 s1 = some (s4, m) → Separated s4 →
      ∃ t, run_trial st rand 2 2 s = some t ∧ Separated t.state ∧ t.acc = 0 ∧
        t.iters_done = m := by
    intro s4 m h hsep
    unfold run_trial
    rw [hs1]
    simp only [Option.some_bind, h, separated_accuracy sqrtf hsq.1 st hst s4 hsep,
      Option.map_some']
    exact ⟨_, rfl, hsep, rfl, rfl⟩
  have ha : rand s.rand_calls % 2 = 0 ∨ rand s.rand_calls % 2 = 1 := by omega
  have hb : rand (s.rand_calls + 1) % 2 = 0 ∨ rand (s.rand_calls + 1) % 2 = 1 := by omega
  rcases ha with a | a <;> rcases hb with b | b <;> rw [a] at c0 <;> rw [b] at c1 <;>
    simp only [a, b]
  · rw [hd.1] at c0 c1
    obtain ⟨s2, i1, d2, l20, l21, c20, c21⟩ := two_step_from sqrtf st hst s1 hd1 0 0
      ((two_labels_cases sqrtf hsq s1 hd1 0 0 c0 c1).2.2.1 ⟨rfl, rfl⟩) (by simp) (-1) (-1) m0 m1
    norm_num at i1 c20 c21
    rw [c1] at c21
    obtain ⟨s3, i2, d3, l30, l31, c30, c31⟩ := two_step_from sqrtf st hst s2 d2 1 0
      ((two_labels_cases sqrtf hsq s2 d2 5 0 c20 c21).2.2.2.2.1 ⟨rfl, rfl⟩) (by simp) 0 0 l20 l21
    norm_num at i2 c30 c31
    obtain ⟨s4, i3, d4, l40, l41, c40, c41⟩ := two_step_from sqrtf st hst s3 d3 1 0
      ((two_labels_cases sqrtf hsq s3 d3 10 0 c30 c31).2.1 ⟨rfl, rfl⟩) (by simp) 1 0 l30 l31
    norm_num at i3 c40 c41
    exact key s4 3 (refine_loop_three_passes st s1 s2 s3 s4 2 1 i1 (by norm_num) i2 (by norm_num) i3)
      ⟨d4, Or.inr ⟨l40, l41, c40, c41⟩⟩
  · rw [hd.1] at c0
    rw [hd.2] at c1
    obtain ⟨s2, i1, d2, l20, l21, c20, c21⟩ := two_step_from sqrtf st hst s1 hd1 0 1
      ((two_labels_cases sqrtf hsq s1 hd1 0 10 c0 c1).1 ⟨rfl, rfl⟩) (by simp) (-1) (-1) m0 m1
    norm_num at i1 c20 c21
    obtain ⟨s3, i2, d3, l30, l31, c30, c31⟩ := two_step_from sqrtf st hst s2 d2 0 1
      ((two_labels_cases sqrtf hsq s2 d2 0 10 c20 c21).1 ⟨rfl, rfl⟩) (by simp) 0 1 l20 l21
    norm_num at i2 c30 c31
    exact key s3 2 (refine_loop_two_passes st s1 s2 s3 2 i1 (by norm_num) i2)
      ⟨d3, Or.inl ⟨l30, l31, c30, c31⟩⟩
  · rw [hd.2] at c0
    rw [hd.1] at c1
    obtain ⟨s2, i1, d2, l20, l21, c20, c21⟩ := two_step_from sqrtf st hst s1 hd1 1 0
      ((two_labels_cases sqrtf hsq s1 hd1 10 0 c0 c1).2.1 ⟨rfl, rfl⟩) (by simp) (-1) (-1) m0 m1
    norm_num at i1 c20 c21
    obtain ⟨s3, i2, d3, l30, l31, c30, c31⟩ := two_step_from sqrtf st hst s2 d2 1 0
      ((two_labels_cases sqrtf hsq s2 d2 10 0 c20 c21).2.1 ⟨rfl, rfl⟩) (by simp) 1 0 l20 l21
    norm_num at i2 c30 c31
    exact key s3 2 (refine_loop_two_passes st s1 s2 s3 2 i1 (by norm_num) i2)
      ⟨d3, Or.inr ⟨l30, l31, c30, c31⟩⟩
  · rw [hd.2] at c0 c1
    obtain ⟨s2, i1, d2, l20, l21, c20, c21⟩ := two_step_from sqrtf st hst s1 hd1 0 0
      ((two_labels_cases sqrtf hsq s1 hd1 10 10 c0 c1).2.2.2.1 ⟨rfl, rfl⟩) (by simp) (-1) (-1)
      m0 m1
    norm_num at i1 c20 c21
    rw [c1] at c21
    obtain ⟨s3, i2, d3, l30, l31, c30, c31⟩ := two_step_from sqrtf st hst s2 d2 0 1
      ((two_labels_cases sqrtf hsq s2 d2 5 10 c20 c21).2.2.2.2.2 ⟨rfl, rfl⟩) (by simp) 0 0 l20 l21
    norm_num at i2 c30 c31
    obtain ⟨s4, i3, d4, l40, l41, c40, c41⟩ := two_step_from sqrtf st hst s3 d3 0 1
      ((two_labels_cases sqrtf hsq s3 d3 0 10 c30 c31).1 ⟨rfl, rfl⟩) (by simp) 0 1 l30 l31
    norm_num at i3 c40 c41
    exact key s4 3 (refine_loop_three_passes st s1 s2 s3 s4 2 1 i1 (by norm_num) i2 (by norm_num) i3)
      ⟨d4, Or.inl ⟨l40, l41, c40, c41⟩⟩

/-- C10. Two-point end-to-end outcome: for the dataset of the two points
`(0, ..., 0)` and `(10, ..., 10)`, `k = 2`, every restart count `R >= 1` and
every sequence of random draws, and any `sqrtf` with `sqrtf 0 = 0 <
sqrtf 200 < sqrtf 800 < FLT_MAX`, the restart loop of either program returns;
every restart ends with the two points carrying different labels and with
accuracy exactly `0`; the best result has accuracy `0` and its two centroids
are the two points. -/
theorem two_points_end_to_end (sqrtf : F → F) (h0 : sqrtf 0 = 0) (h1 : 0 < sqrtf 200)
    (h2 : sqrtf 200 < sqrtf 800) (h3 : sqrtf 800 < FLT_MAX) (rand : Nat → Nat)
    (st : Steps F) (hst : IsProgram sqrtf 2 2 st) (s : State F) (hd : TwoPoints s)
    (bc0 : Nat → Point F) (R : Nat) (hR : 1 ≤ R) :
    ∃ ts sfin b, trials st rand 2 2 s R = some ts ∧ ts.length = R ∧
      run_restarts st rand 2 2 R s bc0 = some (sfin, b) ∧
      (∀ t, t ∈ ts → t.state.labels 0 ≠ t.state.labels 1 ∧ t.acc = 0) ∧
      b.best_accuracy = 0 ∧
      ((b.best_centroids 0 = broadcast 0 ∧ b.best_centroids 1 = broadcast 10) ∨
       (b.best_centroids 0 = broadcast 10 ∧ b.best_centroids 1 = broadcast 0)) := by
  have hsq : SqrtfFacts sqrtf := ⟨h0, h1, h2, h3⟩
  obtain ⟨ts, hts, _, hP⟩ := trials_invariant st rand 2 2 TwoPoints
    (fun t => Separated t.state ∧ t.acc = 0)
    (fun s hs => by
      obtain ⟨t, ht1, ht2, ht3, _⟩ := two_points_trial sqrtf hsq rand st hst s hs
      exact ⟨t, ht1, ht2.1, ht2, ht3⟩)
    s hd R
  obtain ⟨hlen, b, hrun, hb⟩ := run_restarts_of_trials st rand 2 2 s bc0 R ts hts
  have hne : ts ≠ [] := by
    intro h
    rw [h] at hlen
    simp at hlen
    omega
  obtain ⟨u, hu⟩ := List.exists_mem_of_ne_nil ts hne
  have hpos : (0 : F) < FLT_MAX := flt_max_pos
  rcases hb with ⟨_, hall⟩ | ⟨r, t, g1, _, _, g4, _, g6, _⟩
  · have := hall u hu
    rw [(hP u hu).2] at this
    exact absurd hpos (not_lt.mpr this)
  · have ht := hP t (mem_of_getElem?_eq_some g1)
    refine ⟨ts, last_state s ts, b, hts, hlen, hrun, ?_, by rw [g4]; exact ht.2, ?_⟩
    · intro v hv
      refine ⟨?_, (hP v hv).2⟩
      rcases (hP v hv).1.2 with ⟨a, b, _, _⟩ | ⟨a, b, _, _⟩ <;> rw [a, b] <;> decide
    · rw [g6 0 (by decide), g6 1 (by decide)]
      rcases ht.1.2 with ⟨_, _, c0, c1⟩ | ⟨_, _, c0, c1⟩
      · exact Or.inl ⟨c0, c1⟩
      · exact Or.inr ⟨c0, c1⟩

theorem two_points_state_twoPoints : TwoPoints (two_points_state : State F) := by
  unfold TwoPoints two_points_state
  simp

/-- Witness of C10 over the real numbers with the real square root, the
sequential program, three restarts. -/
theorem two_points_end_to_end_witness :
    Real.sqrt 0 = 0 ∧ 0 < Real.sqrt 200 ∧ Real.sqrt 200 < Real.sqrt 800 ∧
    Real.sqrt 800 < FLT_MAX ∧ TwoPoints (two_points_state : State ℝ) ∧
    ∃ ts sfin b,
      trials (seq_steps Real.sqrt 2 2) (fun i => i) 2 2 (two_points_state : State ℝ) 3 = some ts ∧
      ts.length = 3 ∧
      run_restarts (seq_steps Real.sqrt 2 2) (fun i => i) 2 2 3 two_points_state
        (fun _ => broadcast 0) = some (sfin, b) ∧
      (∀ t, t ∈ ts → t.state.labels 0 ≠ t.state.labels 1 ∧ t.acc = 0) ∧
      b.best_accuracy = 0 ∧
      ((b.best_centroids 0 = broadcast 0 ∧ b.best_centroids 1 = broadcast 10) ∨
       (b.best_centroids 0 = broadcast 10 ∧ b.best_centroids 1 = broadcast 0)) := by
  have h1 : (0 : ℝ) < Real.sqrt 200 := Real.sqrt_pos.mpr (by norm_num)
  have h2 : Real.sqrt 200 < Real.sqrt 800 := Real.sqrt_lt_sqrt (by norm_num) (by norm_num)
  have h3 : Real.sqrt 800 < FLT_MAX := by
    rw [Real.sqrt_lt' flt_max_pos]
    unfold FLT_MAX
    norm_num
  exact ⟨Real.sqrt_zero, h1, h2, h3, two_points_state_twoPoints,
    two_points_end_to_end Real.sqrt Real.sqrt_zero h1 h2 h3 (fun i => i)
      (seq_steps Real.sqrt 2 2) (Or.inl rfl) two_points_state two_points_state_twoPoints
      (fun _ => broadcast 0) 3 (by decide)⟩

theorem rat_sqrt_facts : SqrtfFacts Rat.sqrt := by
  unfold SqrtfFacts
  norm_num [Rat.sqrt, FLT_MAX]

/-- Witness of the amended C8 on the two-point dataset, three restarts of the
parallel program: the three restarts all reach accuracy `0`, and the best
restart index reported is `0`, the earliest of them. -/
theorem best_result_provenance_witness :
    IsProgram Rat.sqrt 2 2 (omp_steps Rat.sqrt [[0], [1]] 2 2) ∧
    ∃ ts sfin b,
      trials (omp_steps Rat.sqrt [[0], [1]] 2 2) (fun i => i) 2 2 two_points_state 3 = some ts ∧
      run_restarts (omp_steps Rat.sqrt [[0], [1]] 2 2) (fun i => i) 2 2 3 two_points_state
        (fun _ => broadcast 0) = some (sfin, b) ∧
      (∀ t, t ∈ ts → t.acc = 0) ∧ b.best_restart = 0 := by
  have hst : IsProgram Rat.sqrt 2 2 (omp_steps Rat.sqrt [[0], [1]] 2 2) :=
    Or.inr ⟨_, isSchedule_two_chunks, rfl⟩
  refine ⟨hst, ?_⟩
  obtain ⟨ts, sfin, b, h1, h2, h3, h4⟩ :=
    best_result_provenance Rat.sqrt (fun i => i) 2 2 (by decide) (by decide) (by decide)
      (omp_steps Rat.sqrt [[0], [1]] 2 2) hst two_points_state (fun _ => broadcast 0) 3
  obtain ⟨ts2, hts2, _, hP⟩ := trials_invariant (omp_steps Rat.sqrt [[0], [1]] 2 2)
    (fun i => i) 2 2 TwoPoints (fun t => t.acc = 0)
    (fun s hs => by
      obtain ⟨t, ht1, ht2, ht3, _⟩ :=
        two_points_trial Rat.sqrt rat_sqrt_facts (fun i => i) _ hst s hs
      exact ⟨t, ht1, ht2.1, ht3⟩)
    two_points_state two_points_state_twoPoints 3
  have hts : ts2 = ts := Option.some.inj (hts2.symm.trans h1)
  subst hts
  have hpos : (0 : ℚ) < FLT_MAX := flt_max_pos
  obtain ⟨u, hu⟩ : ∃ u, ts2[0]? = some u := by
    cases ts2 with
    | nil => simp at h2
    | cons u us => exact ⟨u, by simp⟩
  refine ⟨ts2, sfin, b, h1, h3, hP, ?_⟩
  rcases h4 with ⟨_, hall⟩ | ⟨r, t, g1, _, g3, _, _, _, _, g8⟩
  · have := hall u (mem_of_getElem?_eq_some hu)
    rw [hP u (mem_of_getElem?_eq_some hu)] at this
    linarith
  · have hr : r = 0 := by
      by_contra hne
      have := g8 0 u (Nat.pos_of_ne_zero hne) hu
      rw [hP u (mem_of_getElem?_eq_some hu), hP t (mem_of_getElem?_eq_some g1)] at this
      exact lt_irrefl _ this
    rw [g3, hr]
    rfl

/-! ## Distance kernel: lemmas and claims -/

/-- The accumulation loop of `distance_pt` adds up the squared differences of
all `FEATURES` features before the square root is taken. -/
theorem distance_pt_eq_sqrtf_sum (sqrtf : F → F) (a b : Point F) :
    distance_pt sqrtf a b = sqrtf (∑ i : Fin FEATURES, (a i - b i) ^ 2) := by
  unfold distance_pt
  congr 1
  rw [Fin.sum_univ_def, List.sum_eq_foldl, List.foldl_map]
  simp only [sq]

theorem sum_sq_nonneg (a b : Point F) : 0 ≤ ∑ i : Fin FEATURES, (a i - b i) ^ 2 :=
  Finset.sum_nonneg (fun i _ => sq_nonneg (a i - b i))

theorem sum_sq_eq_zero_iff (a b : Point F) :
    (∑ i : Fin FEATURES, (a i - b i) ^ 2) = 0 ↔ ∀ i, a i = b i := by
  rw [Finset.sum_eq_zero_iff_of_nonneg (fun i _ => sq_nonneg (a i - b i))]
  constructor
  · intro h i
    have := h i (Finset.mem_univ i)
    exact sub_eq_zero.mp (pow_eq_zero_iff (by decide) |>.mp this)
  · intro h i _
    rw [h i, sub_self]
    exact zero_pow (by decide)

/-- Exact arithmetic. Distance kernel value: for every pair of 8-feature vectors `a`, `b`,
`distance_pt(a, b)` is `sqrtf` applied once to the sum over the 8 features of
`(a[i] - b[i])^2`, and it is non-negative (for a `sqrtf` that is non-negative
on non-negative arguments). -/
theorem exact_distance_pt_value (sqrtf : F → F) (hnn : ∀ x, 0 ≤ x → 0 ≤ sqrtf x) (a b : Point F) :
    0 ≤ distance_pt sqrtf a b ∧
      distance_pt sqrtf a b = sqrtf (∑ i : Fin FEATURES, (a i - b i) ^ 2) := by
  refine ⟨?_, distance_pt_eq_sqrtf_sum sqrtf a b⟩
  rw [distance_pt_eq_sqrtf_sum]
  exact hnn _ (sum_sq_nonneg a b)

/-- Exact arithmetic over the real numbers with the real square root: the
distance from `(0, ..., 0)` to `(3, 4, 0, ..., 0)` is `5`, and from
`(0, ..., 0)` to `(1, ..., 1)` it is the square root of `8`. -/
theorem exact_distance_pt_value_case :
    (∀ x : ℝ, 0 ≤ x → 0 ≤ Real.sqrt x) ∧
    distance_pt Real.sqrt (broadcast 0) point_3_4 = 5 ∧
    distance_pt Real.sqrt (broadcast 0) (broadcast 1) = Real.sqrt 8 ∧
    0 ≤ distance_pt Real.sqrt (broadcast 0) (point_3_4 : Point ℝ) := by
  have hnn : ∀ x : ℝ, 0 ≤ x → 0 ≤ Real.sqrt x := fun x _ => Real.sqrt_nonneg x
  refine ⟨hnn, ?_, ?_, (exact_distance_pt_value Real.sqrt hnn (broadcast 0) point_3_4).1⟩
  · rw [(exact_distance_pt_value Real.sqrt hnn (broadcast 0) point_3_4).2]
    have h : (∑ i : Fin FEATURES, ((broadcast 0 : Point ℝ) i - point_3_4 i) ^ 2) = 5 ^ 2 := by
      simp [Fin.sum_univ_eight, broadcast, point_3_4]
      norm_num
    rw [h, Real.sqrt_sq (by norm_num)]
  · rw [(exact_distance_pt_value Real.sqrt hnn (broadcast 0) (broadcast 1)).2]
    congr 1
    simp [broadcast]

/-- C15. Distance kernel symmetry: for every pair of 8-feature vectors `a`
and `b`, `distance_pt(a, b) = distance_pt(b, a)`. -/
theorem distance_pt_symmetric (sqrtf : F → F) (a b : Point F) :
    distance_pt sqrtf a b = distance_pt sqrtf b a := by
  rw [distance_pt_eq_sqrtf_sum, distance_pt_eq_sqrtf_sum]
  congr 1
  apply Finset.sum_congr rfl
  intro i _
  ring

/-- Exact arithmetic. Distance kernel zero iff identical: for a `sqrtf` that vanishes
exactly at `0` on non-negative arguments, `distance_pt(a, b) = 0` if and only
if `a[i] = b[i]` for every feature `i`; in particular `distance_pt(a, a) = 0`. -/
theorem exact_distance_pt_eq_zero_iff (sqrtf : F → F) (hz : ∀ x, 0 ≤ x → (sqrtf x = 0 ↔ x = 0))
    (a b : Point F) :
    (distance_pt sqrtf a b = 0 ↔ ∀ i, a i = b i) ∧ distance_pt sqrtf a a = 0 := by
  have key : ∀ p q : Point F, distance_pt sqrtf p q = 0 ↔ ∀ i, p i = q i := by
    intro p q
    rw [distance_pt_eq_sqrtf_sum, hz _ (sum_sq_nonneg p q), sum_sq_eq_zero_iff]
  exact ⟨key a b, (key a a).mpr (fun _ => rfl)⟩

/-- Exact arithmetic over the real numbers with the real square root, on the
zero-distance case of `test_distance.c`. -/
theorem exact_distance_pt_eq_zero_iff_case :
    (∀ x : ℝ, 0 ≤ x → (Real.sqrt x = 0 ↔ x = 0)) ∧
    distance_pt Real.sqrt (point_ramp : Point ℝ) point_ramp = 0 ∧
    distance_pt Real.sqrt (broadcast 0) (point_3_4 : Point ℝ) ≠ 0 := by
  have hz : ∀ x : ℝ, 0 ≤ x → (Real.sqrt x = 0 ↔ x = 0) := fun x hx => Real.sqrt_eq_zero hx
  refine ⟨hz, (exact_distance_pt_eq_zero_iff Real.sqrt hz point_ramp point_ramp).2, ?_⟩
  rw [Ne, (exact_distance_pt_eq_zero_iff Real.sqrt hz (broadcast 0) point_3_4).1]
  intro h
  have := h ⟨0, by decide⟩
  simp [broadcast, point_3_4] at this

/-! ## Accuracy evaluator and centroid initialiser: the claims -/

theorem distance_sum_range (sqrtf : F → F) (s : State F) (n : Nat) :
    distance_sum sqrtf s (List.range n) =
      ∑ i in Finset.range n,
        distance_pt sqrtf (s.data i) (s.centroids (s.labels i).toNat) := by
  induction n with
  | zero => simp [distance_sum]
  | succ n ih =>
    rw [List.range_succ, distance_sum_append, ih, Finset.sum_range_succ]
    simp [distance_sum]

/-- C13. Accuracy evaluator: for `N >= 1`, labels of the points `i < N` in
`[0, k)` and `k <= MAX_K`, `compute_accuracy_seq`, and `compute_accuracy_omp`
under any schedule, return the sum over `i < N` of
`distance_pt(data[i], centroids[labels[i]])` divided by `N`. -/
theorem compute_accuracy_mean_distance (sqrtf : F → F) (n k : Nat) (s : State F)
    (chunks : List (List Nat)) (hs : IsSchedule chunks n) (_hn : 1 ≤ n) (hk : k ≤ MAX_K)
    (hl : ∀ i, i < n → 0 ≤ s.labels i ∧ s.labels i < (k : Int))
    (r : Option F)
    (hr : r = compute_accuracy_seq sqrtf n s ∨ r = compute_accuracy_omp sqrtf chunks n s) :
    r = some ((∑ i in Finset.range n,
        distance_pt sqrtf (s.data i) (s.centroids (s.labels i).toNat)) / (n : F)) := by
  have hb : LabelsInBounds n s := by
    intro i hi
    exact ⟨(hl i hi).1, lt_of_lt_of_le (hl i hi).2 (by exact_mod_cast hk)⟩
  have hr : r = compute_accuracy_seq sqrtf n s := by
    rcases hr with h | h
    · exact h
    · rw [h, compute_accuracy_omp_eq_seq sqrtf n chunks hs s hb]
  rw [hr, compute_accuracy_seq_eq sqrtf n s hb, distance_sum_range]

theorem isSchedule_one : IsSchedule [[0]] 1 := by
  unfold IsSchedule
  decide

/-- Witness of C13 on the input of `test_compute_accuracy_seq`, over the real
numbers: the accuracy is the square root of `8`. -/
theorem compute_accuracy_mean_distance_witness :
    IsSchedule [[0]] 1 ∧
    (∀ i, i < 1 → 0 ≤ (accuracy_test_state : State ℝ).labels i ∧
      (accuracy_test_state : State ℝ).labels i < ((1 : Nat) : Int)) ∧
    compute_accuracy_seq Real.sqrt 1 accuracy_test_state = some (Real.sqrt 8) := by
  have hl : ∀ i, i < 1 → 0 ≤ (accuracy_test_state : State ℝ).labels i ∧
      (accuracy_test_state : State ℝ).labels i < ((1 : Nat) : Int) := by
    intro i _
    simp [accuracy_test_state]
  refine ⟨isSchedule_one, hl, ?_⟩
  rw [compute_accuracy_mean_distance Real.sqrt 1 1 accuracy_test_state [[0]] isSchedule_one
    (le_refl 1) (by decide) hl _ (Or.inl rfl)]
  simp [accuracy_test_state, distance_broadcast]

/-- C17. Centroid initialiser: for `N >= 1`, every `k` and every stream of
draws, `init_centroids(k, N)` returns; each centroid `c < k` is a copy of the
data point at index `d_c mod N`, which lies in `[0, N)`, where `d_c` is the
`c`-th draw made; centroids with index `>= k`, the dataset and the labels are
unchanged. The draws are not constrained to differ. -/
theorem init_centroids_copies_drawn_points (rand : Nat → Nat) (k n : Nat) (hn : 1 ≤ n)
    (s : State F) :
    ∃ s2, init_centroids rand k n s = some s2 ∧
      (∀ c, c < k → rand (s.rand_calls + c) % n < n ∧
        s2.centroids c = s.data (rand (s.rand_calls + c) % n)) ∧
      (∀ c, k ≤ c → s2.centroids c = s.centroids c) ∧
      s2.data = s.data ∧ s2.labels = s.labels := by
  rw [init_centroids_eq rand k n (by omega)]
  refine ⟨_, rfl, ?_, ?_, rfl, rfl⟩
  · intro c hc
    exact ⟨Nat.mod_lt _ (by omega), by simp [hc]⟩
  · intro c hc
    simp [not_lt.mpr hc]

/-- Witness of C17 on the two-point dataset with a constant stream of draws:
both centroids are copies of point `1`, so two centroids may be equal. -/
theorem init_centroids_copies_drawn_points_witness :
    (1 : Nat) ≤ 2 ∧
    ∃ s2, init_centroids (fun _ => 7) 2 2 (two_points_state : State ℚ) = some s2 ∧
      s2.centroids 0 = broadcast 10 ∧ s2.centroids 1 = broadcast 10 := by
  refine ⟨by decide, ?_⟩
  obtain ⟨s2, h1, h2, _⟩ :=
    init_centroids_copies_drawn_points (fun _ => 7) 2 2 (by decide) (two_points_state : State ℚ)
  refine ⟨s2, h1, ?_, ?_⟩
  · rw [(h2 0 (by decide)).2]
    simp [two_points_state]
  · rw [(h2 1 (by decide)).2]
    simp [two_points_state]

/-- C18. Best result is decoupled from the live centroid set: in either
program (`1 <= k <= MAX_K`, non-empty dataset) every restart runs to its
accuracy evaluation, and when its accuracy is not strictly lower than the
best accuracy so far, the body of the restart loop leaves the stored best
result (centroids, accuracy, restart index, iteration count) exactly as it
was, whatever the restart did to the live state. -/
theorem best_result_kept_when_not_lower (sqrtf : F → F) (rand : Nat → Nat) (n k : Nat)
    (hn : 1 ≤ n) (hk1 : 1 ≤ k) (hk : k ≤ MAX_K) (st : Steps F) (hst : IsProgram sqrtf n k st)
    (s : State F) (b : Best F) (r : Nat) :
    ∃ t, run_trial st rand n k s = some t ∧
      (¬ t.acc < b.best_accuracy → restart_body st rand n k (s, b) r = some (t.state, b)) := by
  obtain ⟨t, ht⟩ := run_trial_program sqrtf rand n k hn hk1 hk st hst s
  refine ⟨t, ht, ?_⟩
  intro hlt
  simp only [restart_body, ht, Option.map_some', select_of_not_lt k b r t hlt]

/-- Witness of C18 on the two-point dataset: a restart reaching accuracy `0`
against a stored best accuracy of `0` leaves the stored best result as it was. -/
theorem best_result_kept_when_not_lower_witness :
    IsProgram Rat.sqrt 2 2 (seq_steps Rat.sqrt 2 2) ∧
    ∃ t, run_trial (seq_steps Rat.sqrt 2 2) (fun i => i) 2 2 two_points_state = some t ∧
      restart_body (seq_steps Rat.sqrt 2 2) (fun i => i) 2 2
        (two_points_state,
          ({ best_centroids := fun _ => broadcast 3, best_accuracy := 0, best_restart := 0,
             best_iters := 2 } : Best ℚ)) 1 =
        some (t.state,
          ({ best_centroids := fun _ => broadcast 3, best_accuracy := 0, best_restart := 0,
             best_iters := 2 } : Best ℚ)) := by
  have hst : IsProgram Rat.sqrt 2 2 (seq_steps Rat.sqrt 2 2) := Or.inl rfl
  refine ⟨hst, ?_⟩
  obtain ⟨t, ht, himp⟩ := best_result_kept_when_not_lower Rat.sqrt (fun i => i) 2 2 (by decide)
    (by decide) (by decide) (seq_steps Rat.sqrt 2 2) hst two_points_state
    ({ best_centroids := fun _ => broadcast 3, best_accuracy := 0, best_restart := 0,
       best_iters := 2 } : Best ℚ) 1
  obtain ⟨t2, ht2, _, hacc, _⟩ := two_points_trial Rat.sqrt rat_sqrt_facts (fun i => i)
    (seq_steps Rat.sqrt 2 2) hst two_points_state two_points_state_twoPoints
  have h12 : t2 = t := Option.some.inj (ht2.symm.trans ht)
  subst h12
  exact ⟨t2, ht, himp (by rw [hacc]; exact lt_irrefl 0)⟩

/-! ## Argument validation in `main`: the claims -/

/-- The part of `main` after the argument checks ends in the loader, in an
operation without a defined outcome, or with `return 0`. -/
theorem main_run_cases (st : Nat → Steps F) (rand : Nat → Nat) (k R : Nat)
    (load : LoadOutcome F) (bc0 : Nat → Point F) :
    main_run st rand k R load bc0 = MainResult.load_exit ∨
    main_run st rand k R load bc0 = MainResult.undefined ∨
    ∃ n s b, main_run st rand k R load bc0 = MainResult.finished n R s b := by
  cases load with
  | exits => left; rfl
  | returns n s =>
    right
    cases h : run_restarts (st n) rand n k R s bc0 with
    | none => left; simp [main_run, h]
    | some sb => right; exact ⟨n, sb.1, sb.2, by simp [main_run, h]⟩

/-- C19. Cluster-count validation: when a cluster count is given
(`argc >= 3`), for every `k <= 0` and every `k > 10` both programs return the
cluster-count error whatever the loader would do, so before the loader is
called and before any restart; for every `k` in `1 .. 10` neither program
returns the cluster-count error. -/
theorem cluster_count_validation (sqrtf : F → F) (sched : Nat → List (List Nat))
    (rand : Nat → Nat) (argc : Nat) (hargc : 3 ≤ argc) (k argv3 : Int) (load : LoadOutcome F)
    (bc0 : Nat → Point F) :
    ((k ≤ 0 ∨ k > 10) →
      main_seq sqrtf rand argc k argv3 load bc0 = MainResult.bad_k ∧
      main_omp sqrtf sched rand argc k argv3 load bc0 = MainResult.bad_k) ∧
    ((1 ≤ k ∧ k ≤ 10) →
      main_seq sqrtf rand argc k argv3 load bc0 ≠ MainResult.bad_k ∧
      main_omp sqrtf sched rand argc k argv3 load bc0 ≠ MainResult.bad_k) := by
  have hargc2 : ¬ argc < 3 := by omega
  constructor
  · intro hk
    have hk2 : k ≤ 0 ∨ k > (MAX_K : Int) := hk
    simp only [main_seq, main_omp, hargc2, if_false, hk2, if_true, and_self]
  · intro hk
    have hk2 : ¬ (k ≤ 0 ∨ k > (MAX_K : Int)) := by
      have : (MAX_K : Int) = 10 := rfl
      rw [this]
      omega
    have hrun : ∀ (st : Nat → Steps F) (kk R : Nat),
        main_run st rand kk R load bc0 ≠ MainResult.bad_k := by
      intro st kk R h
      rcases main_run_cases st rand kk R load bc0 with h2 | h2 | ⟨n, s2, b, h2⟩ <;>
        rw [h2] at h <;> cases h
    simp only [main_seq, main_omp, hargc2, if_false, hk2]
    constructor
    · by_cases h1 : (if 4 ≤ argc then argv3 else (DEFAULT_RESTARTS : Int)) ≤ 0
      · rw [if_pos h1]
        intro h; cases h
      · rw [if_neg h1]
        exact hrun _ _ _
    · by_cases h1 : (if 4 ≤ argc then argv3 else (DEFAULT_RESTARTS : Int)) ≤ 0
      · rw [if_pos h1]
        exact hrun _ _ _
      · rw [if_neg h1]
        by_cases h2 : (if 4 ≤ argc then argv3 else (DEFAULT_RESTARTS : Int)) > (MAX_RESTARTS : Int)
        · rw [if_pos h2]
          intro h; cases h
        · rw [if_neg h2]
          exact hrun _ _ _

/-- Witness of C19: `k = 11` and `k = 0` are rejected by both programs, `k = 10` is not. -/
theorem cluster_count_validation_witness :
    (3 : Nat) ≤ 3 ∧
    main_seq Rat.sqrt (fun i => i) 3 11 0 (LoadOutcome.returns 2 two_points_state)
      (fun _ => broadcast 0) = MainResult.bad_k ∧
    main_omp Rat.sqrt (fun _ => [[0], [1]]) (fun i => i) 3 0 0
      (LoadOutcome.returns 2 two_points_state) (fun _ => broadcast 0) = MainResult.bad_k ∧
    main_seq Rat.sqrt (fun i => i) 3 10 0 (LoadOutcome.returns 2 two_points_state)
      (fun _ => broadcast 0) ≠ MainResult.bad_k :=
  ⟨le_refl 3,
    ((cluster_count_validation Rat.sqrt (fun _ => [[0], [1]]) (fun i => i) 3 (le_refl 3) 11 0
      (LoadOutcome.returns 2 two_points_state) (fun _ => broadcast 0)).1 (Or.inr (by decide))).1,
    ((cluster_count_validation Rat.sqrt (fun _ => [[0], [1]]) (fun i => i) 3 (le_refl 3) 0 0
      (LoadOutcome.returns 2 two_points_state) (fun _ => broadcast 0)).1 (Or.inl (by decide))).2,
    ((cluster_count_validation Rat.sqrt (fun _ => [[0], [1]]) (fun i => i) 3 (le_refl 3) 10 0
      (LoadOutcome.returns 2 two_points_state) (fun _ => broadcast 0)).2
      ⟨by decide, by decide⟩).1⟩

/-- Statement C20, amended. Restart-count validation, when a restart count
is given (`argc >= 4`) and the cluster count is valid: the sequential program
returns the restart-count error for every restart count `<= 0` and for no
restart count `>= 1`; the parallel program returns it for every restart count
above 1000; both whatever the loader would do, so before data are loaded. For
a restart count `<= 0` the parallel program does not return an error: it
runs exactly as it does for the restart count `DEFAULT_RESTARTS = 100`. -/
theorem restart_count_validation (sqrtf : F → F) (sched : Nat → List (List Nat))
    (rand : Nat → Nat) (argc : Nat) (hargc : 4 ≤ argc) (k : Int) (hk : 1 ≤ k ∧ k ≤ 10)
    (restarts : Int) (load : LoadOutcome F) (bc0 : Nat → Point F) :
    (restarts ≤ 0 → main_seq sqrtf rand argc k restarts load bc0 = MainResult.bad_restarts) ∧
    (1 ≤ restarts → main_seq sqrtf rand argc k restarts load bc0 ≠ MainResult.bad_restarts) ∧
    (restarts > 1000 →
      main_omp sqrtf sched rand argc k restarts load bc0 = MainResult.bad_restarts) ∧
    (restarts ≤ 0 →
      main_omp sqrtf sched rand argc k restarts load bc0 ≠ MainResult.bad_restarts ∧
      main_omp sqrtf sched rand argc k restarts load bc0 =
        main_omp sqrtf sched rand argc k (DEFAULT_RESTARTS : Int) load bc0) := by
  have hargc2 : ¬ argc < 3 := by omega
  have hk2 : ¬ (k ≤ 0 ∨ k > (MAX_K : Int)) := by
    have : (MAX_K : Int) = 10 := rfl
    rw [this]
    omega
  have hrun : ∀ (st : Nat → Steps F) (kk R : Nat),
      main_run st rand kk R load bc0 ≠ MainResult.bad_restarts := by
    intro st kk R h
    rcases main_run_cases st rand kk R load bc0 with h2 | h2 | ⟨n, s2, b, h2⟩ <;>
      rw [h2] at h <;> cases h
  have hmax : (MAX_RESTARTS : Int) = 1000 := rfl
  have hdef : (DEFAULT_RESTARTS : Int) = 100 := rfl
  refine ⟨?_, ?_, ?_, ?_⟩
  · intro h
    simp only [main_seq, hargc2, if_false, hk2, hargc, if_true, h]
  · intro h
    have h0 : ¬ restarts ≤ 0 := by omega
    simp only [main_seq, hargc2, if_false, hk2, hargc, if_true, h0]
    exact hrun _ _ _
  · intro h
    have h0 : ¬ restarts ≤ 0 := by omega
    have h1 : restarts > (MAX_RESTARTS : Int) := by rw [hmax]; exact h
    simp only [main_omp, hargc2, if_false, hk2, hargc, if_true, h0, h1]
  · intro h
    have h0 : ¬ (DEFAULT_RESTARTS : Int) ≤ 0 := by rw [hdef]; omega
    have h1 : ¬ (DEFAULT_RESTARTS : Int) > (MAX_RESTARTS : Int) := by rw [hdef, hmax]; omega
    simp only [main_omp, hargc2, if_false, hk2, hargc, if_true, h, h0, h1]
    exact ⟨hrun _ _ _, rfl⟩

/-- Witness of the amended C20: restart count `0` in the sequential program
and restart count `1001` in the parallel program are rejected. -/
theorem restart_count_validation_witness :
    (4 : Nat) ≤ 4 ∧ ((1 : Int) ≤ 2 ∧ (2 : Int) ≤ 10) ∧
    main_seq Rat.sqrt (fun i => i) 4 2 0 (LoadOutcome.returns 2 two_points_state)
      (fun _ => broadcast 0) = MainResult.bad_restarts ∧
    main_omp Rat.sqrt (fun _ => [[0], [1]]) (fun i => i) 4 2 1001
      (LoadOutcome.returns 2 two_points_state) (fun _ => broadcast 0) =
        MainResult.bad_restarts :=
  ⟨le_refl 4, ⟨by decide, by decide⟩,
    (restart_count_validation Rat.sqrt (fun _ => [[0], [1]]) (fun i => i) 4 (le_refl 4) 2
      ⟨by decide, by decide⟩ 0 (LoadOutcome.returns 2 two_points_state)
      (fun _ => broadcast 0)).1 (by decide),
    (restart_count_validation Rat.sqrt (fun _ => [[0], [1]]) (fun i => i) 4 (le_refl 4) 2
      ⟨by decide, by decide⟩ 1001 (LoadOutcome.returns 2 two_points_state)
      (fun _ => broadcast 0)).2.2.1 (by decide)⟩

/-- Either program, run on a non-empty dataset with `1 <= k <= MAX_K`,
completes every restart: the restart loop returns. -/
theorem run_restarts_program (sqrtf : F → F) (rand : Nat → Nat) (n k : Nat) (hn : 1 ≤ n)
    (hk1 : 1 ≤ k) (hk : k ≤ MAX_K) (st : Steps F) (hst : IsProgram sqrtf n k st) (s : State F)
    (bc0 : Nat → Point F) (R : Nat) :
    ∃ sb, run_restarts st rand n k R s bc0 = some sb := by
  obtain ⟨ts, hts⟩ := trials_total st rand n k
    (run_trial_program sqrtf rand n k hn hk1 hk st hst) s R
  obtain ⟨_, b, hrun, _⟩ := run_restarts_of_trials st rand n k s bc0 R ts hts
  exact ⟨_, hrun⟩

/-- The part of `main` after the argument checks, when the loader returns
and the restart loop completes. -/
theorem main_run_finished (st : Nat → Steps F) (rand : Nat → Nat) (k R n : Nat) (s : State F)
    (bc0 : Nat → Point F) (sb : State F × Best F)
    (h : run_restarts (st n) rand n k R s bc0 = some sb) :
    main_run st rand k R (LoadOutcome.returns n s) bc0 = MainResult.finished n R sb.1 sb.2 := by
  unfold main_run
  simp only
  rw [h]

/-- The part of `main` after the argument checks, when the loader returns
and the restart loop has no defined outcome. -/
theorem main_run_undefined (st : Nat → Steps F) (rand : Nat → Nat) (k R n : Nat) (s : State F)
    (bc0 : Nat → Point F) (h : run_restarts (st n) rand n k R s bc0 = none) :
    main_run st rand k R (LoadOutcome.returns n s) bc0 = MainResult.undefined := by
  unfold main_run
  simp only
  rw [h]

/-- Counterexample to C20 as stated: given the restart count `0`, the
parallel program does not stop with an error; it calls the loader, runs 100
restarts on the two points loaded and returns `0`. -/
theorem restart_count_zero_counterexample :
    ∃ s b, main_omp Rat.sqrt (fun _ => [[0], [1]]) (fun i => i) 4 2 0
      (LoadOutcome.returns 2 two_points_state) (fun _ => broadcast 0) =
        MainResult.finished 2 100 s b := by
  obtain ⟨sb, h⟩ := run_restarts_program Rat.sqrt (fun i => i) 2 2 (by decide) (by decide)
    (by decide) (omp_steps Rat.sqrt [[0], [1]] 2 2) (Or.inr ⟨_, isSchedule_two_chunks, rfl⟩)
    two_points_state (fun _ => broadcast 0) 100
  refine ⟨sb.1, sb.2, ?_⟩
  have e : main_omp Rat.sqrt (fun _ => [[0], [1]]) (fun i => i) 4 2 0
      (LoadOutcome.returns 2 two_points_state) (fun _ => broadcast 0) =
      main_run (fun n_points => omp_steps Rat.sqrt [[0], [1]] n_points 2) (fun i => i) 2
        DEFAULT_RESTARTS (LoadOutcome.returns 2 two_points_state) (fun _ => broadcast 0) := by
    unfold main_omp
    rw [if_neg (by decide), if_neg (by decide), if_neg (by decide), if_pos (by decide)]
    rfl
  rw [e]
  exact main_run_finished _ _ 2 100 2 _ _ sb h

/-! ## An empty dataset -/

/-- With no points and at least one cluster, the centroid initialiser has no
defined outcome: its first draw takes the remainder by `n_points = 0`. -/
theorem init_centroids_zero_points (rand : Nat → Nat) (k : Nat) (hk : 1 ≤ k) (s : State F) :
    init_centroids rand k 0 s = none := by
  obtain ⟨k2, rfl⟩ : ∃ k2, k = k2 + 1 := ⟨k - 1, by omega⟩
  unfold init_centroids
  rw [List.range_succ_eq_map, List.foldlM_cons]
  simp [init_centroid]

/-- With no points, at least one cluster and at least one restart, the restart
loop has no defined outcome: the first restart reaches the draw. -/
theorem run_restarts_zero_points (st : Steps F) (rand : Nat → Nat) (k R : Nat) (hk : 1 ≤ k)
    (hR : 1 ≤ R) (s : State F) (bc0 : Nat → Point F) :
    run_restarts st rand 0 k R s bc0 = none := by
  obtain ⟨R2, rfl⟩ : ∃ R2, R = R2 + 1 := ⟨R - 1, by omega⟩
  unfold run_restarts
  rw [List.range_succ_eq_map, List.foldlM_cons]
  simp [restart_body, run_trial, init_centroids_zero_points rand k hk]

/-- C12, the code at the failing input. After the loader has returned
`N = 0` points, with `k = 1` and the default restart count, neither program
refuses to run: the first restart calls `init_centroids`, whose draw
`rand() % N` has no defined outcome, and so has the run of `main`. -/
theorem zero_points_reach_draw :
    init_centroids (fun i => i) 1 0 (reset_labels 0 (zero_state : State ℚ)) = none ∧
    main_seq Rat.sqrt (fun i => i) 3 1 0 (LoadOutcome.returns 0 zero_state)
      (fun _ => broadcast 0) = MainResult.undefined ∧
    main_omp Rat.sqrt (fun _ => []) (fun i => i) 3 1 0 (LoadOutcome.returns 0 zero_state)
      (fun _ => broadcast 0) = MainResult.undefined := by
  refine ⟨init_centroids_zero_points _ 1 (le_refl 1) _, ?_, ?_⟩
  · have h := run_restarts_zero_points (seq_steps Rat.sqrt 0 1) (fun i => i) 1 100 (le_refl 1)
      (by decide) (zero_state : State ℚ) (fun _ => broadcast 0)
    have e : main_seq Rat.sqrt (fun i => i) 3 1 0 (LoadOutcome.returns 0 zero_state)
        (fun _ => broadcast 0) =
        main_run (fun n_points => seq_steps Rat.sqrt n_points 1) (fun i => i) 1 100
          (LoadOutcome.returns 0 zero_state) (fun _ => broadcast 0) := by
      unfold main_seq
      rw [if_neg (by decide), if_neg (by decide), if_neg (by decide)]
      rfl
    rw [e]
    exact main_run_undefined _ _ 1 100 0 _ _ h
  · have h := run_restarts_zero_points (omp_steps Rat.sqrt [] 0 1) (fun i => i) 1 100 (le_refl 1)
      (by decide) (zero_state : State ℚ) (fun _ => broadcast 0)
    have e : main_omp Rat.sqrt (fun _ => []) (fun i => i) 3 1 0 (LoadOutcome.returns 0 zero_state)
        (fun _ => broadcast 0) =
        main_run (fun n_points => omp_steps Rat.sqrt [] n_points 1) (fun i => i) 1 100
          (LoadOutcome.returns 0 zero_state) (fun _ => broadcast 0) := by
      unfold main_omp
      rw [if_neg (by decide), if_neg (by decide), if_neg (by decide), if_neg (by decide),
        if_neg (by decide)]
      rfl
    rw [e]
    exact main_run_undefined _ _ 1 100 0 _ _ h

/-! ## The two-point scenario: iteration counts -/

/-- The parts of a completed restart. -/
theorem run_trial_eq_some (st : Steps F) (rand : Nat → Nat) (n k : Nat) (s : State F)
    (t : Trial F) (h : run_trial st rand n k s = some t) :
    ∃ s1, init_centroids rand k n (reset_labels n s) = some s1 ∧
      refine_loop st MAX_ITER 0 s1 = some (t.state, t.iters_done) ∧
      st.accuracy t.state = some t.acc := by
  unfold run_trial at h
  cases h1 : init_centroids rand k n (reset_labels n s) with
  | none => rw [h1] at h; simp at h
  | some s1 =>
    rw [h1] at h
    simp only [Option.some_bind] at h
    cases h2 : refine_loop st MAX_ITER 0 s1 with
    | none => rw [h2] at h; simp at h
    | some r =>
      rw [h2] at h
      simp only [Option.some_bind] at h
      cases h3 : st.accuracy r.1 with
      | none => rw [h3] at h; simp at h
      | some acc =>
        rw [h3] at h
        simp only [Option.map_some', Option.some.injEq] at h
        subst h
        exact ⟨s1, rfl, h2, h3⟩

/-- A refinement loop that returns before its pass budget is used up was left
through `if (changes == 0) break`: its last pass had zero changes. -/
theorem refine_loop_converged (st : Steps F) (rem it : Nat) (s s2 : State F) (m : Nat)
    (h : refine_loop st rem it s = some (s2, m)) (hm : m < it + rem) :
    ∃ s0, iteration st s0 = some (s2, 0) := by
  induction rem generalizing it s with
  | zero =>
    rw [refine_loop] at h
    have := (Prod.mk.inj (Option.some.inj h)).2
    omega
  | succ rem ih =>
    cases hi : iteration st s with
    | none => rw [refine_loop, hi] at h; simp at h
    | some r =>
      obtain ⟨s3, ch⟩ := r
      rw [refine_loop_succ st rem it s s3 ch hi] at h
      by_cases hch : ch = 0
      · rw [if_pos hch] at h
        have h3 : s3 = s2 := (Prod.mk.inj (Option.some.inj h)).1
        exact ⟨s, by rw [hi, h3, hch]⟩
      · rw [if_neg hch] at h
        exact ih (it + 1) s3 h (by omega)

/-- A restart of either program makes exactly `k` calls of `rand()`. -/
theorem run_trial_rand_calls (sqrtf : F → F) (rand : Nat → Nat) (n k : Nat) (hn : 1 ≤ n)
    (hk1 : 1 ≤ k) (hk : k ≤ MAX_K) (st : Steps F) (hst : IsProgram sqrtf n k st) (s : State F)
    (t : Trial F) (h : run_trial st rand n k s = some t) :
    t.state.rand_calls = s.rand_calls + k := by
  obtain ⟨s1, h1, h2, _⟩ := run_trial_eq_some st rand n k s t h
  obtain ⟨s1b, g1, _, _, _, g5⟩ := restart_init rand n k (by omega) s
  have e1 : s1b = s1 := Option.some.inj (g1.symm.trans h1)
  subst e1
  obtain ⟨s2, m, h3, h4, _⟩ := refine_loop_post st (fun x => x.rand_calls = s.rand_calls + k)
    (fun _ => True)
    (fun x hx => by
      obtain ⟨x2, i1, _, _, _, i5, _⟩ := iteration_program sqrtf n k hk1 hk st hst x
      exact ⟨x2, _, i1, i5.trans hx, trivial⟩)
    MAX_ITER (by decide) 0 s1b g5
  have e2 : s2 = t.state := (Prod.mk.inj (Option.some.inj (h3.symm.trans h2))).1
  rw [← e2]
  exact h4

/-- A property of the restart with index `r`, established by every restart
from an invariant that depends on the index, holds along the restart loop. -/
theorem trials_invariant_indexed (st : Steps F) (rand : Nat → Nat) (n k : Nat)
    (I : Nat → State F → Prop) (P : Nat → Trial F → Prop)
    (hstep : ∀ r s, I r s → ∃ t, run_trial st rand n k s = some t ∧ I (r + 1) t.state ∧ P r t)
    (s : State F) (hs : I 0 s) (R : Nat) :
    ∃ ts, trials st rand n k s R = some ts ∧ ts.length = R ∧ I R (last_state s ts) ∧
      ∀ (r : Nat) (t : Trial F), ts[r]? = some t → P r t := by
  induction R with
  | zero =>
    refine ⟨[], rfl, rfl, hs, ?_⟩
    intro r t h
    simp at h
  | succ R ih =>
    obtain ⟨ts, hts, hlen, hI, hP⟩ := ih
    obtain ⟨t, ht, hIt, hPt⟩ := hstep R (last_state s ts) hI
    refine ⟨ts ++ [t], by rw [trials, hts]; simp [ht], by simp [hlen],
      by rw [last_state_concat]; exact hIt, ?_⟩
    intro r u hu
    rw [List.getElem?_append] at hu
    by_cases hr : r < ts.length
    · rw [if_pos hr] at hu
      exact hP r u hu
    · rw [if_neg hr] at hu
      have hr2 : r - ts.length = 0 := by
        by_contra hne
        have : ([t] : List (Trial F))[r - ts.length]? = none := by
          apply List.getElem?_eq_none
          simp
          omega
        rw [this] at hu
        cases hu
      rw [hr2] at hu
      have hut : t = u := by simpa using hu
      have hrR : r = R := by omega
      rw [← hut, hrR]
      exact hPt

/-- A loop of one restart runs one trial. -/
theorem trials_one (st : Steps F) (rand : Nat → Nat) (n k : Nat) (s : State F) (t : Trial F)
    (h : run_trial st rand n k s = some t) : trials st rand n k s 1 = some [t] := by
  rw [trials, trials]
  simp only [Option.some_bind, last_state, List.getLast?_nil, Option.map_none', Option.getD_none,
    h, Option.map_some', List.nil_append]

/-- Statement C11, amended. Two-point end-to-end convergence speed: for the
dataset of the two points `(0, ..., 0)` and `(10, ..., 10)`, `k = 2`, every
restart count and every stream of draws, every restart reaches a zero-change
assignment step; restart `r` records 2 iterations when its two draws pick
different points and 3 iterations when they pick the same point, so at most
3 in every case. -/
theorem two_points_iteration_count (sqrtf : F → F) (h0 : sqrtf 0 = 0) (h1 : 0 < sqrtf 200)
    (h2 : sqrtf 200 < sqrtf 800) (h3 : sqrtf 800 < FLT_MAX) (rand : Nat → Nat)
    (st : Steps F) (hst : IsProgram sqrtf 2 2 st) (s : State F) (hd : TwoPoints s) (R : Nat) :
    ∃ ts, trials st rand 2 2 s R = some ts ∧ ts.length = R ∧
      ∀ (r : Nat) (t : Trial F), ts[r]? = some t →
        t.iters_done =
          (if rand (s.rand_calls + 2 * r) % 2 = rand (s.rand_calls + 2 * r + 1) % 2
            then 3 else 2) ∧
        t.iters_done ≤ 3 ∧ ∃ s0, iteration st s0 = some (t.state, 0) := by
  have hsq : SqrtfFacts sqrtf := ⟨h0, h1, h2, h3⟩
  obtain ⟨ts, hts, hlen, _, hP⟩ := trials_invariant_indexed st rand 2 2
    (fun r x => TwoPoints x ∧ x.rand_calls = s.rand_calls + 2 * r)
    (fun r t => t.iters_done =
        (if rand (s.rand_calls + 2 * r) % 2 = rand (s.rand_calls + 2 * r + 1) % 2
          then 3 else 2) ∧
      t.iters_done ≤ 3 ∧ ∃ s0, iteration st s0 = some (t.state, 0))
    (fun r x hx => by
      obtain ⟨t, ht1, ht2, _, ht4⟩ := two_points_trial sqrtf hsq rand st hst x hx.1
      have hrc := run_trial_rand_calls sqrtf rand 2 2 (by decide) (by decide) (by decide) st hst
        x t ht1
      obtain ⟨s1, _, hloop, _⟩ := run_trial_eq_some st rand 2 2 x t ht1
      rw [hx.2] at ht4
      have hle : t.iters_done ≤ 3 := by
        rw [ht4]
        split <;> decide
      refine ⟨t, ht1, ⟨ht2.1, by rw [hrc, hx.2]; ring⟩, ht4, hle, ?_⟩
      exact refine_loop_converged st MAX_ITER 0 s1 t.state t.iters_done hloop
        (by have : MAX_ITER = 2000 := rfl
            omega))
    s ⟨hd, by ring⟩ R
  exact ⟨ts, hts, hlen, hP⟩

/-- Witness of the amended C11 over the real numbers with the real square
root: the parallel program, four restarts with the draws `0, 1, 2, ...`. -/
theorem two_points_iteration_count_witness :
    Real.sqrt 0 = 0 ∧ 0 < Real.sqrt 200 ∧ Real.sqrt 200 < Real.sqrt 800 ∧
    Real.sqrt 800 < FLT_MAX ∧
    IsProgram Real.sqrt 2 2 (omp_steps Real.sqrt [[0], [1]] 2 2) ∧
    TwoPoints (two_points_state : State ℝ) ∧
    ∃ ts, trials (omp_steps Real.sqrt [[0], [1]] 2 2) (fun i => i) 2 2
        (two_points_state : State ℝ) 4 = some ts ∧ ts.length = 4 ∧
      ∀ (r : Nat) (t : Trial ℝ), ts[r]? = some t → t.iters_done ≤ 3 := by
  have h1 : (0 : ℝ) < Real.sqrt 200 := Real.sqrt_pos.mpr (by norm_num)
  have h2 : Real.sqrt 200 < Real.sqrt 800 := Real.sqrt_lt_sqrt (by norm_num) (by norm_num)
  have h3 : Real.sqrt 800 < FLT_MAX := by
    rw [Real.sqrt_lt' flt_max_pos]
    unfold FLT_MAX
    norm_num
  have hst : IsProgram Real.sqrt 2 2 (omp_steps Real.sqrt [[0], [1]] 2 2) :=
    Or.inr ⟨_, isSchedule_two_chunks, rfl⟩
  refine ⟨Real.sqrt_zero, h1, h2, h3, hst, two_points_state_twoPoints, ?_⟩
  obtain ⟨ts, g1, g2, g3⟩ := two_points_iteration_count Real.sqrt Real.sqrt_zero h1 h2 h3
    (fun i => i) (omp_steps Real.sqrt [[0], [1]] 2 2) hst two_points_state
    two_points_state_twoPoints 4
  exact ⟨ts, g1, g2, fun r t h => (g3 r t h).2.1⟩

/-- Counterexample to C11 as stated: on the two-point dataset with both draws
picking point `0`, the single restart of the parallel program records 3
iterations, not at most 2. -/
theorem two_points_three_iterations_counterexample :
    ∃ t, trials (omp_steps Rat.sqrt [[0], [1]] 2 2) (fun _ => 0) 2 2
        (two_points_state : State ℚ) 1 = some [t] ∧
      t.iters_done = 3 ∧ ¬ t.iters_done ≤ 2 := by
  obtain ⟨t, ht, _, _, hit⟩ := two_points_trial Rat.sqrt rat_sqrt_facts (fun _ => 0)
    (omp_steps Rat.sqrt [[0], [1]] 2 2) (Or.inr ⟨_, isSchedule_two_chunks, rfl⟩)
    (two_points_state : State ℚ) two_points_state_twoPoints
  have h3 : t.iters_done = 3 := hit.trans (if_pos rfl)
  exact ⟨t, trials_one _ _ 2 2 _ t ht, h3, by rw [h3]; decide⟩

/-! ## Schedule independence of the assignment step -/

/-- C21. Assignment step is order- and partition-independent: for every
dataset, `k`, centroid set and initial labels (the state `s`), and every
partition of the point range `0..N-1` into worker chunks processed in any order
(`IsSchedule chunks n`) with the per-chunk change counts summed,
`assign_points_omp` yields the label array and the total change count of
`assign_points_seq` on the same input, and leaves the rest of the state as
`assign_points_seq` does. -/
theorem assign_points_partition_independent (sqrtf : F → F) (n k : Nat)
    (chunks : List (List Nat)) (hs : IsSchedule chunks n) (s : State F) :
    (assign_points_omp sqrtf chunks k s).1.labels = (assign_points_seq sqrtf n k s).1.labels ∧
    (assign_points_omp sqrtf chunks k s).2 = (assign_points_seq sqrtf n k s).2 ∧
    (assign_points_omp sqrtf chunks k s).1 = (assign_points_seq sqrtf n k s).1 := by
  rw [assign_points_omp_eq sqrtf n k chunks hs s]
  exact ⟨rfl, rfl, rfl⟩

theorem isSchedule_reversed_chunks : IsSchedule [[1], [0]] 2 := by
  unfold IsSchedule
  decide

/-- Witness of C21 on the input of `test_assign_points_seq`, with the two
points handed to two workers and the second worker running first. -/
theorem assign_points_partition_independent_witness :
    IsSchedule [[1], [0]] 2 ∧
    (assign_points_omp Rat.sqrt [[1], [0]] 2 assign_test_state).1.labels =
      (assign_points_seq Rat.sqrt 2 2 assign_test_state).1.labels ∧
    (assign_points_omp Rat.sqrt [[1], [0]] 2 assign_test_state).2 =
      (assign_points_seq Rat.sqrt 2 2 assign_test_state).2 :=
  ⟨isSchedule_reversed_chunks,
    (assign_points_partition_independent Rat.sqrt 2 2 [[1], [0]] isSchedule_reversed_chunks
      assign_test_state).1,
    (assign_points_partition_independent Rat.sqrt 2 2 [[1], [0]] isSchedule_reversed_chunks
      assign_test_state).2.1⟩

/-! ## The loader -/

/-- A file that opens and holds no line (`test_load_csv_empty`): `load_csv` returns `0`. -/
theorem load_csv_empty {L : Type} (strtof_row : L → Point F) (max_points : Nat) (s : State F) :
    load_csv strtof_row (some []) max_points s = LoadCall.returned 0 s := by
  simp [load_csv]

theorem load_row_fold {L : Type} (strtof_row : L → Point F) (lines : List L) (s : State F)
    (idx : Nat) :
    ((lines.foldl (load_row strtof_row) (s, idx)).2 = idx + lines.length) := by
  induction lines generalizing s idx with
  | nil => simp
  | cons l ls ih =>
    rw [List.foldl_cons, show load_row strtof_row (s, idx) l =
      ({ s with data := Function.update s.data idx (strtof_row l) }, idx + 1) from rfl, ih,
      List.length_cons]
    omega

/-- A file that opens: `load_csv` returns the number of rows read, which is the
number of lines, capped by `max_points`; the value is never negative. -/
theorem load_csv_opened {L : Type} (strtof_row : L → Point F) (lines : List L) (max_points : Nat)
    (s : State F) :
    ∃ s2, load_csv strtof_row (some lines) max_points s =
      LoadCall.returned ((min max_points lines.length : Nat) : Int) s2 := by
  refine ⟨((lines.take max_points).foldl (load_row strtof_row) (s, 0)).1, ?_⟩
  simp only [load_csv]
  rw [load_row_fold, zero_add, List.length_take]

/-- C22, the code at a file that cannot be opened (as
`non_existent_file_12345.csv` in `test_load_csv_file_not_found`): `load_csv`
ends the process with `exit(1)`; it does not return, so the caller receives
neither `-1` nor any other value. -/
theorem load_csv_unreadable_exits {L : Type} (strtof_row : L → Point F) (max_points : Nat)
    (s : State F) :
    load_csv strtof_row none max_points s = LoadCall.exited 1 ∧
    ∀ (v : Int) (s2 : State F), load_csv strtof_row none max_points s ≠ LoadCall.returned v s2 := by
  refine ⟨rfl, ?_⟩
  intro v s2 h
  simp [load_csv] at h

/-! ## Restarts: the first pass, label ranges, and the converged state -/

/-- In either program the assignment step is `assign_points_seq`. -/
theorem assign_program (sqrtf : F → F) (n k : Nat) (st : Steps F)
    (hst : IsProgram sqrtf n k st) (s : State F) :
    st.assign s = assign_points_seq sqrtf n k s := by
  rcases hst with hst | ⟨chunks, hs, hst⟩
  · subst hst; rfl
  · subst hst; exact assign_points_omp_eq sqrtf n k chunks hs s

/-- With every label of the point range at `-1`, every point is stale. -/
theorem stale_reset (sqrtf : F → F) (k : Nat) (s : State F) (n : Nat)
    (h : ∀ i, i < n → s.labels i = -1) :
    stale sqrtf k s (List.range n) = (n : Int) := by
  unfold stale
  rw [List.filter_eq_self.mpr, List.length_range]
  intro i hi
  rw [h i (List.mem_range.mp hi)]
  simp only [nearest_label, ne_eq, decide_eq_true_eq]
  omega

/-- The last pass of a refinement loop that returns: it ran from the state `s0`
that the passes before it had reached, and gave the final state; it had zero
changes or used up the pass budget; and `s0` is the entry state (one pass in
all) or the output of the pass before. -/
theorem refine_loop_last_pass (st : Steps F) (rem : Nat) :
    ∀ (it : Nat) (s s2 : State F) (m : Nat), refine_loop st (rem + 1) it s = some (s2, m) →
    ∃ s0 ch, iteration st s0 = some (s2, ch) ∧
      (∃ chs, passes st (m - (it + 1)) s = some (s0, chs)) ∧ (ch = 0 ∨ m = it + (rem + 1)) ∧
      ((s0 = s ∧ m = it + 1) ∨ (∃ sx chx, iteration st sx = some (s0, chx)) ∧ it + 2 ≤ m) := by
  induction rem with
  | zero =>
    intro it s s2 m h
    cases hi : iteration st s with
    | none => simp [refine_loop, hi] at h
    | some r =>
      obtain ⟨s3, c⟩ := r
      rw [refine_loop_succ st 0 it s s3 c hi] at h
      have h2 : some (s3, it + 1) = some (s2, m) := by
        by_cases hc : c = 0
        · rw [if_pos hc] at h; exact h
        · rw [if_neg hc] at h; exact h
      simp only [Option.some.injEq, Prod.mk.injEq] at h2
      obtain ⟨h3, h4⟩ := h2
      subst h3
      refine ⟨s, c, hi, ⟨[], ?_⟩, Or.inr (by omega), Or.inl ⟨rfl, h4.symm⟩⟩
      rw [← h4, Nat.sub_self]
      rfl
  | succ rem ih =>
    intro it s s2 m h
    cases hi : iteration st s with
    | none => simp [refine_loop, hi] at h
    | some r =>
      obtain ⟨s3, c⟩ := r
      rw [refine_loop_succ st (rem + 1) it s s3 c hi] at h
      by_cases hc : c = 0
      · rw [if_pos hc] at h
        simp only [Option.some.injEq, Prod.mk.injEq] at h
        obtain ⟨h3, h4⟩ := h
        subst h3
        refine ⟨s, c, hi, ⟨[], ?_⟩, Or.inl hc, Or.inl ⟨rfl, h4.symm⟩⟩
        rw [← h4, Nat.sub_self]
        rfl
      · rw [if_neg hc] at h
        obtain ⟨s0, ch, h1, ⟨chs, hp⟩, h2, h3⟩ := ih (it + 1) s3 s2 m h
        have hm : m - (it + 1) = (m - (it + 1 + 1)) + 1 := by
          rcases h3 with ⟨_, h4⟩ | ⟨_, h4⟩ <;> omega
        refine ⟨s0, ch, h1, ⟨c :: chs, ?_⟩, ?_, Or.inr ?_⟩
        · rw [hm]
          simp only [passes, hi, Option.some_bind, hp, Option.map_some']
        · rcases h2 with h2 | h2
          · exact Or.inl h2
          · exact Or.inr (by omega)
        · rcases h3 with ⟨h3, h4⟩ | ⟨h3, h4⟩
          · exact ⟨⟨s, c, h3 ▸ hi⟩, by omega⟩
          · exact ⟨h3, by omega⟩

/-- The first pass of a restart: after the reset and the draw of the initial
centroids, one pass of the loop body returns `n` changes. -/
theorem first_pass_changes (sqrtf : F → F) (n k : Nat) (hk1 : 1 ≤ k) (hk : k ≤ MAX_K)
    (st : Steps F) (hst : IsProgram sqrtf n k st) (s1 : State F)
    (hl : ∀ i, i < n → s1.labels i = -1) :
    ∃ s2, iteration st s1 = some (s2, (n : Int)) := by
  obtain ⟨s2, h, _⟩ := iteration_program_spec sqrtf n k hk1 hk st hst s1
  rw [stale_reset sqrtf k s1 n hl] at h
  exact ⟨s2, h⟩

/-- C25. First assignment of a restart relabels everything: for every `N`,
every `k >= 1` and every centroid set, on a state whose labels `0..N-1` are all
`-1` (as the reset before each restart leaves them) the assignment step of
either program returns exactly `N` changes. Hence, for `1 <= k <= MAX_K` and
`N >= 1`, in every restart the first pass does not return zero changes, the
restart completes, and the iteration count it records is at least 2. -/
theorem first_assignment_relabels_everything (sqrtf : F → F) (rand : Nat → Nat) (n k : Nat)
    (hk1 : 1 ≤ k) (st : Steps F) (hst : IsProgram sqrtf n k st) (s : State F) :
    (∀ s1 : State F, (∀ i, i < n → s1.labels i = -1) → (st.assign s1).2 = (n : Int)) ∧
    (k ≤ MAX_K → 1 ≤ n →
      ∃ s1 t, init_centroids rand k n (reset_labels n s) = some s1 ∧
        (st.assign s1).2 = (n : Int) ∧ (∀ s2, iteration st s1 ≠ some (s2, 0)) ∧
        run_trial st rand n k s = some t ∧ 2 ≤ t.iters_done) := by
  have part1 : ∀ s1 : State F, (∀ i, i < n → s1.labels i = -1) →
      (st.assign s1).2 = (n : Int) := by
    intro s1 h
    rw [assign_program sqrtf n k st hst, assign_points_seq_eq]
    exact stale_reset sqrtf k s1 n h
  refine ⟨part1, ?_⟩
  intro hk hn
  obtain ⟨s1, hinit, _, hlab, _, _⟩ := restart_init rand n k (by omega) s
  have hl : ∀ i, i < n → s1.labels i = -1 := by
    intro i hi
    rw [hlab i, if_pos hi]
  obtain ⟨t, ht⟩ := run_trial_program sqrtf rand n k hn hk1 hk st hst s
  obtain ⟨s1b, h1, h2, _⟩ := run_trial_eq_some st rand n k s t ht
  rw [hinit] at h1
  simp only [Option.some.injEq] at h1
  subst h1
  obtain ⟨sf, hfirst⟩ := first_pass_changes sqrtf n k hk1 hk st hst s1 hl
  have hn0 : (n : Int) ≠ 0 := by omega
  refine ⟨s1, t, hinit, part1 s1 hl, ?_, ht, ?_⟩
  · intro s2 h
    rw [hfirst] at h
    simp only [Option.some.injEq, Prod.mk.injEq] at h
    exact hn0 h.2
  · obtain ⟨s0, ch, h3, _, h4, h5⟩ := refine_loop_last_pass st 1999 0 s1 t.state t.iters_done h2
    rcases h5 with ⟨h5, h6⟩ | ⟨_, h6⟩
    · subst h5
      rw [hfirst] at h3
      simp only [Option.some.injEq, Prod.mk.injEq] at h3
      rcases h4 with h4 | h4
      · exact absurd (h3.2.trans h4) hn0
      · omega
    · omega

/-- Witness of C25 on the two-point dataset, sequential program, every draw `0`. -/
theorem first_assignment_relabels_everything_witness :
    1 ≤ 2 ∧ IsProgram Rat.sqrt 2 2 (seq_steps Rat.sqrt 2 2) ∧
    ∃ t, run_trial (seq_steps Rat.sqrt 2 2) (fun _ => 0) 2 2 (two_points_state : State ℚ) =
      some t ∧ 2 ≤ t.iters_done := by
  refine ⟨by decide, Or.inl rfl, ?_⟩
  obtain ⟨_, t, _, _, _, h1, h2⟩ :=
    (first_assignment_relabels_everything Rat.sqrt (fun _ => 0) 2 2 (by decide)
      (seq_steps Rat.sqrt 2 2) (Or.inl rfl) two_points_state).2 (by decide) (by decide)
  exact ⟨t, h1, h2⟩

/-- The bounds check of the model is live: on labels `-1` (the input of
`test_assign_points_seq` before any assignment step) the update step and the
accuracy evaluator index outside the per-cluster arrays. -/
theorem update_on_reset_labels_undefined :
    update_centroids_seq 2 2 assign_test_state = none ∧
    compute_accuracy_seq Rat.sqrt 2 assign_test_state = none := by
  constructor
  · simp [update_centroids_seq, accumulate_point, assign_test_state, List.range_succ,
      reset_accumulators]
  · simp [compute_accuracy_seq, accuracy_point, assign_test_state, List.range_succ]

/-- C23. Labels stay in range so the update step indexes in bounds: for every
`N`, every `k` with `1 <= k <= 10` and every state (centroid set and labels,
those reset to `-1` included), after the assignment step of either program
every label `i < N` lies in `[0, k)`, so the update step that follows indexes
the per-cluster arrays in bounds (it returns); and the refinement loop returns
with every label `i < N` in `[0, k)`, so the accuracy evaluator indexes in
bounds too (it returns). An index out of bounds makes the model return `none`. -/
theorem labels_stay_in_range (sqrtf : F → F) (n k : Nat) (hk1 : 1 ≤ k) (hk : k ≤ MAX_K)
    (st : Steps F) (hst : IsProgram sqrtf n k st) (s : State F) :
    (∀ i, i < n → 0 ≤ (st.assign s).1.labels i ∧ (st.assign s).1.labels i < (k : Int)) ∧
    LabelsInBounds n (st.assign s).1 ∧
    (∃ s2, st.update (st.assign s).1 = some s2) ∧
    (∃ s2 m acc, refine_loop st MAX_ITER 0 s = some (s2, m) ∧
      (∀ i, i < n → 0 ≤ s2.labels i ∧ s2.labels i < (k : Int)) ∧ LabelsInBounds n s2 ∧
      st.accuracy s2 = some acc) := by
  have hlab : ∀ s0 : State F, ∀ i, i < n →
      0 ≤ (assign_points_seq sqrtf n k s0).1.labels i ∧
        (assign_points_seq sqrtf n k s0).1.labels i < (k : Int) := by
    intro s0 i hi
    have h := assign_points_seq_labels sqrtf n k s0 i hi
    rw [max_eq_left hk1] at h
    exact h
  have htot : ∀ s0, ∃ r, iteration st s0 = some r := fun s0 => by
    obtain ⟨s2, h1, _⟩ := iteration_program sqrtf n k hk1 hk st hst s0
    exact ⟨_, h1⟩
  refine ⟨?_, ?_, ?_, ?_⟩
  · rw [assign_program sqrtf n k st hst]
    exact hlab s
  · rw [assign_program sqrtf n k st hst]
    exact assign_points_seq_inBounds sqrtf n k hk s
  · obtain ⟨r, h⟩ := htot s
    unfold iteration at h
    cases hu : st.update (st.assign s).1 with
    | none => rw [hu] at h; simp at h
    | some s2 => exact ⟨s2, rfl⟩
  · obtain ⟨s2, m, _, h1, _⟩ := refine_loop_passes st htot MAX_ITER (by decide) 0 s
    rw [zero_add] at h1
    obtain ⟨s0, ch, h3, _, _, _⟩ := refine_loop_last_pass st 1999 0 s s2 m h1
    obtain ⟨s3, h4, _, _, h5, _, h6⟩ := iteration_program sqrtf n k hk1 hk st hst s0
    rw [h4] at h3
    simp only [Option.some.injEq, Prod.mk.injEq] at h3
    obtain ⟨h7, _⟩ := h3
    subst h7
    refine ⟨s3, m, _, h1, ?_, h6, accuracy_program sqrtf n k st hst s3 h6⟩
    intro i hi
    rw [h5]
    exact hlab s0 i hi

/-- Witness of C23 on the input of `test_assign_points_seq` (labels `-1`). -/
theorem labels_stay_in_range_witness :
    1 ≤ 2 ∧ 2 ≤ MAX_K ∧ IsProgram Rat.sqrt 2 2 (seq_steps Rat.sqrt 2 2) ∧
    (∀ i, i < 2 → 0 ≤ (assign_points_seq Rat.sqrt 2 2 assign_test_state).1.labels i ∧
      (assign_points_seq Rat.sqrt 2 2 assign_test_state).1.labels i < 2) ∧
    ∃ s2, update_centroids_seq 2 2 (assign_points_seq Rat.sqrt 2 2 assign_test_state).1 =
      some s2 :=
  ⟨by decide, by decide, Or.inl rfl,
    (labels_stay_in_range Rat.sqrt 2 2 (by decide) (by decide) (seq_steps Rat.sqrt 2 2)
      (Or.inl rfl) assign_test_state).1,
    (labels_stay_in_range Rat.sqrt 2 2 (by decide) (by decide) (seq_steps Rat.sqrt 2 2)
      (Or.inl rfl) assign_test_state).2.2.1⟩

/-- The parts of a pass of the loop body that returns. -/
theorem iteration_eq_some (st : Steps F) (s s2 : State F) (ch : Int)
    (h : iteration st s = some (s2, ch)) :
    st.update (st.assign s).1 = some s2 ∧ (st.assign s).2 = ch := by
  unfold iteration at h
  cases hu : st.update (st.assign s).1 with
  | none => rw [hu] at h; simp at h
  | some s3 =>
    rw [hu] at h
    simp only [Option.map_some', Option.some.injEq, Prod.mk.injEq] at h
    exact ⟨by rw [h.1], h.2⟩

/-- No stale point: every label of the list is the one the assignment step computes. -/
theorem stale_eq_zero (sqrtf : F → F) (k : Nat) (s : State F) (is : List Nat)
    (h : stale sqrtf k s is = 0) (i : Nat) (hi : i ∈ is) :
    s.labels i = nearest_label sqrtf k s i := by
  unfold stale at h
  rw [Nat.cast_eq_zero, List.length_eq_zero, List.filter_eq_nil_iff] at h
  have h2 := h i hi
  simpa using h2

/-- The label the assignment step computes is the lowest-index nearest
centroid when the point has a centroid at a distance below `FLT_MAX`, and also
when no centroid is nearer than centroid `0`. -/
theorem nearest_label_spec_or (sqrtf : F → F) (k : Nat) (hk1 : 1 ≤ k) (s : State F) (i : Nat)
    (hd : (∃ c, c < k ∧ distance_pt sqrtf (s.data i) (s.centroids c) < FLT_MAX) ∨
      (∀ c, c < k → distance_pt sqrtf (s.data i) (s.centroids 0) ≤
        distance_pt sqrtf (s.data i) (s.centroids c))) :
    ∃ b : Nat, nearest_label sqrtf k s i = (b : Int) ∧ b < k ∧
      (∀ c, c < k → distance_pt sqrtf (s.data i) (s.centroids b) ≤
        distance_pt sqrtf (s.data i) (s.centroids c)) ∧
      (∀ c, c < b → distance_pt sqrtf (s.data i) (s.centroids b) <
        distance_pt sqrtf (s.data i) (s.centroids c)) := by
  by_cases hlt : ∃ c, c < k ∧ distance_pt sqrtf (s.data i) (s.centroids c) < FLT_MAX
  · exact nearest_label_spec sqrtf k s i hlt
  · have hmin := hd.resolve_left hlt
    have h := nearest_fold_inv sqrtf s.centroids (s.data i) k
    simp only at h
    refine ⟨(nearest sqrtf s.centroids k (s.data i)).2, rfl, ?_⟩
    unfold nearest
    rcases h with ⟨_, h2, _⟩ | ⟨h1, h2, h3, _, _⟩
    · rw [h2]
      exact ⟨by omega, hmin, fun c hc => absurd hc (Nat.not_lt_zero c)⟩
    · exact absurd ⟨_, h1, h2 ▸ h3⟩ hlt

/-- A pass with zero changes that follows another pass is a fixed point: it
leaves the labels and the centroids as they were. -/
theorem zero_change_pass_fixed (sqrtf : F → F) (n k : Nat) (hk1 : 1 ≤ k) (hk : k ≤ MAX_K)
    (st : Steps F) (hst : IsProgram sqrtf n k st) (sx s0 s2 : State F) (chx : Int)
    (hx : iteration st sx = some (s0, chx)) (h0 : iteration st s0 = some (s2, 0)) :
    s2.data = s0.data ∧ s2.labels = s0.labels ∧ s2.centroids = s0.centroids ∧
      ∀ i, i < n → s2.labels i = nearest_label sqrtf k s2 i := by
  obtain ⟨sa, ha, _, _, _, hcx⟩ := iteration_program_spec sqrtf n k hk1 hk st hst sx
  rw [hx] at ha
  simp only [Option.some.injEq, Prod.mk.injEq] at ha
  obtain ⟨ha, _⟩ := ha
  subst ha
  obtain ⟨sb, hb, hdata, _, hlab, hcent⟩ := iteration_program_spec sqrtf n k hk1 hk st hst s0
  rw [h0] at hb
  simp only [Option.some.injEq, Prod.mk.injEq] at hb
  obtain ⟨hb, hst0⟩ := hb
  subst hb
  have hfix : ∀ i, i < n → s0.labels i = nearest_label sqrtf k s0 i := fun i hi =>
    stale_eq_zero sqrtf k s0 (List.range n) hst0.symm i (List.mem_range.mpr hi)
  have hlabels : s2.labels = s0.labels := by
    funext i
    rw [hlab i]
    by_cases hi : i < n
    · rw [if_pos hi, hfix i hi]
    · rw [if_neg hi]
  have hcents : s2.centroids = s0.centroids := by
    funext c
    rw [hcent c, hlabels, hdata]
    by_cases hc : c < k ∧ cluster_count s0.labels (List.range n) c ≠ 0
    · rw [if_pos hc, hcx c, if_pos hc]
    · rw [if_neg hc]
  refine ⟨hdata, hlabels, hcents, ?_⟩
  intro i hi
  rw [hlabels, hfix i hi]
  simp only [nearest_label, hcents, hdata]

/-- The last pass of a restart, in exact arithmetic and with the schedule of
the parallel steps fixed over the run: for `N >= 1` and `1 <= k <= MAX_K` the
restart completes; its last pass runs from the state `s0` reached by the
`iters_done - 1` passes before it and returns `ch` changes, with `ch = 0` or
`iters_done = MAX_ITER`. If `ch = 0`, the update step of that pass leaves the
centroids as they were and every label `i < N` is the one the assignment step
computes from the final centroid set. -/
theorem last_pass_program (sqrtf : F → F) (rand : Nat → Nat) (n k : Nat) (hn : 1 ≤ n)
    (hk1 : 1 ≤ k) (hk : k ≤ MAX_K) (st : Steps F) (hst : IsProgram sqrtf n k st) (s : State F) :
    ∃ t s1 s0 ch chs,
      run_trial st rand n k s = some t ∧
      init_centroids rand k n (reset_labels n s) = some s1 ∧
      passes st (t.iters_done - 1) s1 = some (s0, chs) ∧
      (st.assign s0).2 = ch ∧ st.update (st.assign s0).1 = some t.state ∧
      (ch = 0 ∨ t.iters_done = MAX_ITER) ∧
      (ch = 0 →
        t.state.centroids = (st.assign s0).1.centroids ∧
        (∀ i, i < n → t.state.labels i = nearest_label sqrtf k t.state i) ∧
        ((∀ i, i < n →
            (∃ c, c < k ∧
              distance_pt sqrtf (t.state.data i) (t.state.centroids c) < FLT_MAX) ∨
            (∀ c, c < k → distance_pt sqrtf (t.state.data i) (t.state.centroids 0) ≤
              distance_pt sqrtf (t.state.data i) (t.state.centroids c))) →
          ∀ i, i < n → ∃ b : Nat, t.state.labels i = (b : Int) ∧ b < k ∧
            (∀ c, c < k → distance_pt sqrtf (t.state.data i) (t.state.centroids b) ≤
              distance_pt sqrtf (t.state.data i) (t.state.centroids c)) ∧
            (∀ c, c < b → distance_pt sqrtf (t.state.data i) (t.state.centroids b) <
              distance_pt sqrtf (t.state.data i) (t.state.centroids c)))) := by
  obtain ⟨s1, hinit, _, hlab, _, _⟩ := restart_init rand n k (by omega) s
  have hl : ∀ i, i < n → s1.labels i = -1 := by
    intro i hi
    rw [hlab i, if_pos hi]
  obtain ⟨t, ht⟩ := run_trial_program sqrtf rand n k hn hk1 hk st hst s
  obtain ⟨s1b, h1, h2, _⟩ := run_trial_eq_some st rand n k s t ht
  rw [hinit] at h1
  simp only [Option.some.injEq] at h1
  subst h1
  obtain ⟨sf, hfirst⟩ := first_pass_changes sqrtf n k hk1 hk st hst s1 hl
  have hn0 : (n : Int) ≠ 0 := by omega
  obtain ⟨s0, ch, h3, ⟨chs, hp⟩, h4, h5⟩ :=
    refine_loop_last_pass st 1999 0 s1 t.state t.iters_done h2
  obtain ⟨hu, hch⟩ := iteration_eq_some st s0 t.state ch h3
  refine ⟨t, s1, s0, ch, chs, ht, hinit, hp, hch, hu, ?_, ?_⟩
  · rcases h4 with h4 | h4
    · exact Or.inl h4
    · exact Or.inr h4
  · intro hz
    subst hz
    have hprev : ∃ sx chx, iteration st sx = some (s0, chx) := by
      rcases h5 with ⟨h5, _⟩ | ⟨h5, _⟩
      · subst h5
        rw [hfirst] at h3
        simp only [Option.some.injEq, Prod.mk.injEq] at h3
        exact absurd h3.2 hn0
      · exact h5
    obtain ⟨sx, chx, hx⟩ := hprev
    obtain ⟨_, _, hc, hfix⟩ := zero_change_pass_fixed sqrtf n k hk1 hk st hst sx s0 t.state chx hx h3
    refine ⟨?_, hfix, ?_⟩
    · rw [hc, assign_program sqrtf n k st hst, assign_points_seq_eq]
      rfl
    · intro hd i hi
      rw [hfix i hi]
      exact nearest_label_spec_or sqrtf k hk1 t.state i (hd i hi)

/-- The values of `sqrtf` are below `FLT_MAX` or are one common value `top`
(which stands for `+inf`): then every point has a centroid at a distance below
`FLT_MAX`, or all its distances are equal. -/
theorem nearest_condition_of_sqrtf (sqrtf : F → F) (top : F)
    (hsq : ∀ x, sqrtf x < FLT_MAX ∨ sqrtf x = top) (k : Nat) (hk1 : 1 ≤ k) (s : State F)
    (i : Nat) :
    (∃ c, c < k ∧ distance_pt sqrtf (s.data i) (s.centroids c) < FLT_MAX) ∨
      (∀ c, c < k → distance_pt sqrtf (s.data i) (s.centroids 0) ≤
        distance_pt sqrtf (s.data i) (s.centroids c)) := by
  by_cases h : ∃ c, c < k ∧ distance_pt sqrtf (s.data i) (s.centroids c) < FLT_MAX
  · exact Or.inl h
  · right
    have htop : ∀ c, c < k → distance_pt sqrtf (s.data i) (s.centroids c) = top := by
      intro c hc
      have h2 : ¬ distance_pt sqrtf (s.data i) (s.centroids c) < FLT_MAX :=
        fun h3 => h ⟨c, hc, h3⟩
      unfold distance_pt at h2 ⊢
      exact (hsq _).resolve_left h2
    intro c hc
    rw [htop c hc, htop 0 (by omega)]

/-- C24. Converged state is a fixed point: in the sequential program, for
`N >= 1`, `1 <= k <= MAX_K`, every dataset and every draw of the initial
centroids, the restart completes; its last pass runs from the state `s0`
reached by the `iters_done - 1` passes before it, and its assignment step
returns `ch` changes with `ch = 0` or `iters_done = MAX_ITER`. If the loop
stopped on `ch = 0`, the update step of that last pass leaves every centroid
equal to its value before it, and in the final state the label of every point
`i < N` is the lowest-index nearest centroid with respect to the final centroid
set. The library function `sqrtf` is any function whose values are below
`FLT_MAX` or are one common value `top`: the C function returns at most
`sqrt(FLT_MAX)` on a finite sum and `+inf` on an overflowed one. -/
theorem converged_state_fixed_point (sqrtf : F → F) (top : F)
    (hsq : ∀ x, sqrtf x < FLT_MAX ∨ sqrtf x = top) (rand : Nat → Nat) (n k : Nat) (hn : 1 ≤ n)
    (hk1 : 1 ≤ k) (hk : k ≤ MAX_K) (s : State F) :
    ∃ t s1 s0 ch chs,
      run_trial (seq_steps sqrtf n k) rand n k s = some t ∧
      init_centroids rand k n (reset_labels n s) = some s1 ∧
      passes (seq_steps sqrtf n k) (t.iters_done - 1) s1 = some (s0, chs) ∧
      (assign_points_seq sqrtf n k s0).2 = ch ∧
      update_centroids_seq n k (assign_points_seq sqrtf n k s0).1 = some t.state ∧
      (ch = 0 ∨ t.iters_done = MAX_ITER) ∧
      (ch = 0 →
        t.state.centroids = (assign_points_seq sqrtf n k s0).1.centroids ∧
        ∀ i, i < n → ∃ b : Nat, t.state.labels i = (b : Int) ∧ b < k ∧
          (∀ c, c < k → distance_pt sqrtf (t.state.data i) (t.state.centroids b) ≤
            distance_pt sqrtf (t.state.data i) (t.state.centroids c)) ∧
          (∀ c, c < b → distance_pt sqrtf (t.state.data i) (t.state.centroids b) <
            distance_pt sqrtf (t.state.data i) (t.state.centroids c))) := by
  obtain ⟨t, s1, s0, ch, chs, h1, h2, h3, h4, h5, h6, h7⟩ :=
    last_pass_program sqrtf rand n k hn hk1 hk (seq_steps sqrtf n k) (Or.inl rfl) s
  refine ⟨t, s1, s0, ch, chs, h1, h2, h3, h4, h5, h6, ?_⟩
  intro hz
  obtain ⟨h8, _, h9⟩ := h7 hz
  exact ⟨h8, h9 (fun i _ => nearest_condition_of_sqrtf sqrtf top hsq k hk1 t.state i)⟩

/-- The real square root, with `+inf` on an overflowed sum rendered as
`FLT_MAX`, has its values below `FLT_MAX` or equal to `FLT_MAX`. -/
theorem real_sqrtf_values (x : ℝ) :
    (if x ≤ FLT_MAX then Real.sqrt x else FLT_MAX) < (FLT_MAX : ℝ) ∨
      (if x ≤ FLT_MAX then Real.sqrt x else FLT_MAX) = (FLT_MAX : ℝ) := by
  by_cases h : x ≤ FLT_MAX
  · left
    rw [if_pos h, Real.sqrt_lt' flt_max_pos]
    have h1 : (1 : ℝ) < FLT_MAX := by
      unfold FLT_MAX
      norm_num
    have h2 : (0 : ℝ) < FLT_MAX := flt_max_pos
    nlinarith
  · right
    rw [if_neg h]

/-- Witness of C24 on the two-point dataset over the reals, every draw `0`:
the restart stops after 3 passes, before the cap, on zero changes, and both
labels are the lowest-index nearest centroid. -/
theorem converged_state_fixed_point_witness :
    (∀ x : ℝ, (if x ≤ FLT_MAX then Real.sqrt x else FLT_MAX) < (FLT_MAX : ℝ) ∨
      (if x ≤ FLT_MAX then Real.sqrt x else FLT_MAX) = (FLT_MAX : ℝ)) ∧
    1 ≤ 2 ∧ 2 ≤ MAX_K ∧
    ∃ t, run_trial (seq_steps (fun x : ℝ => if x ≤ FLT_MAX then Real.sqrt x else FLT_MAX) 2 2)
        (fun _ => 0) 2 2 (two_points_state : State ℝ) = some t ∧
      t.iters_done = 3 ∧
      ∀ i, i < 2 → ∃ b : Nat, t.state.labels i = (b : Int) ∧ b < 2 ∧
        ∀ c, c < 2 →
          distance_pt (fun x : ℝ => if x ≤ FLT_MAX then Real.sqrt x else FLT_MAX)
              (t.state.data i) (t.state.centroids b) ≤
            distance_pt (fun x : ℝ => if x ≤ FLT_MAX then Real.sqrt x else FLT_MAX)
              (t.state.data i) (t.state.centroids c) := by
  refine ⟨real_sqrtf_values, by decide, by decide, ?_⟩
  obtain ⟨t, _, _, ch, _, h1, _, _, _, _, h5, h6⟩ :=
    converged_state_fixed_point (fun x : ℝ => if x ≤ FLT_MAX then Real.sqrt x else FLT_MAX)
      FLT_MAX real_sqrtf_values (fun _ => 0) 2 2 (by decide) (by decide) (by decide)
      two_points_state
  have hle : ∀ y : ℝ, 0 ≤ y → y ≤ 800 → y ≤ FLT_MAX := by
    intro y _ hy
    have h : (800 : ℝ) ≤ FLT_MAX := by
      unfold FLT_MAX
      norm_num
    linarith
  have hfacts : SqrtfFacts (fun x : ℝ => if x ≤ FLT_MAX then Real.sqrt x else FLT_MAX) := by
    unfold SqrtfFacts
    simp only [if_pos (hle 0 (by norm_num) (by norm_num)),
      if_pos (hle 200 (by norm_num) (by norm_num)), if_pos (hle 800 (by norm_num) (by norm_num))]
    refine ⟨Real.sqrt_zero, Real.sqrt_pos.mpr (by norm_num),
      Real.sqrt_lt_sqrt (by norm_num) (by norm_num), ?_⟩
    rw [Real.sqrt_lt' flt_max_pos]
    unfold FLT_MAX
    norm_num
  obtain ⟨t2, h7, _, _, h8⟩ := two_points_trial _ hfacts (fun _ => 0)
    (seq_steps (fun x : ℝ => if x ≤ FLT_MAX then Real.sqrt x else FLT_MAX) 2 2) (Or.inl rfl)
    two_points_state two_points_state_twoPoints
  rw [h1] at h7
  simp only [Option.some.injEq] at h7
  subst h7
  rw [if_pos rfl] at h8
  have hch : ch = 0 := h5.resolve_right (by rw [h8]; decide)
  refine ⟨t, h1, h8, ?_⟩
  intro i hi
  obtain ⟨b, g1, g2, g3, _⟩ := (h6 hch).2 i hi
  exact ⟨b, g1, g2, g3⟩

/-! ## The assignment step and the accuracy objective -/

/-- Per point minimality gives minimality of the accuracy, for either program
in exact arithmetic, when each point has a centroid at a distance below
`FLT_MAX` or has no centroid nearer than centroid `0`. -/
theorem accuracy_minimal_program (sqrtf : F → F) (n k : Nat) (hk1 : 1 ≤ k) (hk : k ≤ MAX_K)
    (st : Steps F) (hst : IsProgram sqrtf n k st) (s : State F)
    (hd : ∀ i, i < n →
      (∃ c, c < k ∧ distance_pt sqrtf (s.data i) (s.centroids c) < FLT_MAX) ∨
      (∀ c, c < k → distance_pt sqrtf (s.data i) (s.centroids 0) ≤
        distance_pt sqrtf (s.data i) (s.centroids c)))
    (labels2 : Nat → Int) (hl : ∀ i, i < n → 0 ≤ labels2 i ∧ labels2 i < (k : Int)) :
    ∃ a1 a2, st.accuracy (st.assign s).1 = some a1 ∧
      st.accuracy { s with labels := labels2 } = some a2 ∧ a1 ≤ a2 := by
  have hb2 : LabelsInBounds n { s with labels := labels2 } := fun i hi =>
    ⟨(hl i hi).1, lt_of_lt_of_le (hl i hi).2 (by exact_mod_cast hk)⟩
  refine ⟨distance_sum sqrtf (assign_points_seq sqrtf n k s).1 (List.range n) / (n : F),
    distance_sum sqrtf { s with labels := labels2 } (List.range n) / (n : F), ?_,
    accuracy_program sqrtf n k st hst _ hb2, ?_⟩
  · rw [assign_program sqrtf n k st hst]
    exact accuracy_program sqrtf n k st hst _ (assign_points_seq_inBounds sqrtf n k hk s)
  · apply div_le_div_of_nonneg_right _ (Nat.cast_nonneg n)
    unfold distance_sum
    apply List.sum_le_sum
    intro i hi
    have hi := List.mem_range.mp hi
    obtain ⟨b, hb, _, hmin, _⟩ := nearest_label_spec_or sqrtf k hk1 s i (hd i hi)
    rw [assign_points_seq_eq]
    simp only [relabel, List.mem_range, hi, if_true, hb, Int.toNat_ofNat]
    apply hmin
    have h2 := hl i hi
    omega

/-- C26. Assignment minimises the accuracy objective for fixed centroids: for
every `N` (so every `N >= 1`), every `1 <= k <= MAX_K`, every dataset and
centroid set (the state `s`) and every label array `labels2` whose labels
`i < N` lie in `[0, k)`, `compute_accuracy_seq` returns on the labels produced
by `assign_points_seq` and on `labels2`, data and centroids being the same, and
the first value is less than or equal to the second. The library function
`sqrtf` is any function whose values are below `FLT_MAX` or are one common
value `top`: the C function returns at most `sqrt(FLT_MAX)` on a finite sum and
`+inf` on an overflowed one. -/
theorem assignment_minimises_accuracy (sqrtf : F → F) (top : F)
    (hsq : ∀ x, sqrtf x < FLT_MAX ∨ sqrtf x = top) (n k : Nat) (hk1 : 1 ≤ k) (hk : k ≤ MAX_K)
    (s : State F) (labels2 : Nat → Int)
    (hl : ∀ i, i < n → 0 ≤ labels2 i ∧ labels2 i < (k : Int)) :
    ∃ a1 a2, compute_accuracy_seq sqrtf n (assign_points_seq sqrtf n k s).1 = some a1 ∧
      compute_accuracy_seq sqrtf n { s with labels := labels2 } = some a2 ∧ a1 ≤ a2 :=
  accuracy_minimal_program sqrtf n k hk1 hk (seq_steps sqrtf n k) (Or.inl rfl) s
    (fun i _ => nearest_condition_of_sqrtf sqrtf top hsq k hk1 s i) labels2 hl

/-- Witness of C26 on the two-point dataset over the reals (points `0, 10`,
both centroids at `0`), against the label array that puts both points in
cluster `0`. -/
theorem assignment_minimises_accuracy_witness :
    (∀ x : ℝ, (if x ≤ FLT_MAX then Real.sqrt x else FLT_MAX) < (FLT_MAX : ℝ) ∨
      (if x ≤ FLT_MAX then Real.sqrt x else FLT_MAX) = (FLT_MAX : ℝ)) ∧
    1 ≤ 2 ∧ 2 ≤ MAX_K ∧
    (∀ i, i < 2 → 0 ≤ (0 : Int) ∧ (0 : Int) < ((2 : Nat) : Int)) ∧
    ∃ a1 a2,
      compute_accuracy_seq (fun x : ℝ => if x ≤ FLT_MAX then Real.sqrt x else FLT_MAX) 2
        (assign_points_seq (fun x : ℝ => if x ≤ FLT_MAX then Real.sqrt x else FLT_MAX) 2 2
          (two_points_state : State ℝ)).1 = some a1 ∧
      compute_accuracy_seq (fun x : ℝ => if x ≤ FLT_MAX then Real.sqrt x else FLT_MAX) 2
        { (two_points_state : State ℝ) with labels := fun _ => 0 } = some a2 ∧
      a1 ≤ a2 :=
  ⟨real_sqrtf_values, by decide, by decide,
    fun _ _ => ⟨le_refl 0, by show (0 : Int) < ((2 : Nat) : Int); decide⟩,
    assignment_minimises_accuracy (fun x : ℝ => if x ≤ FLT_MAX then Real.sqrt x else FLT_MAX)
      FLT_MAX real_sqrtf_values 2 2 (by decide) (by decide) two_points_state (fun _ => 0)
      (fun _ _ => ⟨le_refl 0, by show (0 : Int) < ((2 : Nat) : Int); decide⟩)⟩

/-! ## Rounding to `float`: lemmas -/

theorem round_half_even_intCast [FloorRing F] (n : Int) : round_half_even (n : F) = n := by
  unfold round_half_even
  simp

theorem round_half_even_eq [FloorRing F] (x : F) (n : Int) (h1 : (n : F) ≤ x) (h2 : x - n < 1 / 2) :
    round_half_even x = n := by
  have hf : ⌊x⌋ = n := by
    rw [Int.floor_eq_iff]
    constructor
    · exact h1
    · linarith
  unfold round_half_even
  rw [hf, if_pos h2]

theorem round_half_even_tie [FloorRing F] (x : F) (n : Int) (h : x = n + 1 / 2) :
    round_half_even x = if n % 2 = 0 then n else n + 1 := by
  have hf : ⌊x⌋ = n := by
    rw [Int.floor_eq_iff]
    constructor <;> rw [h] <;> norm_num
  unfold round_half_even
  rw [hf]
  have h1 : ¬ (x - (n : F) < 1 / 2) := by rw [h]; norm_num
  have h2 : ¬ ((1 : F) / 2 < x - (n : F)) := by rw [h]; norm_num
  rw [if_neg h1, if_neg h2]

theorem float_exponent_eq [FloorRing F] (x : F) (e : Int) (he : -126 ≤ e) (h1 : (2 : F) ^ e ≤ |x|)
    (h2 : |x| < (2 : F) ^ (e + 1)) : float_exponent x = e := by
  have hpos : 0 < |x| := lt_of_lt_of_le (zpow_pos (by norm_num) e) h1
  have hlog : Int.log 2 |x| = e := by
    have a := (Int.zpow_le_iff_le_log (b := 2) (by norm_num) hpos (x := e)).mp (by exact_mod_cast h1)
    have b := (Int.lt_zpow_iff_log_lt (b := 2) (by norm_num) hpos (x := e + 1)).mp (by exact_mod_cast h2)
    omega
  unfold float_exponent
  rw [hlog]
  exact max_eq_left he

theorem float_exponent_small [FloorRing F] (x : F) (h0 : x ≠ 0) (h : |x| < (2 : F) ^ (-126 : Int)) :
    float_exponent x = -126 := by
  unfold float_exponent
  apply max_eq_right
  have hpos : 0 < |x| := abs_pos.mpr h0
  have b := (Int.lt_zpow_iff_log_lt (b := 2) (by norm_num) hpos (x := -126)).mp (by exact_mod_cast h)
  omega

theorem round_f32_zero [FloorRing F] : round_f32 (0 : F) = 0 := by
  unfold round_f32
  simp [round_half_even]


/-- Rounding of a value whose binade and rounded quotient are known. -/
theorem round_f32_eq [FloorRing F] (x : F) (e n : Int) (he : float_exponent x = e)
    (hn : round_half_even (x / (2 : F) ^ (e - 23)) = n) :
    round_f32 x = (n : F) * (2 : F) ^ (e - 23) := by
  unfold round_f32
  rw [he, hn]

/-- A dyadic value `m * 2^j` with `|m| < 2^24` and `j ≥ -149` is a `float`. -/
theorem round_f32_dyadic [FloorRing F] (m j : Int) (hm : |m| < 2 ^ 24) (hj : -149 ≤ j) :
    round_f32 ((m : F) * (2 : F) ^ j) = (m : F) * (2 : F) ^ j := by
  by_cases h0 : m = 0
  · subst h0
    simp [round_f32_zero]
  have h2 : (2 : F) ≠ 0 := two_ne_zero
  have hx0 : (m : F) * (2 : F) ^ j ≠ 0 :=
    mul_ne_zero (Int.cast_ne_zero.mpr h0) (zpow_ne_zero _ h2)
  have habs : |(m : F) * (2 : F) ^ j| < (2 : F) ^ (24 + j) := by
    rw [abs_mul, abs_of_pos (zpow_pos (by norm_num : (0 : F) < 2) j), zpow_add₀ h2]
    apply mul_lt_mul_of_pos_right _ (zpow_pos (by norm_num : (0 : F) < 2) j)
    have h : ((|m| : Int) : F) < ((2 ^ 24 : Int) : F) := Int.cast_lt.mpr hm
    rw [Int.cast_abs] at h
    have h24 : ((2 ^ 24 : Int) : F) = (2 : F) ^ (24 : Int) := by norm_num
    rw [h24] at h
    exact h
  have hlog : Int.log 2 |(m : F) * (2 : F) ^ j| < 24 + j :=
    (Int.lt_zpow_iff_log_lt (b := 2) (by norm_num) (abs_pos.mpr hx0)).mp (by exact_mod_cast habs)
  have he : float_exponent ((m : F) * (2 : F) ^ j) - 23 ≤ j := by
    have h : float_exponent ((m : F) * (2 : F) ^ j) ≤ j + 23 := by
      unfold float_exponent
      exact max_le (by omega) (by omega)
    omega
  obtain ⟨d, hd⟩ : ∃ d : Nat, j = (float_exponent ((m : F) * (2 : F) ^ j) - 23) + (d : Int) :=
    ⟨(j - (float_exponent ((m : F) * (2 : F) ^ j) - 23)).toNat, by omega⟩
  have hpow : (2 : F) ^ j =
      (2 : F) ^ (float_exponent ((m : F) * (2 : F) ^ j) - 23) * (2 : F) ^ d := by
    conv_lhs => rw [hd]
    rw [zpow_add₀ h2, zpow_natCast]
  have hq : (m : F) * (2 : F) ^ j / (2 : F) ^ (float_exponent ((m : F) * (2 : F) ^ j) - 23) =
      ((m * 2 ^ d : Int) : F) := by
    rw [div_eq_iff (zpow_ne_zero _ h2)]
    conv_lhs => rw [hpow]
    push_cast
    ring
  unfold round_f32
  rw [hq, round_half_even_intCast]
  conv_rhs => rw [hpow]
  push_cast
  ring

/-- An integer of magnitude below `2^24` is a `float`. -/
theorem round_f32_intCast [FloorRing F] (n : Int) (h : |n| < 2 ^ 24) : round_f32 (n : F) = n := by
  have := round_f32_dyadic (F := F) n 0 h (by norm_num)
  simpa using this

theorem round_f32_two_pow_24 [FloorRing F] : round_f32 ((16777216 : F)) = 16777216 := by
  have := round_f32_dyadic (F := F) 1 24 (by norm_num) (by norm_num)
  norm_num at this
  exact this

/-- Absorption: `2^24 + 1` lies half way between the floats `2^24` and
`2^24 + 2` and rounds to the even one. -/
theorem round_f32_absorb [FloorRing F] : round_f32 ((16777217 : F)) = 16777216 := by
  have he : float_exponent (16777217 : F) = 24 := by
    apply float_exponent_eq _ _ (by norm_num) <;> norm_num
  have hn : round_half_even ((16777217 : F) / (2 : F) ^ ((24 : Int) - 23)) = 8388608 := by
    rw [round_half_even_tie _ 8388608 (by norm_num)]
    norm_num
  rw [round_f32_eq _ 24 8388608 he hn]
  norm_num

/-- Underflow: `2^-160` is below half the smallest subnormal `2^-149` and rounds to `0`. -/
theorem round_f32_underflow [FloorRing F] : round_f32 ((2 : F) ^ (-160 : Int)) = 0 := by
  have he : float_exponent ((2 : F) ^ (-160 : Int)) = -126 := by
    apply float_exponent_small
    · exact zpow_ne_zero _ two_ne_zero
    · rw [abs_of_pos (zpow_pos (by norm_num) _)]
      exact zpow_lt_zpow_right₀ (by norm_num) (by norm_num)
  have hn : round_half_even ((2 : F) ^ (-160 : Int) / (2 : F) ^ ((-126 : Int) - 23)) = 0 := by
    apply round_half_even_eq
    · norm_num
    · rw [← zpow_sub₀ two_ne_zero]
      norm_num
  rw [round_f32_eq _ (-126) 0 he hn]
  simp

theorem round_half_even_bounds [FloorRing F] (x : F) :
    ⌊x⌋ ≤ round_half_even x ∧ round_half_even x ≤ ⌊x⌋ + 1 := by
  unfold round_half_even
  split_ifs <;> constructor <;> omega

theorem float_exponent_ge [FloorRing F] (x : F) : -126 ≤ float_exponent x :=
  le_max_right _ _

/-- Rounding keeps the sign. -/
theorem round_f32_nonneg [FloorRing F] (x : F) (hx : 0 ≤ x) : 0 ≤ round_f32 x := by
  unfold round_f32
  have hq : (0 : F) < (2 : F) ^ (float_exponent x - 23) := zpow_pos (by norm_num) _
  have hv : 0 ≤ x / (2 : F) ^ (float_exponent x - 23) := div_nonneg hx (le_of_lt hq)
  have hf : 0 ≤ ⌊x / (2 : F) ^ (float_exponent x - 23)⌋ := Int.floor_nonneg.mpr hv
  have hn : 0 ≤ round_half_even (x / (2 : F) ^ (float_exponent x - 23)) :=
    le_trans hf (round_half_even_bounds _).1
  exact mul_nonneg (by exact_mod_cast hn) (le_of_lt hq)

/-- A positive `float` is at least the smallest subnormal `2^-149`. -/
theorem round_f32_pos_ge [FloorRing F] (x : F) (h : 0 < round_f32 x) :
    (2 : F) ^ (-149 : Int) ≤ round_f32 x := by
  unfold round_f32 at h ⊢
  have hq : (0 : F) < (2 : F) ^ (float_exponent x - 23) := zpow_pos (by norm_num) _
  have hn : (0 : F) < (round_half_even (x / (2 : F) ^ (float_exponent x - 23)) : F) :=
    (mul_pos_iff_of_pos_right hq).mp h
  have hn1 : (1 : F) ≤ (round_half_even (x / (2 : F) ^ (float_exponent x - 23)) : F) := by
    have : (0 : Int) < round_half_even (x / (2 : F) ^ (float_exponent x - 23)) := by
      exact_mod_cast hn
    exact_mod_cast this
  have hpow : (2 : F) ^ (-149 : Int) ≤ (2 : F) ^ (float_exponent x - 23) := by
    apply zpow_le_zpow_right₀ (by norm_num)
    have := float_exponent_ge x
    omega
  calc (2 : F) ^ (-149 : Int) ≤ (2 : F) ^ (float_exponent x - 23) := hpow
    _ = 1 * (2 : F) ^ (float_exponent x - 23) := (one_mul _).symm
    _ ≤ _ := mul_le_mul_of_nonneg_right hn1 (le_of_lt hq)

/-- A number that is at least `2^-149` does not round to zero. -/
theorem round_f32_ge_of_ge [FloorRing F] (w : F) (h : (2 : F) ^ (-149 : Int) ≤ w) :
    (2 : F) ^ (-149 : Int) ≤ round_f32 w := by
  have hw : 0 < w := lt_of_lt_of_le (zpow_pos (by norm_num) _) h
  have hq : (0 : F) < (2 : F) ^ (float_exponent w - 23) := zpow_pos (by norm_num) _
  have hge : (2 : F) ^ (float_exponent w - 23) ≤ w := by
    unfold float_exponent
    rw [abs_of_pos hw]
    rcases le_total (Int.log 2 w) (-126) with hc | hc
    · rw [max_eq_right hc]
      norm_num at h ⊢
      exact h
    · rw [max_eq_left hc]
      have h1 : ((2 : Nat) : F) ^ (Int.log 2 w) ≤ w := Int.zpow_log_le_self (by norm_num) hw
      rw [Nat.cast_ofNat] at h1
      refine le_trans ?_ h1
      apply zpow_le_zpow_right₀ (by norm_num)
      omega
  have hv : (1 : F) ≤ w / (2 : F) ^ (float_exponent w - 23) := by
    rw [le_div_iff₀ hq, one_mul]
    exact hge
  have hf : 1 ≤ ⌊w / (2 : F) ^ (float_exponent w - 23)⌋ := by
    rw [Int.le_floor]
    exact_mod_cast hv
  have hn : 1 ≤ round_half_even (w / (2 : F) ^ (float_exponent w - 23)) :=
    le_trans hf (round_half_even_bounds _).1
  have hpos : 0 < round_f32 w := by
    unfold round_f32
    exact mul_pos (by exact_mod_cast (by omega : 0 < round_half_even _)) hq
  exact round_f32_pos_ge w hpos

/-- The sum of two non-negative `float`s rounds to zero only when both are zero. -/
theorem round_f32_add_eq_zero [FloorRing F] (x y : F) (hx : 0 ≤ x) (hy : 0 ≤ y)
    (h : round_f32 (round_f32 x + round_f32 y) = 0) : round_f32 x = 0 ∧ round_f32 y = 0 := by
  have hx2 := round_f32_nonneg x hx
  have hy2 := round_f32_nonneg y hy
  have hpow : (0 : F) < (2 : F) ^ (-149 : Int) := zpow_pos (by norm_num) _
  by_contra hne
  have hpos : 0 < round_f32 x ∨ 0 < round_f32 y := by
    by_contra hcon
    push_neg at hcon
    exact hne ⟨le_antisymm hcon.1 hx2, le_antisymm hcon.2 hy2⟩
  have hsum : (2 : F) ^ (-149 : Int) ≤ round_f32 x + round_f32 y := by
    rcases hpos with hp | hp
    · have := round_f32_pos_ge x hp
      linarith
    · have := round_f32_pos_ge y hp
      linarith
  have := round_f32_ge_of_ge _ hsum
  rw [h] at this
  linarith

theorem round_f32_natCast [FloorRing F] (n : Nat) (h : n < 16777216) :
    round_f32 (n : F) = (n : F) := by
  have := round_f32_intCast (F := F) (n : Int) (by rw [abs_of_nonneg (by omega)]; norm_num; omega)
  simpa using this

theorem round_f32_ofNat [FloorRing F] (n : Nat) [n.AtLeastTwo] (h : n < 16777216) :
    round_f32 (OfNat.ofNat n : F) = (OfNat.ofNat n : F) := by
  have := round_f32_natCast (F := F) n h
  simpa using this

theorem round_f32_one [FloorRing F] : round_f32 (1 : F) = 1 := by
  have := round_f32_natCast (F := F) 1 (by norm_num)
  simpa using this

theorem round_f32_three_halves [FloorRing F] : round_f32 ((3 : F) / 2) = 3 / 2 := by
  have := round_f32_dyadic (F := F) 3 (-1) (by norm_num) (by norm_num)
  norm_num at this
  exact this

theorem round_f32_quarter [FloorRing F] : round_f32 ((1 : F) / 4) = 1 / 4 := by
  have := round_f32_dyadic (F := F) 1 (-2) (by norm_num) (by norm_num)
  norm_num at this
  exact this

/-- The division loop with rounding, in closed form. -/
theorem rounded_compute_means_eq (rnd : F → F) (k : Nat) (s : State F) :
    Rounded.compute_means rnd k s =
      { s with centroids := fun c =>
          if c < k ∧ s.counts c ≠ 0 then
            (fun f => rnd (s.new_centroids c f / rnd ((s.counts c : Int) : F)))
          else s.centroids c } := by
  unfold Rounded.compute_means
  induction k with
  | zero => simp
  | succ k ih =>
    rw [List.range_succ, List.foldl_append, ih]
    simp only [List.foldl_cons, List.foldl_nil]
    by_cases h0 : s.counts k = 0
    · simp only [h0, if_true]
      apply State.ext_fields <;> try rfl
      funext c
      by_cases h : c = k
      · subst h; simp [h0]
      · have : c < k + 1 ↔ c < k := by omega
        simp [this]
    · simp only [h0, if_false]
      apply State.ext_fields <;> try rfl
      funext c
      by_cases h : c = k
      · subst h; simp [h0]
      · have : c < k + 1 ↔ c < k := by omega
        simp [Function.update_noteq h, this]

/-- The merge loop of the critical section with rounding, in closed form. -/
theorem rounded_merge_local_eq (rnd : F → F) (k : Nat) (loc : (Nat → Int) × (Nat → Point F))
    (s : State F) :
    Rounded.merge_local rnd k loc s =
      { s with counts := fun c => if c < k then s.counts c + loc.1 c else s.counts c,
               new_centroids := fun c =>
                 if c < k then (fun f => rnd (s.new_centroids c f + loc.2 c f))
                 else s.new_centroids c } := by
  unfold Rounded.merge_local
  induction k with
  | zero => simp
  | succ k ih =>
    rw [List.range_succ, List.foldl_append, ih]
    simp only [List.foldl_cons, List.foldl_nil]
    apply State.ext_fields <;> try rfl
    · funext c
      by_cases h : c = k
      · subst h; simp
      · have : c < k + 1 ↔ c < k := by omega
        simp [Function.update_noteq h, this]
    · funext c
      by_cases h : c = k
      · subst h; simp
      · have : c < k + 1 ↔ c < k := by omega
        simp [Function.update_noteq h, this]

theorem cluster_values_cons (data : Nat → Point F) (labels : Nat → Int) (i : Nat) (is : List Nat)
    (c : Nat) (f : Fin FEATURES) :
    cluster_values data labels (i :: is) c f =
      if labels i = (c : Int) then data i f :: cluster_values data labels is c f
      else cluster_values data labels is c f := by
  unfold cluster_values
  by_cases h : labels i = (c : Int) <;> simp [List.filter_cons, h]

theorem cluster_values_sum (data : Nat → Point F) (labels : Nat → Int) (is : List Nat)
    (c : Nat) (f : Fin FEATURES) :
    (cluster_values data labels is c f).sum = cluster_sum data labels is c f := rfl

theorem cluster_values_length (data : Nat → Point F) (labels : Nat → Int) (is : List Nat)
    (c : Nat) (f : Fin FEATURES) :
    (cluster_values data labels is c f).length = cluster_count labels is c := by
  simp [cluster_values, cluster_count]

/-- Without rounding the running sum is the sum. -/
theorem float_sum_id (init : F) (xs : List F) : float_sum (fun x => x) init xs = init + xs.sum := by
  unfold float_sum
  induction xs generalizing init with
  | nil => simp
  | cons x xs ih =>
    rw [List.foldl_cons, ih, List.sum_cons]
    ring

/-- The running sum is the sum when no prefix sum is rounded. -/
theorem float_sum_exact (rnd : F → F) (xs : List F)
    (h : ∀ j, j ≤ xs.length → rnd ((xs.take j).sum) = (xs.take j).sum) :
    float_sum rnd 0 xs = xs.sum := by
  induction xs using List.reverseRecOn with
  | nil => rfl
  | append_singleton ys x ih =>
    have hys : float_sum rnd 0 ys = ys.sum := by
      apply ih
      intro j hj
      have := h j (by rw [List.length_append]; omega)
      rwa [List.take_append_of_le_length hj] at this
    have hall := h (ys ++ [x]).length (le_refl _)
    rw [List.take_length] at hall
    unfold float_sum at hys ⊢
    rw [List.foldl_append, hys]
    simp only [List.foldl_cons, List.foldl_nil]
    rw [List.sum_append, List.sum_singleton] at hall ⊢
    exact hall

/-- The accumulation loop with rounding over any index list whose labels are
valid row indices, in closed form. -/
theorem rounded_accumulate_fold_eq (rnd : F → F) (data : Nat → Point F) (labels : Nat → Int)
    (is : List Nat) (hl : ∀ i, i ∈ is → 0 ≤ labels i ∧ labels i < (MAX_K : Int))
    (acc : (Nat → Int) × (Nat → Point F)) :
    is.foldlM (Rounded.accumulate_point rnd data labels) acc =
      some (fun c => acc.1 c + (cluster_count labels is c : Int),
            fun c f => float_sum rnd (acc.2 c f) (cluster_values data labels is c f)) := by
  induction is generalizing acc with
  | nil => simp [cluster_count, cluster_values, float_sum]
  | cons i is ih =>
    have hi := hl i (List.mem_cons_self i is)
    rw [List.foldlM_cons]
    have hstep : Rounded.accumulate_point rnd data labels acc i =
        some (Function.update acc.1 (labels i).toNat (acc.1 (labels i).toNat + 1),
          Function.update acc.2 (labels i).toNat
            (fun f => rnd (acc.2 (labels i).toNat f + data i f))) := by
      unfold Rounded.accumulate_point
      simp only [hi, and_self, if_true]
    rw [hstep]
    simp only [Option.some_bind, Option.bind_eq_bind]
    rw [ih (fun j hj => hl j (List.mem_cons_of_mem i hj))]
    have hc : ∀ c : Nat, labels i = (c : Int) ↔ c = (labels i).toNat := by
      intro c
      constructor
      · intro h; rw [h]; simp
      · intro h; rw [h]; exact (Int.toNat_of_nonneg hi.1).symm
    congr 2
    · funext c
      rw [cluster_count_cons]
      simp only
      by_cases h : c = (labels i).toNat
      · rw [if_pos ((hc c).mpr h), h, Function.update_same]
        push_cast
        ring
      · rw [if_neg (fun h2 => h ((hc c).mp h2)), Function.update_noteq h]
        push_cast
        ring
    · funext c f
      rw [cluster_values_cons]
      simp only
      by_cases h : c = (labels i).toNat
      · rw [if_pos ((hc c).mpr h), h, Function.update_same]
        rfl
      · rw [if_neg (fun h2 => h ((hc c).mp h2)), Function.update_noteq h]

/-- The sequential update step with rounding in closed form, when every label
read is a valid row index. -/
theorem rounded_update_centroids_seq_eq (rnd : F → F) (n k : Nat) (s : State F)
    (hl : ∀ i, i < n → 0 ≤ s.labels i ∧ s.labels i < (MAX_K : Int)) :
    Rounded.update_centroids_seq rnd n k s =
      some (Rounded.compute_means rnd k
        { s with
          counts := fun c =>
            (if c < k then 0 else s.counts c) + (cluster_count s.labels (List.range n) c : Int),
          new_centroids := fun c f =>
            float_sum rnd (if c < k then 0 else s.new_centroids c f)
              (cluster_values s.data s.labels (List.range n) c f) }) := by
  unfold Rounded.update_centroids_seq
  simp only
  rw [(reset_accumulators_data k s).1, (reset_accumulators_data k s).2,
    rounded_accumulate_fold_eq rnd s.data s.labels (List.range n)
      (fun i hi => hl i (List.mem_range.mp hi)),
    Option.map_some', reset_accumulators_eq]
  congr 2
  apply State.ext_fields <;> try rfl
  funext c f
  simp only
  by_cases h : c < k <;> simp [h]

/-- The partial sums of the workers: for each chunk the running sum, from `0`,
of the values of the chunk's points labelled `c`. -/
theorem rounded_update_workers_eq (rnd : F → F) (k : Nat) (data : Nat → Point F)
    (labels : Nat → Int) (chunks : List (List Nat))
    (hl : ∀ i, i ∈ chunks.flatten → 0 ≤ labels i ∧ labels i < (MAX_K : Int)) (st : State F) :
    chunks.foldlM (Rounded.update_worker rnd k data labels) st =
      some { st with
        counts := fun c =>
          if c < k then st.counts c + (cluster_count labels chunks.flatten c : Int)
          else st.counts c,
        new_centroids := fun c =>
          if c < k then
            (fun f => float_sum rnd (st.new_centroids c f)
              (chunks.map (fun ch => float_sum rnd 0 (cluster_values data labels ch c f))))
          else st.new_centroids c } := by
  induction chunks generalizing st with
  | nil =>
    simp only [List.foldlM_nil, List.flatten_nil, cluster_count, List.filter_nil,
      List.length_nil, List.map_nil, Nat.cast_zero, add_zero, ite_self, float_sum, List.foldl_nil]
    rfl
  | cons ch chunks ih =>
    rw [List.foldlM_cons]
    have hch : ∀ i, i ∈ ch → 0 ≤ labels i ∧ labels i < (MAX_K : Int) := by
      intro i hi
      apply hl
      rw [List.flatten_cons]
      exact List.mem_append_left _ hi
    have hrest : ∀ i, i ∈ chunks.flatten → 0 ≤ labels i ∧ labels i < (MAX_K : Int) := by
      intro i hi
      apply hl
      rw [List.flatten_cons]
      exact List.mem_append_right _ hi
    have hw : Rounded.update_worker rnd k data labels st ch =
        some (Rounded.merge_local rnd k (fun c => 0 + (cluster_count labels ch c : Int),
          fun c f => float_sum rnd 0 (cluster_values data labels ch c f)) st) := by
      unfold Rounded.update_worker
      rw [rounded_accumulate_fold_eq rnd data labels ch hch]
      rfl
    rw [hw]
    simp only [Option.some_bind, Option.bind_eq_bind]
    rw [ih hrest, rounded_merge_local_eq]
    congr 1
    apply State.ext_fields <;> try rfl
    · funext c
      by_cases h : c < k
      · simp only [h, if_true, List.map_cons, float_sum, List.foldl_cons]
      · simp only [h, if_false]
    · funext c
      simp only [List.flatten_cons, cluster_count_append]
      by_cases h : c < k
      · simp only [h, if_true]
        push_cast
        ring
      · simp only [h, if_false]

/-- The parallel update step with rounding in closed form, when every label
read is a valid row index. -/
theorem rounded_update_centroids_omp_eq (rnd : F → F) (n k : Nat) (chunks : List (List Nat))
    (hs : IsSchedule chunks n) (s : State F)
    (hl : ∀ i, i < n → 0 ≤ s.labels i ∧ s.labels i < (MAX_K : Int)) :
    Rounded.update_centroids_omp rnd chunks k s =
      some (Rounded.compute_means rnd k
        { s with
          counts := fun c =>
            if c < k then (cluster_count s.labels (List.range n) c : Int) else s.counts c,
          new_centroids := fun c =>
            if c < k then
              (fun f => float_sum rnd 0
                (chunks.map (fun ch => float_sum rnd 0 (cluster_values s.data s.labels ch c f))))
            else s.new_centroids c }) := by
  unfold Rounded.update_centroids_omp
  simp only
  rw [(reset_accumulators_data k s).1, (reset_accumulators_data k s).2,
    rounded_update_workers_eq rnd k s.data s.labels chunks
      (fun i hi => hl i (List.mem_range.mp (hs.mem_iff.mp hi))),
    Option.map_some', reset_accumulators_eq]
  congr 2
  apply State.ext_fields <;> try rfl
  · funext c
    by_cases h : c < k
    · simp only [h, if_true]
    · simp [h]
  · funext c
    by_cases h : c < k
    · simp [h, cluster_count_perm s.labels hs c]
    · simp [h]

/-- Centroids and counts after the sequential update step with rounding. -/
theorem rounded_update_centroids_seq_centroids (rnd : F → F) (n k : Nat) (s : State F)
    (hl : ∀ i, i < n → 0 ≤ s.labels i ∧ s.labels i < (MAX_K : Int)) :
    ∃ s2, Rounded.update_centroids_seq rnd n k s = some s2 ∧ s2.data = s.data ∧
      s2.labels = s.labels ∧ s2.rand_calls = s.rand_calls ∧
      (∀ c, s2.counts c =
        (if c < k then 0 else s.counts c) + (cluster_count s.labels (List.range n) c : Int)) ∧
      (∀ c f, s2.new_centroids c f =
        float_sum rnd (if c < k then 0 else s.new_centroids c f)
          (cluster_values s.data s.labels (List.range n) c f)) ∧
      ∀ c, s2.centroids c =
        if c < k ∧ cluster_count s.labels (List.range n) c ≠ 0 then
          (fun f => rnd (float_sum rnd 0 (cluster_values s.data s.labels (List.range n) c f) /
            rnd (cluster_count s.labels (List.range n) c : F)))
        else s.centroids c := by
  refine ⟨_, rounded_update_centroids_seq_eq rnd n k s hl, ?_⟩
  rw [rounded_compute_means_eq]
  refine ⟨rfl, rfl, rfl, fun _ => rfl, fun _ _ => rfl, ?_⟩
  intro c
  by_cases h : c < k
  · by_cases h0 : cluster_count s.labels (List.range n) c = 0
    · simp [h, h0]
    · simp [h, h0]
  · simp [h]

/-- Centroids and counts after the parallel update step with rounding. -/
theorem rounded_update_centroids_omp_centroids (rnd : F → F) (n k : Nat)
    (chunks : List (List Nat)) (hs : IsSchedule chunks n) (s : State F)
    (hl : ∀ i, i < n → 0 ≤ s.labels i ∧ s.labels i < (MAX_K : Int)) :
    ∃ s2, Rounded.update_centroids_omp rnd chunks k s = some s2 ∧ s2.data = s.data ∧
      s2.labels = s.labels ∧ s2.rand_calls = s.rand_calls ∧
      (∀ c, s2.counts c =
        if c < k then (cluster_count s.labels (List.range n) c : Int) else s.counts c) ∧
      (∀ c f, s2.new_centroids c f =
        if c < k then
          float_sum rnd 0
            (chunks.map (fun ch => float_sum rnd 0 (cluster_values s.data s.labels ch c f)))
        else s.new_centroids c f) ∧
      ∀ c, s2.centroids c =
        if c < k ∧ cluster_count s.labels (List.range n) c ≠ 0 then
          (fun f => rnd (float_sum rnd 0
            (chunks.map (fun ch => float_sum rnd 0 (cluster_values s.data s.labels ch c f))) /
            rnd (cluster_count s.labels (List.range n) c : F)))
        else s.centroids c := by
  refine ⟨_, rounded_update_centroids_omp_eq rnd n k chunks hs s hl, ?_⟩
  rw [rounded_compute_means_eq]
  refine ⟨rfl, rfl, rfl, fun _ => rfl, ?_, ?_⟩
  · intro c f
    by_cases h : c < k <;> simp [h]
  · intro c
    by_cases h : c < k
    · by_cases h0 : cluster_count s.labels (List.range n) c = 0
      · simp [h, h0]
      · simp [h, h0]
    · simp [h]

theorem labels_lt_max_k (n k : Nat) (s : State F) (hk : k ≤ MAX_K)
    (hl : ∀ i, i < n → 0 ≤ s.labels i ∧ s.labels i < (k : Int)) :
    ∀ i, i < n → 0 ≤ s.labels i ∧ s.labels i < (MAX_K : Int) := by
  intro i hi
  exact ⟨(hl i hi).1, lt_of_lt_of_le (hl i hi).2 (by exact_mod_cast hk)⟩

/-- C4, amended. Update step computes rounded means: when `k <= MAX_K` and all
labels of the points `i < n` lie in `[0, k)`, for every rounding `rnd` of the
`float` operations, `update_centroids_seq` and `update_centroids_omp` (under any
schedule) return, and every cluster `c < k` with at least one member has in
every feature `f` the centroid value `rnd (S / rnd count)`, where `count` is
the number of members and `S` is the running sum the code forms, every addition
rounded: in the sequential step the sum over the members in index order from
`0`; in the parallel step the sum, from `0` in the order of the critical
sections, of the workers' partial sums, each taken over the members in the
worker's chunk in order from `0`. In the sequential step the value is the
exact mean (sum of `data[i][f]` over the members, divided by their number)
whenever no prefix of the sum, nor the count, nor the quotient is changed by
rounding. -/
theorem update_centroids_rounded_means (rnd : F → F) (n k : Nat) (s : State F)
    (chunks : List (List Nat)) (hs : IsSchedule chunks n) (hk : k ≤ MAX_K)
    (hl : ∀ i, i < n → 0 ≤ s.labels i ∧ s.labels i < (k : Int)) :
    ∃ s2 s3, Rounded.update_centroids_seq rnd n k s = some s2 ∧
      Rounded.update_centroids_omp rnd chunks k s = some s3 ∧
      ∀ c, c < k → (∃ i, i < n ∧ s.labels i = (c : Int)) → ∀ f,
        s2.centroids c f =
          rnd (float_sum rnd 0 (cluster_values s.data s.labels (List.range n) c f) /
            rnd (cluster_count s.labels (List.range n) c : F)) ∧
        s3.centroids c f =
          rnd (float_sum rnd 0
              (chunks.map (fun ch => float_sum rnd 0 (cluster_values s.data s.labels ch c f))) /
            rnd (cluster_count s.labels (List.range n) c : F)) ∧
        ((∀ j, j ≤ cluster_count s.labels (List.range n) c →
            rnd (((cluster_values s.data s.labels (List.range n) c f).take j).sum) =
              ((cluster_values s.data s.labels (List.range n) c f).take j).sum) →
          rnd (cluster_count s.labels (List.range n) c : F) =
            (cluster_count s.labels (List.range n) c : F) →
          rnd (cluster_sum s.data s.labels (List.range n) c f /
              (cluster_count s.labels (List.range n) c : F)) =
            cluster_sum s.data s.labels (List.range n) c f /
              (cluster_count s.labels (List.range n) c : F) →
          s2.centroids c f =
            cluster_sum s.data s.labels (List.range n) c f /
              (cluster_count s.labels (List.range n) c : F)) := by
  have hl2 := labels_lt_max_k n k s hk hl
  obtain ⟨s2, h1, _, _, _, _, _, h2⟩ := rounded_update_centroids_seq_centroids rnd n k s hl2
  obtain ⟨s3, h3, _, _, _, _, _, h4⟩ :=
    rounded_update_centroids_omp_centroids rnd n k chunks hs s hl2
  refine ⟨s2, s3, h1, h3, ?_⟩
  intro c hc hex f
  obtain ⟨i, hi, hic⟩ := hex
  have hne := cluster_count_pos s.labels _ c i (List.mem_range.mpr hi) hic
  have e2 : s2.centroids c f =
      rnd (float_sum rnd 0 (cluster_values s.data s.labels (List.range n) c f) /
        rnd (cluster_count s.labels (List.range n) c : F)) := by
    rw [h2 c, if_pos ⟨hc, hne⟩]
  have e3 : s3.centroids c f =
      rnd (float_sum rnd 0
          (chunks.map (fun ch => float_sum rnd 0 (cluster_values s.data s.labels ch c f))) /
        rnd (cluster_count s.labels (List.range n) c : F)) := by
    rw [h4 c, if_pos ⟨hc, hne⟩]
  refine ⟨e2, e3, ?_⟩
  intro hpre hcnt hquot
  rw [e2, float_sum_exact rnd _ (by rw [cluster_values_length]; exact hpre), hcnt,
    cluster_values_sum, hquot]

theorem absorption_state_labels (i : Nat) (_ : i < 4) :
    0 ≤ absorption_state.labels i ∧ absorption_state.labels i < ((1 : Nat) : Int) := by
  simp [absorption_state]

theorem absorption_values (f : Fin FEATURES) :
    cluster_values absorption_state.data absorption_state.labels (List.range 4) 0 f =
      [16777216, 1, 1, -16777216] := by
  simp [cluster_values, absorption_state, broadcast, List.range_succ, List.filter_cons]

theorem absorption_count :
    cluster_count absorption_state.labels (List.range 4) 0 = 4 := by
  simp [cluster_count, absorption_state, List.range_succ, List.filter_cons]

/-- The running `float` sum of `2^24, 1, 1, -2^24` is `0`: each `1` is absorbed. -/
theorem absorption_float_sum [FloorRing F] :
    float_sum round_f32 0 [(16777216 : F), 1, 1, -16777216] = 0 := by
  simp only [float_sum, List.foldl_cons, List.foldl_nil]
  norm_num [round_f32_two_pow_24, round_f32_absorb, round_f32_zero]

theorem absorption_quotients [FloorRing F] :
    round_f32 ((0 : F) / round_f32 ((4 : Nat) : F)) = 0 ∧
      round_f32 ((1 : F) / round_f32 ((4 : Nat) : F)) = 1 / 4 := by
  rw [round_f32_natCast 4 (by norm_num)]
  constructor
  · norm_num [round_f32_zero]
  · norm_num [round_f32_quarter]

/-- Counterexample to C4 as stated: on four points `2^24, 1, 1, -2^24` in one
cluster, `update_centroids_seq` in `float` arithmetic returns centroid `0` in
every feature, while the sum of the members divided by their number is `1/2`. -/
theorem update_centroids_means_counterexample :
    (∀ i, i < 4 → 0 ≤ absorption_state.labels i ∧ absorption_state.labels i < ((1 : Nat) : Int)) ∧
    ∃ s2, Rounded.update_centroids_seq round_f32 4 1 absorption_state = some s2 ∧
      ∀ f, s2.centroids 0 f = 0 ∧
        cluster_sum absorption_state.data absorption_state.labels (List.range 4) 0 f /
          (cluster_count absorption_state.labels (List.range 4) 0 : ℚ) = 1 / 2 := by
  refine ⟨absorption_state_labels, ?_⟩
  obtain ⟨s2, h1, _, _, _, _, _, h2⟩ := rounded_update_centroids_seq_centroids round_f32 4 1
    absorption_state (labels_lt_max_k 4 1 absorption_state (by decide) absorption_state_labels)
  refine ⟨s2, h1, ?_⟩
  intro f
  constructor
  · rw [h2 0, if_pos ⟨by decide, by rw [absorption_count]; decide⟩, absorption_values,
      absorption_count, absorption_float_sum]
    exact absorption_quotients.1
  · rw [← cluster_values_sum, absorption_values, absorption_count]
    norm_num

theorem basic_float_sums [FloorRing F] :
    float_sum round_f32 0 [(1 : F), 2] = 3 ∧
    float_sum round_f32 0 [float_sum round_f32 0 [], float_sum round_f32 0 [(2 : F), 1]] = 3 ∧
    float_sum round_f32 0 [(10 : F), 12] = 22 ∧
    float_sum round_f32 0 [float_sum round_f32 0 [(10 : F), 12], float_sum round_f32 0 []] = 22 ∧
    round_f32 ((3 : F) / round_f32 ((2 : Nat) : F)) = 3 / 2 ∧
    round_f32 ((22 : F) / round_f32 ((2 : Nat) : F)) = 11 := by
  have f2 : round_f32 (2 : F) = 2 := round_f32_ofNat 2 (by norm_num)
  have f3 : round_f32 (3 : F) = 3 := round_f32_ofNat 3 (by norm_num)
  have f10 : round_f32 (10 : F) = 10 := round_f32_ofNat 10 (by norm_num)
  have f11 : round_f32 (11 : F) = 11 := round_f32_ofNat 11 (by norm_num)
  have f22 : round_f32 (22 : F) = 22 := round_f32_ofNat 22 (by norm_num)
  rw [round_f32_natCast 2 (by norm_num)]
  simp only [float_sum, List.foldl_cons, List.foldl_nil]
  norm_num [round_f32_zero, round_f32_one, f2, f3, f10, f11, f22, round_f32_three_halves]

theorem basic_state_values (f : Fin FEATURES) :
    cluster_values basic_state.data basic_state.labels (List.range 4) 0 f = [1, 2] ∧
    cluster_values basic_state.data basic_state.labels (List.range 4) 1 f = [10, 12] ∧
    cluster_values basic_state.data basic_state.labels [2, 3] 0 f = [] ∧
    cluster_values basic_state.data basic_state.labels [1, 0] 0 f = [2, 1] ∧
    cluster_values basic_state.data basic_state.labels [2, 3] 1 f = [10, 12] ∧
    cluster_values basic_state.data basic_state.labels [1, 0] 1 f = [] ∧
    cluster_count basic_state.labels (List.range 4) 0 = 2 ∧
    cluster_count basic_state.labels (List.range 4) 1 = 2 := by
  simp [cluster_values, cluster_count, basic_state, broadcast, List.range_succ, List.filter_cons]

/-- Witness of the amended C4 on the input of `test_update_centroids_basic`,
in `float` arithmetic: the points `1, 2, 10, 12` labelled `0, 0, 1, 1` give
centroid `0` equal to `1.5` and centroid `1` equal to `11` in all features,
in the sequential step and in the parallel step with two workers. -/
theorem update_centroids_rounded_means_witness :
    IsSchedule [[2, 3], [1, 0]] 4 ∧ 2 ≤ MAX_K ∧
    (∀ i, i < 4 → 0 ≤ basic_state.labels i ∧ basic_state.labels i < ((2 : Nat) : Int)) ∧
    ∃ s2 s3, Rounded.update_centroids_seq round_f32 4 2 basic_state = some s2 ∧
      Rounded.update_centroids_omp round_f32 [[2, 3], [1, 0]] 2 basic_state = some s3 ∧
      ∀ f, s2.centroids 0 f = 3 / 2 ∧ s2.centroids 1 f = 11 ∧
        s3.centroids 0 f = 3 / 2 ∧ s3.centroids 1 f = 11 := by
  refine ⟨isSchedule_four, by decide, basic_state_labels, ?_⟩
  obtain ⟨s2, s3, h1, h3, h⟩ := update_centroids_rounded_means round_f32 4 2 basic_state
    [[2, 3], [1, 0]] isSchedule_four (by decide) basic_state_labels
  refine ⟨s2, s3, h1, h3, ?_⟩
  intro f
  obtain ⟨a0, b0, _⟩ := h 0 (by decide) ⟨0, by decide, by simp [basic_state]⟩ f
  obtain ⟨a1, b1, _⟩ := h 1 (by decide) ⟨2, by decide, by simp [basic_state]⟩ f
  obtain ⟨v0, v1, v2, v3, v4, v5, n0, n1⟩ := basic_state_values f
  obtain ⟨e1, e2, e3, e4, e5, e6⟩ := basic_float_sums (F := ℚ)
  simp only [List.map_cons, List.map_nil] at b0 b1
  rw [v0, n0, e1, e5] at a0
  rw [v1, n1, e3, e6] at a1
  rw [v2, v3, n0, e2, e5] at b0
  rw [v4, v5, n1, e4, e6] at b1
  exact ⟨a0, a1, b0, b1⟩

/-- Without rounding the distance kernel with rounding is `distance_pt`. -/
theorem rounded_distance_pt_id (sqrtf : F → F) (a b : Point F) :
    Rounded.distance_pt (fun x => x) sqrtf a b = distance_pt sqrtf a b := rfl

/-- The distance kernel with rounding: one `sqrtf` of the running sum of the rounded squares. -/
theorem rounded_distance_pt_eq (rnd sqrtf : F → F) (a b : Point F) :
    Rounded.distance_pt rnd sqrtf a b =
      sqrtf (float_sum rnd 0
        ((List.finRange FEATURES).map (fun i => rnd (rnd (a i - b i) * rnd (a i - b i))))) := by
  unfold Rounded.distance_pt float_sum
  rw [List.foldl_map]

theorem float_sum_nonneg (rnd : F → F) (hr1 : ∀ x, 0 ≤ x → 0 ≤ rnd x) (init : F)
    (xs : List F) (hi : 0 ≤ init) (hx : ∀ x, x ∈ xs → 0 ≤ x) : 0 ≤ float_sum rnd init xs := by
  unfold float_sum
  induction xs generalizing init with
  | nil => exact hi
  | cons x xs ih =>
    rw [List.foldl_cons]
    exact ih _ (hr1 _ (add_nonneg hi (hx x (List.mem_cons_self x xs))))
      (fun y hy => hx y (List.mem_cons_of_mem x hy))

theorem float_sum_zeros (rnd : F → F) (hr0 : rnd 0 = 0) (xs : List F)
    (hx : ∀ x, x ∈ xs → x = 0) : float_sum rnd 0 xs = 0 := by
  unfold float_sum
  induction xs with
  | nil => rfl
  | cons x xs ih =>
    rw [List.foldl_cons, hx x (List.mem_cons_self x xs), add_zero, hr0]
    exact ih (fun y hy => hx y (List.mem_cons_of_mem x hy))

/-- A running sum of non-negative `float`s is zero only when all of them are. -/
theorem float_sum_eq_zero (rnd : F → F) (hr1 : ∀ x, 0 ≤ x → 0 ≤ rnd x)
    (hr2 : ∀ x y, 0 ≤ x → 0 ≤ y → rnd (rnd x + rnd y) = 0 → rnd x = 0 ∧ rnd y = 0)
    (xs : List F) (hx : ∀ x, x ∈ xs → ∃ y, 0 ≤ y ∧ x = rnd y) (p : F) (hp : 0 ≤ p)
    (h : float_sum rnd (rnd p) xs = 0) : rnd p = 0 ∧ ∀ x, x ∈ xs → x = 0 := by
  unfold float_sum at h
  induction xs generalizing p with
  | nil => exact ⟨h, fun x hx => absurd hx (List.not_mem_nil x)⟩
  | cons x xs ih =>
    rw [List.foldl_cons] at h
    obtain ⟨y, hy, hxy⟩ := hx x (List.mem_cons_self x xs)
    have hsum : 0 ≤ rnd p + x := by
      rw [hxy]
      exact add_nonneg (hr1 p hp) (hr1 y hy)
    obtain ⟨h1, h2⟩ := ih (fun z hz => hx z (List.mem_cons_of_mem x hz)) (rnd p + x) hsum h
    rw [hxy] at h1
    obtain ⟨h3, h4⟩ := hr2 p y hp hy h1
    refine ⟨h3, ?_⟩
    intro z hz
    rcases List.mem_cons.mp hz with hz | hz
    · rw [hz, hxy, h4]
    · exact h2 z hz

/-- C14, amended. Distance kernel value: for every pair of 8-feature vectors
`a`, `b` and every rounding `rnd` of the `float` operations that keeps
non-negative numbers non-negative, `distance_pt(a, b)` is non-negative (for a
`sqrtf` that is non-negative on non-negative arguments) and is `sqrtf` applied
once to the running sum, every addition rounded, of the rounded squares of the
rounded differences `a[i] - b[i]`. It is `sqrtf` of the sum over the 8 features
of `(a[i] - b[i])^2` whenever no difference, no square and no prefix of the sum
of squares is changed by rounding. -/
theorem distance_pt_rounded_value (rnd sqrtf : F → F) (hr1 : ∀ x, 0 ≤ x → 0 ≤ rnd x)
    (hnn : ∀ x, 0 ≤ x → 0 ≤ sqrtf x) (a b : Point F) :
    0 ≤ Rounded.distance_pt rnd sqrtf a b ∧
    Rounded.distance_pt rnd sqrtf a b =
      sqrtf (float_sum rnd 0
        ((List.finRange FEATURES).map (fun i => rnd (rnd (a i - b i) * rnd (a i - b i))))) ∧
    ((∀ i, rnd (a i - b i) = a i - b i) →
      (∀ i, rnd ((a i - b i) * (a i - b i)) = (a i - b i) * (a i - b i)) →
      (∀ j, j ≤ FEATURES →
        rnd ((((List.finRange FEATURES).map (fun i => (a i - b i) * (a i - b i))).take j).sum) =
          (((List.finRange FEATURES).map (fun i => (a i - b i) * (a i - b i))).take j).sum) →
      Rounded.distance_pt rnd sqrtf a b = sqrtf (∑ i : Fin FEATURES, (a i - b i) ^ 2)) := by
  refine ⟨?_, rounded_distance_pt_eq rnd sqrtf a b, ?_⟩
  · rw [rounded_distance_pt_eq]
    apply hnn
    apply float_sum_nonneg rnd hr1 0 _ (le_refl 0)
    intro x hx
    obtain ⟨i, _, hi⟩ := List.mem_map.mp hx
    rw [← hi]
    exact hr1 _ (mul_self_nonneg _)
  · intro hdiff hsq hsum
    have hmap : (List.finRange FEATURES).map
          (fun i => rnd (rnd (a i - b i) * rnd (a i - b i))) =
        (List.finRange FEATURES).map (fun i => (a i - b i) * (a i - b i)) := by
      apply List.map_congr_left
      intro i _
      rw [hdiff i, hsq i]
    rw [rounded_distance_pt_eq, hmap, float_sum_exact rnd _
      (fun j hj => hsum j (by simpa using hj)), Fin.sum_univ_def]
    congr 2
    apply List.map_congr_left
    intro i _
    rw [sq]

/-- C16, amended. Distance kernel zero: for every rounding `rnd` of the `float`
operations that fixes `0`, keeps non-negative numbers non-negative and rounds
the sum of two non-negative `float`s to zero only when both are zero, and a
`sqrtf` that vanishes exactly at `0` on non-negative arguments:
`distance_pt(a, a) = 0` for every `a`; and for vectors `a`, `b` in which no
rounded squared difference of two unequal features is zero (no underflow),
`distance_pt(a, b) = 0` if and only if `a[i] = b[i]` for every feature `i`. -/
theorem distance_pt_zero (rnd sqrtf : F → F) (hr0 : rnd 0 = 0) (hr1 : ∀ x, 0 ≤ x → 0 ≤ rnd x)
    (hr2 : ∀ x y, 0 ≤ x → 0 ≤ y → rnd (rnd x + rnd y) = 0 → rnd x = 0 ∧ rnd y = 0)
    (hz : ∀ x, 0 ≤ x → (sqrtf x = 0 ↔ x = 0)) (a b : Point F)
    (hunder : ∀ i, a i ≠ b i → rnd (rnd (a i - b i) * rnd (a i - b i)) ≠ 0) :
    (Rounded.distance_pt rnd sqrtf a b = 0 ↔ ∀ i, a i = b i) ∧
      Rounded.distance_pt rnd sqrtf a a = 0 := by
  have hsame : ∀ p q : Point F, (∀ i, p i = q i) → Rounded.distance_pt rnd sqrtf p q = 0 := by
    intro p q h
    rw [rounded_distance_pt_eq, float_sum_zeros rnd hr0]
    · exact (hz 0 (le_refl 0)).mpr rfl
    · intro x hx
      obtain ⟨i, _, hi⟩ := List.mem_map.mp hx
      rw [← hi, h i, sub_self, hr0, mul_zero, hr0]
  refine ⟨⟨?_, hsame a b⟩, hsame a a (fun _ => rfl)⟩
  intro h i
  by_contra hne
  rw [rounded_distance_pt_eq] at h
  have hsq : ∀ x, x ∈ (List.finRange FEATURES).map
      (fun i => rnd (rnd (a i - b i) * rnd (a i - b i))) → ∃ y, 0 ≤ y ∧ x = rnd y := by
    intro x hx
    obtain ⟨j, _, hj⟩ := List.mem_map.mp hx
    exact ⟨_, mul_self_nonneg _, hj.symm⟩
  have hs0 := (hz _ (float_sum_nonneg rnd hr1 0 _ (le_refl 0)
    (fun x hx => by
      obtain ⟨y, hy, hxy⟩ := hsq x hx
      rw [hxy]
      exact hr1 y hy))).mp h
  nth_rewrite 1 [← hr0] at hs0
  obtain ⟨_, hall⟩ := float_sum_eq_zero rnd hr1 hr2 _ hsq 0 (le_refl 0) hs0
  exact hunder i hne (hall _ (List.mem_map.mpr ⟨i, List.mem_finRange i, rfl⟩))

theorem round_f32_tiny [FloorRing F] : round_f32 ((2 : F) ^ (-80 : Int)) = (2 : F) ^ (-80 : Int) := by
  have := round_f32_dyadic (F := F) 1 (-80) (by norm_num) (by norm_num)
  rw [Int.cast_one, one_mul] at this
  exact this

/-- Every rounded squared difference between `(2^-80, 0, ..., 0)` and the zero
vector is `0`: the square `2^-160` underflows. -/
theorem tiny_squares [FloorRing F] (i : Fin FEATURES) :
    round_f32 (round_f32 ((point_tiny : Point F) i - (broadcast 0 : Point F) i) *
      round_f32 ((point_tiny : Point F) i - (broadcast 0 : Point F) i)) = 0 := by
  unfold point_tiny broadcast
  by_cases h : i = 0
  · rw [if_pos h, sub_zero, round_f32_tiny, ← zpow_add₀ (two_ne_zero)]
    exact round_f32_underflow
  · rw [if_neg h, sub_zero, round_f32_zero, mul_zero, round_f32_zero]

theorem tiny_distance [FloorRing F] (sqrtf : F → F) :
    Rounded.distance_pt round_f32 sqrtf (point_tiny : Point F) (broadcast 0) = sqrtf 0 := by
  rw [rounded_distance_pt_eq, float_sum_zeros round_f32 round_f32_zero]
  intro x hx
  obtain ⟨i, _, hi⟩ := List.mem_map.mp hx
  rw [← hi]
  exact tiny_squares i

/-- Counterexample to C14 as stated: between `(2^-80, 0, ..., 0)` and the zero
vector `distance_pt` in `float` arithmetic returns `0`, while the square root
of the sum of the squared differences is `2^-80`, a non-zero `float`. -/
theorem distance_pt_value_counterexample :
    Rounded.distance_pt round_f32 (fun x : ℝ => round_f32 (Real.sqrt x)) point_tiny
      (broadcast 0) = 0 ∧
    Real.sqrt (∑ i : Fin FEATURES, ((point_tiny : Point ℝ) i - (broadcast 0 : Point ℝ) i) ^ 2) =
      (2 : ℝ) ^ (-80 : Int) ∧
    round_f32 ((2 : ℝ) ^ (-80 : Int)) = (2 : ℝ) ^ (-80 : Int) ∧ (2 : ℝ) ^ (-80 : Int) ≠ 0 := by
  refine ⟨?_, ?_, round_f32_tiny, zpow_ne_zero _ two_ne_zero⟩
  · rw [tiny_distance]
    simp only [Real.sqrt_zero]
    exact round_f32_zero
  · have h : (∑ i : Fin FEATURES, ((point_tiny : Point ℝ) i - (broadcast 0 : Point ℝ) i) ^ 2) =
        ((2 : ℝ) ^ (-80 : Int)) ^ 2 := by
      simp [Fin.sum_univ_eight, point_tiny, broadcast]
    rw [h, Real.sqrt_sq (le_of_lt (zpow_pos (by norm_num) _))]

/-- Counterexample to C16 as stated: `distance_pt` in `float` arithmetic
returns `0` between `(2^-80, 0, ..., 0)` and the zero vector, which differ in
feature `0`. -/
theorem distance_pt_zero_counterexample :
    Rounded.distance_pt round_f32 (fun x : ℝ => round_f32 (Real.sqrt x)) point_tiny
      (broadcast 0) = 0 ∧
    (point_tiny : Point ℝ) 0 ≠ (broadcast 0 : Point ℝ) 0 := by
  constructor
  · rw [tiny_distance]
    simp only [Real.sqrt_zero]
    exact round_f32_zero
  · unfold point_tiny broadcast
    rw [if_pos rfl]
    exact zpow_ne_zero _ two_ne_zero

theorem finRange_features : List.finRange FEATURES = [0, 1, 2, 3, 4, 5, 6, 7] := by
  decide

theorem fin_features_ne :
    ((1 : Fin FEATURES) = 0) = False ∧ ((2 : Fin FEATURES) = 0) = False ∧
    ((3 : Fin FEATURES) = 0) = False ∧ ((4 : Fin FEATURES) = 0) = False ∧
    ((5 : Fin FEATURES) = 0) = False ∧ ((6 : Fin FEATURES) = 0) = False ∧
    ((7 : Fin FEATURES) = 0) = False ∧ ((0 : Fin FEATURES) = 1) = False ∧
    ((2 : Fin FEATURES) = 1) = False ∧ ((3 : Fin FEATURES) = 1) = False ∧
    ((4 : Fin FEATURES) = 1) = False ∧ ((5 : Fin FEATURES) = 1) = False ∧
    ((6 : Fin FEATURES) = 1) = False ∧ ((7 : Fin FEATURES) = 1) = False := by
  simp only [eq_iff_iff, iff_false]
  decide

theorem small_int_floats [FloorRing F] :
    round_f32 (-1 : F) = -1 ∧ round_f32 (-3 : F) = -3 ∧ round_f32 (-4 : F) = -4 ∧
    round_f32 (9 : F) = 9 ∧ round_f32 (16 : F) = 16 ∧ round_f32 (25 : F) = 25 ∧
    round_f32 (2 : F) = 2 ∧ round_f32 (3 : F) = 3 ∧ round_f32 (4 : F) = 4 ∧
    round_f32 (5 : F) = 5 ∧ round_f32 (6 : F) = 6 ∧ round_f32 (7 : F) = 7 ∧
    round_f32 (8 : F) = 8 := by
  have hm1 := round_f32_intCast (F := F) (-1) (by norm_num)
  have hm3 := round_f32_intCast (F := F) (-3) (by norm_num)
  have hm4 := round_f32_intCast (F := F) (-4) (by norm_num)
  push_cast at hm1 hm3 hm4
  exact ⟨hm1, hm3, hm4, round_f32_ofNat 9 (by norm_num), round_f32_ofNat 16 (by norm_num),
    round_f32_ofNat 25 (by norm_num), round_f32_ofNat 2 (by norm_num),
    round_f32_ofNat 3 (by norm_num), round_f32_ofNat 4 (by norm_num),
    round_f32_ofNat 5 (by norm_num), round_f32_ofNat 6 (by norm_num),
    round_f32_ofNat 7 (by norm_num), round_f32_ofNat 8 (by norm_num)⟩

/-- No operation rounds on the 3-4-5 case of `test_distance.c`. -/
theorem exact_3_4 [FloorRing F] :
    (∀ i, round_f32 ((broadcast 0 : Point F) i - point_3_4 i) = broadcast 0 i - point_3_4 i) ∧
    (∀ i, round_f32 (((broadcast 0 : Point F) i - point_3_4 i) * (broadcast 0 i - point_3_4 i)) =
      (broadcast 0 i - point_3_4 i) * (broadcast 0 i - point_3_4 i)) ∧
    (∀ j, j ≤ FEATURES →
      round_f32 ((((List.finRange FEATURES).map
          (fun i => ((broadcast 0 : Point F) i - point_3_4 i) * (broadcast 0 i - point_3_4 i))).take
            j).sum) =
        (((List.finRange FEATURES).map
          (fun i => ((broadcast 0 : Point F) i - point_3_4 i) * (broadcast 0 i - point_3_4 i))).take
            j).sum) := by
  obtain ⟨hm1, hm3, hm4, h9, h16, h25, _⟩ := small_int_floats (F := F)
  refine ⟨?_, ?_, ?_⟩
  · intro i
    unfold broadcast point_3_4
    by_cases h0 : i = 0
    · rw [if_pos h0]
      norm_num [hm3]
    · by_cases h1 : i = 1
      · rw [if_neg h0, if_pos h1]
        norm_num [hm4]
      · rw [if_neg h0, if_neg h1]
        norm_num [round_f32_zero]
  · intro i
    unfold broadcast point_3_4
    by_cases h0 : i = 0
    · rw [if_pos h0]
      norm_num [h9]
    · by_cases h1 : i = 1
      · rw [if_neg h0, if_pos h1]
        norm_num [h16]
      · rw [if_neg h0, if_neg h1]
        norm_num [round_f32_zero]
  · intro j hj
    rw [finRange_features]
    obtain ⟨n1, n2, n3, n4, n5, n6, n7, m0, m2, m3, m4, m5, m6, m7⟩ := fin_features_ne
    interval_cases j <;>
      norm_num [broadcast, point_3_4, round_f32_zero, h9, h25, n1, n2, n3, n4, n5, n6, n7, m0,
        m2, m3, m4, m5, m6, m7]

/-- No operation rounds on the all-ones case of `test_distance.c`. -/
theorem exact_ones [FloorRing F] :
    (∀ i, round_f32 ((broadcast 0 : Point F) i - (broadcast 1 : Point F) i) =
      broadcast 0 i - broadcast 1 i) ∧
    (∀ i, round_f32 (((broadcast 0 : Point F) i - (broadcast 1 : Point F) i) *
        (broadcast 0 i - broadcast 1 i)) =
      (broadcast 0 i - broadcast 1 i) * (broadcast 0 i - broadcast 1 i)) ∧
    (∀ j, j ≤ FEATURES →
      round_f32 ((((List.finRange FEATURES).map
          (fun i => ((broadcast 0 : Point F) i - (broadcast 1 : Point F) i) *
            (broadcast 0 i - broadcast 1 i))).take j).sum) =
        (((List.finRange FEATURES).map
          (fun i => ((broadcast 0 : Point F) i - (broadcast 1 : Point F) i) *
            (broadcast 0 i - broadcast 1 i))).take j).sum) := by
  obtain ⟨hm1, _, _, _, _, _, h2, h3, h4, h5, h6, h7, h8⟩ := small_int_floats (F := F)
  refine ⟨?_, ?_, ?_⟩
  · intro i
    norm_num [broadcast, hm1]
  · intro i
    norm_num [broadcast, round_f32_one]
  · intro j hj
    rw [finRange_features]
    interval_cases j <;>
      norm_num [broadcast, round_f32_zero, round_f32_one, h2, h3, h4, h5, h6, h7, h8]

/-- Witness of the amended C14 on the cases of `test_distance.c`, in `float`
arithmetic over the reals with the real square root: the distance from
`(0, ..., 0)` to `(3, 4, 0, ..., 0)` is `5`, and from `(0, ..., 0)` to
`(1, ..., 1)` it is the square root of `8`. -/
theorem distance_pt_rounded_value_witness :
    (∀ x : ℝ, 0 ≤ x → 0 ≤ round_f32 x) ∧ (∀ x : ℝ, 0 ≤ x → 0 ≤ Real.sqrt x) ∧
    Rounded.distance_pt round_f32 Real.sqrt (broadcast 0) (point_3_4 : Point ℝ) = 5 ∧
    Rounded.distance_pt round_f32 Real.sqrt (broadcast 0) (broadcast 1 : Point ℝ) = Real.sqrt 8 ∧
    0 ≤ Rounded.distance_pt round_f32 Real.sqrt (broadcast 0) (point_3_4 : Point ℝ) := by
  have hnn : ∀ x : ℝ, 0 ≤ x → 0 ≤ Real.sqrt x := fun x _ => Real.sqrt_nonneg x
  refine ⟨round_f32_nonneg, hnn, ?_, ?_,
    (distance_pt_rounded_value round_f32 Real.sqrt round_f32_nonneg hnn (broadcast 0)
      point_3_4).1⟩
  · rw [(distance_pt_rounded_value round_f32 Real.sqrt round_f32_nonneg hnn (broadcast 0)
      point_3_4).2.2 exact_3_4.1 exact_3_4.2.1 exact_3_4.2.2]
    have h : (∑ i : Fin FEATURES, ((broadcast 0 : Point ℝ) i - point_3_4 i) ^ 2) = 5 ^ 2 := by
      simp [Fin.sum_univ_eight, broadcast, point_3_4]
      norm_num
    rw [h, Real.sqrt_sq (by norm_num)]
  · rw [(distance_pt_rounded_value round_f32 Real.sqrt round_f32_nonneg hnn (broadcast 0)
      (broadcast 1)).2.2 exact_ones.1 exact_ones.2.1 exact_ones.2.2]
    congr 1
    simp [broadcast]

/-- No squared difference underflows on the 3-4-5 case of `test_distance.c`. -/
theorem no_underflow_3_4 [FloorRing F] (i : Fin FEATURES)
    (h : (broadcast 0 : Point F) i ≠ point_3_4 i) :
    round_f32 (round_f32 ((broadcast 0 : Point F) i - point_3_4 i) *
      round_f32 ((broadcast 0 : Point F) i - point_3_4 i)) ≠ 0 := by
  rw [exact_3_4.1 i, exact_3_4.2.1 i]
  exact mul_self_ne_zero.mpr (sub_ne_zero.mpr h)

/-- Witness of the amended C16 in `float` arithmetic over the reals with the
real square root, on the zero-distance case and the 3-4-5 case of
`test_distance.c`. -/
theorem distance_pt_zero_witness :
    round_f32 (0 : ℝ) = 0 ∧ (∀ x : ℝ, 0 ≤ x → 0 ≤ round_f32 x) ∧
    (∀ x y : ℝ, 0 ≤ x → 0 ≤ y → round_f32 (round_f32 x + round_f32 y) = 0 →
      round_f32 x = 0 ∧ round_f32 y = 0) ∧
    (∀ x : ℝ, 0 ≤ x → (Real.sqrt x = 0 ↔ x = 0)) ∧
    (∀ i, (broadcast 0 : Point ℝ) i ≠ point_3_4 i →
      round_f32 (round_f32 ((broadcast 0 : Point ℝ) i - point_3_4 i) *
        round_f32 ((broadcast 0 : Point ℝ) i - point_3_4 i)) ≠ 0) ∧
    Rounded.distance_pt round_f32 Real.sqrt (point_ramp : Point ℝ) point_ramp = 0 ∧
    Rounded.distance_pt round_f32 Real.sqrt (broadcast 0) (point_3_4 : Point ℝ) ≠ 0 := by
  have hz : ∀ x : ℝ, 0 ≤ x → (Real.sqrt x = 0 ↔ x = 0) := fun x hx => Real.sqrt_eq_zero hx
  refine ⟨round_f32_zero, round_f32_nonneg, round_f32_add_eq_zero, hz, no_underflow_3_4,
    (distance_pt_zero round_f32 Real.sqrt round_f32_zero round_f32_nonneg round_f32_add_eq_zero
      hz point_ramp point_ramp (fun i h => absurd rfl h)).2, ?_⟩
  rw [Ne, (distance_pt_zero round_f32 Real.sqrt round_f32_zero round_f32_nonneg
    round_f32_add_eq_zero hz (broadcast 0) point_3_4 no_underflow_3_4).1]
  intro h
  have := h ⟨0, by decide⟩
  simp [broadcast, point_3_4] at this

end KMeans
